import Mathlib

/-!
# go-sql-generator: statement builders and the recursive persister

A shallow embedding of `main.go`.  Builder methods mutate their receiver and
return it; here every method is a function from the receiver's state to its
new state.  A Go `panic` is an `Error` returned next to the state reached at
the moment of the panic.
-/

namespace SqlGen

/-- Go's `string`. -/
abbrev string := String

/-! ## The `strings` and `reflect` packages, as far as `main.go` uses them -/

/-- Go's `strings.Join(elems, sep)`. -/
def strings.Join : List string → string → string
  | [], _ => ""
  | [x], _ => x
  | x :: y :: rest, sep => x ++ sep ++ strings.Join (y :: rest) sep

/-- Splitting a list of characters at every occurrence of `sep`. -/
def strings.splitChars (sep : Char) : List Char → List (List Char)
  | [] => [[]]
  | c :: cs =>
    if c = sep then [] :: strings.splitChars sep cs
    else
      match strings.splitChars sep cs with
      | [] => [[c]]
      | h :: t => (c :: h) :: t

/-- Go's `strings.Split(s, sep)` for a one-character separator (the source only
splits on `"-"`). -/
def strings.Split (s : string) (sep : Char) : List string :=
  (strings.splitChars sep s.data).map String.mk

/-- Go's `reflect.StructTag`: the `key:"value"` pairs of a field's tag, in order. -/
abbrev StructTag := List (string × string)

/-- Go's `StructTag.Get(key)`: the value of the first pair with that key, `""` when
the key is absent. -/
def StructTag.Get (tag : StructTag) (key : string) : string :=
  match tag.find? (fun kv => kv.1 == key) with
  | some kv => kv.2
  | none => ""

/-- Go's `reflect.Type`, restricted to the kinds that occur in `main.go`.  A struct
type is referred to by name; its fields are found in the declarations. -/
inductive GoType where
  | string
  | int
  | slice (elem : GoType)
  | named (name : SqlGen.string)
deriving DecidableEq

/-- Go's `reflect.StructField`. -/
structure StructField where
  Name : string
  Type_ : GoType
  Tag : StructTag
deriving DecidableEq

/-- A declared struct type: its name and its fields in declaration order. -/
structure StructType where
  Name : string
  Fields : List StructField
deriving DecidableEq

/-- The struct types declared in the program. -/
abbrev Decls := List StructType

/-- A Go value held in an `interface{}`.  A struct value carries its type name
and, for each declared field in order, the field's descriptor and its value, so
that `reflect.TypeOf` and `reflect.ValueOf` always agree. -/
inductive Value where
  | str (s : SqlGen.string)
  | int (n : Int)
  | slice (xs : List Value)
  | struct (name : SqlGen.string) (fields : List (StructField × Value))

/-- The panics of `main.go`, by the error kinds of the specification, and the
panics raised by the Go runtime or by `reflect` itself. -/
inductive Error where
  /-- Raised by `from_object` or `from_many_objects` on an Insert with columns or rows. -/
  | Misuse
  /-- The message is "you must provide at least one object to insert". -/
  | EmptyInput
  /-- The message is "cannot do proper reflection on object because there is no json tag". -/
  | Configuration
  /-- The message is "field not found". -/
  | FieldNotFound
  /-- A panic of `reflect` (wrong kind) or an index out of range. -/
  | Runtime
deriving DecidableEq

/-! ## Statements -/

/-- The `Query` struct: the argument carrier. -/
structure Query where
  args : List Value := []

/-- The method `Query.Args()`. -/
def Query.Args (q : Query) : List Value := q.args

/-- The `Insert` struct. -/
structure Insert extends Query where
  table : string := ""
  columns : List string := []
  values : List (List Value) := []

/-- The method `Insert.Args()`, promoted from the embedded `Query`. -/
def Insert.Args (i : Insert) : List Value := i.toQuery.Args

/-- The method `Insert.Into(table, columns...)`. -/
def Insert.Into (i : Insert) (table : string) (columns : List string) : Insert :=
  { i with table := table, columns := columns }

/-- The method `Insert.Values(vals...)`. -/
def Insert.Values (i : Insert) (vals : List Value) : Insert :=
  { i with values := i.values ++ [vals], args := i.args ++ vals }

/-- The method `Insert.String()`. -/
def Insert.String (i : Insert) : string :=
  let placeholders := List.replicate i.columns.length "?"
  let valuesStr := i.values.map (fun _ => "(" ++ strings.Join placeholders ", " ++ ")")
  "INSERT INTO " ++ i.table ++ " (" ++ strings.Join i.columns ", " ++ ") VALUES "
    ++ strings.Join valuesStr ", "

/-- Applying `Values` once per row, in order. -/
def Insert.ValuesAll (i : Insert) (rows : List (List Value)) : Insert :=
  rows.foldl Insert.Values i

/-- The `Select` struct. -/
structure Select extends Query where
  select_section : string := ""
  from_section : string := ""
  join_section : string := ""
  where_section : string := ""
  group_section : string := ""
  having_section : string := ""
  order_section : string := ""
  limit_section : string := ""
  offset_section : string := ""

/-- The `Update` struct. -/
structure Update extends Query where
  table : string := ""
  set_section : string := ""
  where_ : string := ""

/-- The `Delete` struct. -/
structure Delete extends Query where
  table : string := ""
  where_ : string := ""

/-- The method `Select.Args()`, promoted from the embedded `Query`. -/
def Select.Args (s : Select) : List Value := s.toQuery.Args

/-- The method `Select.From(table)`. -/
def Select.From (s : Select) (table : string) : Select :=
  { s with from_section := table }

/-- The method `Select.Join(table, onCondition)`. -/
def Select.Join (s : Select) (table onCondition : string) : Select :=
  { s with join_section := s.join_section ++ (" JOIN " ++ table ++ " ON " ++ onCondition) }

/-- The method `Select.LeftJoin(table, onCondition)`. -/
def Select.LeftJoin (s : Select) (table onCondition : string) : Select :=
  { s with join_section := s.join_section ++ (" LEFT JOIN " ++ table ++ " ON " ++ onCondition) }

/-- The method `Select.Where(condition, args...)`. -/
def Select.Where (s : Select) (condition : string) (args : List Value) : Select :=
  let w := if s.where_section ≠ "" then s.where_section ++ " AND " else s.where_section
  { s with where_section := w ++ condition, args := s.args ++ args }

/-- The method `Select.GroupBy(columns...)`. -/
def Select.GroupBy (s : Select) (columns : List string) : Select :=
  { s with group_section := strings.Join columns ", " }

/-- The method `Select.Having(condition, args...)`. -/
def Select.Having (s : Select) (condition : string) (args : List Value) : Select :=
  { s with having_section := condition, args := s.args ++ args }

/-- The method `Select.OrderBy(order)`. -/
def Select.OrderBy (s : Select) (order : string) : Select :=
  { s with order_section := order }

/-- The method `Select.Limit(n)`; `fmt.Sprintf("%d", n)` is the decimal rendering of `n`. -/
def Select.Limit (s : Select) (n : Int) : Select :=
  { s with limit_section := toString n }

/-- The method `Select.Offset(n)`. -/
def Select.Offset (s : Select) (n : Int) : Select :=
  { s with offset_section := toString n }

/-- The method `Select.String()`. -/
def Select.String (s : Select) : string :=
  let sb := "SELECT " ++ s.select_section
  let sb := if s.from_section ≠ "" then sb ++ (" FROM " ++ s.from_section) else sb
  let sb := sb ++ s.join_section
  let sb := if s.where_section ≠ "" then sb ++ (" WHERE " ++ s.where_section) else sb
  let sb := if s.group_section ≠ "" then sb ++ (" GROUP BY " ++ s.group_section) else sb
  let sb := if s.having_section ≠ "" then sb ++ (" HAVING " ++ s.having_section) else sb
  let sb := if s.order_section ≠ "" then sb ++ (" ORDER BY " ++ s.order_section) else sb
  let sb := if s.limit_section ≠ "" then sb ++ (" LIMIT " ++ s.limit_section) else sb
  let sb := if s.offset_section ≠ "" then sb ++ (" OFFSET " ++ s.offset_section) else sb
  sb

/-- The method `Select.Select(columns...)`. -/
def Select.Select (s : Select) (columns : List string) : Select :=
  let sel := if s.select_section ≠ "" then s.select_section ++ ", " else s.select_section
  { s with select_section := sel ++ strings.Join columns ", " }

/-- The method `Update.Args()`, promoted from the embedded `Query`. -/
def Update.Args (u : Update) : List Value := u.toQuery.Args

/-- The method `Update.Table(table)`. -/
def Update.Table (u : Update) (table : string) : Update :=
  { u with table := table }

/-- The method `Update.Set(assignments, args...)`. -/
def Update.Set (u : Update) (assignments : string) (args : List Value) : Update :=
  { u with set_section := assignments, args := u.args ++ args }

/-- The method `Update.Where(condition, args...)`. -/
def Update.Where (u : Update) (condition : string) (args : List Value) : Update :=
  let w := if u.where_ ≠ "" then u.where_ ++ " AND " else u.where_
  { u with where_ := w ++ condition, args := u.args ++ args }

/-- The method `Update.String()`. -/
def Update.String (u : Update) : string :=
  let sb := "UPDATE " ++ u.table ++ " SET " ++ u.set_section
  if u.where_ ≠ "" then sb ++ (" WHERE " ++ u.where_) else sb

/-- The method `Delete.Args()`, promoted from the embedded `Query`. -/
def Delete.Args (d : Delete) : List Value := d.toQuery.Args

/-- The method `Delete.From(table)`. -/
def Delete.From (d : Delete) (table : string) : Delete :=
  { d with table := table }

/-- The method `Delete.Where(condition, args...)`. -/
def Delete.Where (d : Delete) (condition : string) (args : List Value) : Delete :=
  let w := if d.where_ ≠ "" then d.where_ ++ " AND " else d.where_
  { d with where_ := w ++ condition, args := d.args ++ args }

/-- The method `Delete.String()`. -/
def Delete.String (d : Delete) : string :=
  let sb := "DELETE FROM " ++ d.table
  if d.where_ ≠ "" then sb ++ (" WHERE " ++ d.where_) else sb

/-! ## Object-driven inserts -/

/-- The loop of `from_object` over the fields of the object: every field with a
`json` tag adds a column and a value, a field without one panics. -/
def Insert.from_object_loop :
    List (StructField × Value) → Insert → List Value → Except Error (List Value) × Insert
  | [], insert, first_set_of_values => (.ok first_set_of_values, insert)
  | (field, v) :: rest, insert, first_set_of_values =>
    if field.Tag.Get "json" ≠ "" then
      Insert.from_object_loop rest
        { insert with columns := insert.columns ++ [field.Tag.Get "json"] }
        (first_set_of_values ++ [v])
    else (.error .Configuration, insert)

/-- The method `Insert.from_object(obj)`: the result, and the state of the receiver when
the call returns or panics.  `NumField` panics on a value that is no struct. -/
def Insert.from_object (insert : Insert) (obj : Value) : Except Error Unit × Insert :=
  if insert.columns.length > 0 then (.error .Misuse, insert)
  else if insert.values.length > 0 then (.error .Misuse, insert)
  else
    match obj with
    | .struct _ fields =>
      match Insert.from_object_loop fields insert [] with
      | (.ok first_set_of_values, insert1) => (.ok (), insert1.Values first_set_of_values)
      | (.error e, insert1) => (.error e, insert1)
    | _ => (.error .Runtime, insert)

/-- The method `Insert.from_many_objects(objects)`. -/
def Insert.from_many_objects (insert : Insert) (objects : List Value) :
    Except Error Unit × Insert :=
  if insert.columns.length > 0 then (.error .Misuse, insert)
  else if insert.values.length > 0 then (.error .Misuse, insert)
  else
    match objects with
    | [] => (.error .EmptyInput, insert)
    | first :: others =>
      match insert.from_object first with
      | (.ok _, insert1) => (.ok (), others.foldl (fun i obj => i.Values [obj]) insert1)
      | (.error e, insert1) => (.error e, insert1)

/-! ## The fake executor -/

/-- One call of `fake_insert_execution`: the Insert it was handed and the
identifier it returned. -/
structure Submission where
  insert : Insert
  id : Int

/-- The global state: the counter `fake_ids` and, as a record of the calls of
`fake_insert_execution`, the submissions made so far, oldest first. -/
structure World where
  fake_ids : Int := 12
  executed : List Submission := []

/-- The largest value of Go's 64-bit `int`. -/
def maxInt : Int := 2 ^ 63 - 1

/-- The result of `x + 1` on Go's 64-bit `int`, with wrap-around. -/
def incInt (x : Int) : Int := (x + 1 + 2 ^ 63) % 2 ^ 64 - 2 ^ 63

/-- The method `Insert.fake_insert_execution()`. -/
def Insert.fake_insert_execution (insert : Insert) (w : World) : Int × World :=
  (w.fake_ids,
    { fake_ids := incInt w.fake_ids, executed := w.executed ++ [⟨insert, w.fake_ids⟩] })

/-! ## The relation metadata -/

/-- The fields of a type, as `NumField` and `Field` give them; both panic on a
type that is no struct. -/
def GoType.Fields (decls : Decls) : GoType → Except Error (List StructField)
  | .named name =>
    match decls.find? (fun t => t.Name == name) with
    | some t => .ok t.Fields
    | none => .error .Runtime
  | _ => .error .Runtime

/-- Go's `Type.Elem()`; it panics on a type without elements. -/
def GoType.Elem : GoType → Except Error GoType
  | .slice elem => .ok elem
  | _ => .error .Runtime

/-- The loop of `find_by_json_tag`. -/
def find_by_json_tag_loop (json_tag : string) : List StructField → Except Error StructField
  | [] => .error .FieldNotFound
  | field :: rest =>
    if field.Tag.Get "json" = json_tag then .ok field else find_by_json_tag_loop json_tag rest

/-- The function `find_by_json_tag(type_, json_tag)`. -/
def find_by_json_tag (decls : Decls) (type_ : GoType) (json_tag : string) :
    Except Error StructField :=
  match type_.Fields decls with
  | .ok fields => find_by_json_tag_loop json_tag fields
  | .error e => .error e

/-- The many-to-many branch of `recursive_create` for one field: the name of
the join table, or the panic of `Elem`, of the index `[1]` or of
`find_by_json_tag`. -/
def join_table_name (decls : Decls) (field : StructField) : Except Error string :=
  match field.Type_.Elem with
  | .error e => .error e
  | .ok type_in_list =>
    let this_structFields_relationship_status := field.Tag.Get "many-to-many"
    match (strings.Split this_structFields_relationship_status '-').get? 1 with
    | none => .error .Runtime
    | some other =>
      match find_by_json_tag decls type_in_list other with
      | .error e => .error e
      | .ok related =>
        let related_structFields_relationship_status := related.Tag.Get "many-to-many"
        .ok ((strings.Split this_structFields_relationship_status '-').headD ""
          ++ "_" ++ (strings.Split related_structFields_relationship_status '-').headD "")

/-! ## The recursive persister -/

/-- The first loop of `recursive_create`: the columns and values of the fields,
a panic at a field without a `json` tag. -/
def recursive_create_collect :
    List (StructField × Value) → List string → List Value →
      Except Error (List string × List Value)
  | [], columns, values => .ok (columns, values)
  | (field, v) :: rest, columns, values =>
    if field.Tag.Get "json" = "" then .error .Configuration
    else if field.Tag.Get "relation" = "one-to-many"
        ∨ field.Tag.Get "relation" = "many-to-many" then
      recursive_create_collect rest columns values
    else
      recursive_create_collect rest (columns ++ [field.Tag.Get "json"]) (values ++ [v])

/-- The Insert that `recursive_create` builds from the collected columns and
values and the extras; `extras` lists the entries of the map in the order in
which the `range` loop visits them. -/
def recursive_create_insert (name : string) (columns : List string) (values : List Value)
    (extras : List (string × Value)) : Insert :=
  { table := name
    columns := columns ++ extras.map Prod.fst
    values := [values ++ extras.map Prod.snd]
    args := values ++ extras.map Prod.snd }

mutual
/-- The function `recursive_create(obj, extras)`: the identifier returned or the panic, and
the global state afterwards. -/
def recursive_create (decls : Decls) (obj : Value) (extras : List (string × Value))
    (w : World) : Except Error Int × World :=
  match obj with
  | .struct name fields =>
    match recursive_create_collect fields [] [] with
    | .error e => (.error e, w)
    | .ok (columns, values) =>
      let idw := (recursive_create_insert name columns values extras).fake_insert_execution w
      match recursive_create_fields decls fields idw.1 idw.2 with
      | (.error e, w2) => (.error e, w2)
      | (.ok _, w2) => (.ok idw.1, w2)
  | _ => (.error .Runtime, w)
/-- The second loop of `recursive_create`, over the fields. -/
def recursive_create_fields (decls : Decls) (fields : List (StructField × Value)) (id : Int)
    (w : World) : Except Error Unit × World :=
  match fields with
  | [] => (.ok (), w)
  | (field, v) :: rest =>
    if field.Tag.Get "one-to-many" ≠ "" then
      match v with
      | .slice xs =>
        match recursive_create_children decls xs (field.Tag.Get "one-to-many") id w with
        | (.error e, w1) => (.error e, w1)
        | (.ok _, w1) => recursive_create_fields decls rest id w1
      | .str s => if s = "" then recursive_create_fields decls rest id w else (.error .Runtime, w)
      | _ => (.error .Runtime, w)
    else if field.Tag.Get "many-to-many" ≠ "" then
      match join_table_name decls field with
      | .error e => (.error e, w)
      | .ok _ => recursive_create_fields decls rest id w
    else recursive_create_fields decls rest id w
/-- The loop over the elements of a one-to-many slice. -/
def recursive_create_children (decls : Decls) (xs : List Value) (fk : string) (id : Int)
    (w : World) : Except Error Unit × World :=
  match xs with
  | [] => (.ok (), w)
  | child :: rest =>
    match recursive_create decls child [(fk, .int id)] w with
    | (.error e, w1) => (.error e, w1)
    | (.ok _, w1) => recursive_create_children decls rest fk id w1
end

/-- The `User` struct type. -/
def User : StructType :=
  { Name := "User"
    Fields := [
      ⟨"Name", .string, [("json", "name")]⟩,
      ⟨"Email", .string, [("json", "email")]⟩,
      ⟨"Age", .int, [("json", "age")]⟩,
      ⟨"OthersRefered", .slice (.named "User"),
        [("json", "othersRefered"), ("one-to-many", "refered_by")]⟩,
      ⟨"WorksFor", .slice (.named "User"),
        [("json", "worksFor"), ("many-to-many", "boss-workers")]⟩,
      ⟨"Workers", .slice (.named "User"),
        [("json", "workers"), ("many-to-many", "worker-worksFor")]⟩] }

/-- A `User` value: a composite literal with the given fields; `WorksFor` and
`Workers` are left nil. -/
def User.mk (name email : string) (age : Int) (othersRefered : List Value) : Value :=
  .struct User.Name
    (User.Fields.zip [.str name, .str email, .int age, .slice othersRefered, .slice [], .slice []])

/-- The object `u` built in `main`. -/
def main_u : Value :=
  User.mk "shmuli" "shmuli@example.com" 30
    [User.mk "berel" "berel@example.com" 30 [],
     User.mk "lev" "lev@example.com" 30 [User.mk "fag" "fag.com" 21 []]]

/-! ## Sequences of calls -/

/-- Applying `Where` once per call, in order. -/
def Select.WhereAll (s : SqlGen.Select) (calls : List (string × List Value)) : SqlGen.Select :=
  calls.foldl (fun s c => s.Where c.1 c.2) s

/-- The Inserts that the operations of the builder produce from the zero value
`&Insert{}`; the receiver of a call that panicked is included. -/
inductive Insert.Built : Insert → Prop
  | fresh : Insert.Built {}
  | Into (i : Insert) (table : string) (columns : List string) :
      Insert.Built i → Insert.Built (i.Into table columns)
  | Values (i : Insert) (vals : List Value) : Insert.Built i → Insert.Built (i.Values vals)
  | from_object (i : Insert) (obj : Value) :
      Insert.Built i → Insert.Built (i.from_object obj).2
  | from_many_objects (i : Insert) (objects : List Value) :
      Insert.Built i → Insert.Built (i.from_many_objects objects).2

/-- The column name of a field: its `json` tag. -/
def StructField.column (field : StructField) : string := field.Tag.Get "json"

/-- An example struct type with the three columns `name`, `email`, `age` (the
example of the specification; `main.go` declares no such type). -/
def Person : StructType :=
  { Name := "Person"
    Fields := [
      ⟨"Name", .string, [("json", "name")]⟩,
      ⟨"Email", .string, [("json", "email")]⟩,
      ⟨"Age", .int, [("json", "age")]⟩] }

/-- A `Person` value. -/
def Person.mk (name email : string) (age : Int) : Value :=
  .struct Person.Name (Person.Fields.zip [.str name, .str email, .int age])

/-! ## The object tree -/

/-- A node of the object tree: its position in depth-first pre-order (the root
has position `0`), the object, and for a node that is not the root the position
of its parent and the foreign-key column named by the one-to-many field that
holds it. -/
structure TreeNode where
  idx : Nat
  node : Value
  parent : Option (Nat × string)

mutual
/-- The nodes of the tree below `obj` in depth-first pre-order: the object,
then the elements of its one-to-many fields, field by field and left to right,
each with its whole subtree.  `next` is the position of `obj`. -/
def preorder (next : Nat) (parent : Option (Nat × string)) : Value → List TreeNode
  | .struct name fields =>
    ⟨next, .struct name fields, parent⟩ :: preorder_fields next (next + 1) fields
  | _ => []
/-- The nodes below the fields of the node at position `me`. -/
def preorder_fields (me next : Nat) : List (StructField × Value) → List TreeNode
  | [] => []
  | (field, v) :: rest =>
    if field.Tag.Get "one-to-many" ≠ "" then
      match v with
      | .slice xs =>
        preorder_children me next (field.Tag.Get "one-to-many") xs
          ++ preorder_fields me
              (next + (preorder_children me next (field.Tag.Get "one-to-many") xs).length) rest
      | _ => preorder_fields me next rest
    else preorder_fields me next rest
/-- The nodes below the elements of one one-to-many field. -/
def preorder_children (me next : Nat) (fk : string) : List Value → List TreeNode
  | [] => []
  | child :: rest =>
    preorder next (some (me, fk)) child
      ++ preorder_children me (next + (preorder next (some (me, fk)) child).length) fk rest
end

mutual
/-- The object tree is well-formed for `recursive_create`: every node is a
struct whose fields all carry a column name, every one-to-many field holds a
slice of such nodes, and the join table of every many-to-many field can be
derived. -/
def persistable (decls : Decls) : Value → Bool
  | .struct _ fields =>
    fields.all (fun f => f.1.column != "") && persistable_fields decls fields
  | _ => false
/-- The fields of a well-formed node. -/
def persistable_fields (decls : Decls) : List (StructField × Value) → Bool
  | [] => true
  | (field, v) :: rest =>
    (if field.Tag.Get "one-to-many" ≠ "" then
      match v with
      | .slice xs => persistable_children decls xs
      | _ => false
    else if field.Tag.Get "many-to-many" ≠ "" then (join_table_name decls field).isOk
    else true) && persistable_fields decls rest
/-- The elements of a one-to-many field of a well-formed node. -/
def persistable_children (decls : Decls) : List Value → Bool
  | [] => true
  | child :: rest => persistable decls child && persistable_children decls rest
end

/-- The Insert that `recursive_create` builds for the object `node` and the
given extras (the zero Insert where it builds none). -/
def node_insert (node : Value) (extras : List (string × Value)) : Insert :=
  match node with
  | .struct name fields =>
    match recursive_create_collect fields [] [] with
    | .ok (columns, values) => recursive_create_insert name columns values extras
    | .error _ => {}
  | _ => {}

/-- The extras with which a node of the tree is persisted: the caller's extras
for the root, the foreign-key column with the identifier `c + p` of the parent
at position `p` for every other node. -/
def TreeNode.extras (c : Int) (root_extras : List (string × Value)) (n : TreeNode) :
    List (string × Value) :=
  match n.parent with
  | none => root_extras
  | some (p, fk) => [(fk, .int (c + p))]

/-- The submission expected for a node of the tree when the counter starts at
`c`. -/
def TreeNode.submission (c : Int) (root_extras : List (string × Value)) (n : TreeNode) :
    Submission :=
  ⟨node_insert n.node (n.extras c root_extras), c + n.idx⟩

/-- The elements of the one-to-many fields among `fields`, each with the
foreign-key column named by its field, in order. -/
def one_to_many_children : List (StructField × Value) → List (string × Value)
  | [] => []
  | (field, v) :: rest =>
    (if field.Tag.Get "one-to-many" ≠ "" then
      match v with
      | .slice xs => xs.map (fun x => (field.Tag.Get "one-to-many", x))
      | _ => []
    else []) ++ one_to_many_children rest

/-- The children of an object in the tree. -/
def Value.children : Value → List (string × Value)
  | .struct _ fields => one_to_many_children fields
  | _ => []

/-- A node other than the first of a pre-order list, with its parent inside
the list: the parent stands at position `p`, before the node, and holds the
node in the one-to-many field whose foreign-key column is `fk`. -/
def HasParentIn (L : List TreeNode) (next k : Nat) (n : TreeNode) : Prop :=
  ∃ p fk pn, n.parent = some (p, fk) ∧ next ≤ p ∧ p < next + k
    ∧ L[p - next]? = some pn ∧ (fk, n.node) ∈ pn.node.children

/-- An example struct type (`main.go` declares no such type): a category with
the column `parent_id` of its own and sub-categories that refer to it through
the foreign-key column `parent_id`. -/
def Category : StructType :=
  { Name := "Category"
    Fields := [
      ⟨"ParentID", .int, [("json", "parent_id")]⟩,
      ⟨"Children", .slice (.named "Category"),
        [("json", "children"), ("one-to-many", "parent_id")]⟩] }

/-- A `Category` value. -/
def Category.mk (parentID : Int) (children : List Value) : Value :=
  .struct Category.Name (Category.Fields.zip [.int parentID, .slice children])

/-! ## Sequences of configuration calls -/

/-- The number of `?` placeholders in a text. -/
def placeholders (s : string) : Nat := s.data.count '?'

/-- One configuration call on a Select. -/
inductive SelectCall where
  | Select (columns : List string)
  | From (table : string)
  | Join (table onCondition : string)
  | LeftJoin (table onCondition : string)
  | Where (condition : string) (args : List Value)
  | GroupBy (columns : List string)
  | Having (condition : string) (args : List Value)
  | OrderBy (order : string)
  | Limit (n : Int)
  | Offset (n : Int)

/-- The effect of one call on the Select. -/
def SelectCall.apply (s : SqlGen.Select) : SelectCall → SqlGen.Select
  | .Select columns => s.Select columns
  | .From table => s.From table
  | .Join table onCondition => s.Join table onCondition
  | .LeftJoin table onCondition => s.LeftJoin table onCondition
  | .Where condition args => s.Where condition args
  | .GroupBy columns => s.GroupBy columns
  | .Having condition args => s.Having condition args
  | .OrderBy order => s.OrderBy order
  | .Limit n => s.Limit n
  | .Offset n => s.Offset n

/-- The Select after a sequence of calls on a fresh Select. -/
def SelectCall.run (calls : List SelectCall) : SqlGen.Select :=
  calls.foldl SelectCall.apply {}

/-- The text and the arguments of a call that takes arguments. -/
def SelectCall.carried : SelectCall → Option (string × List Value)
  | .Where condition args => some (condition, args)
  | .Having condition args => some (condition, args)
  | _ => none

/-- A call that takes arguments passes as many as its text has placeholders;
the texts of the other calls have no placeholder. -/
def SelectCall.balanced : SelectCall → Prop
  | .Select columns => ∀ c ∈ columns, placeholders c = 0
  | .From table => placeholders table = 0
  | .Join table onCondition => placeholders table = 0 ∧ placeholders onCondition = 0
  | .LeftJoin table onCondition => placeholders table = 0 ∧ placeholders onCondition = 0
  | .Where condition args => placeholders condition = args.length
  | .GroupBy columns => ∀ c ∈ columns, placeholders c = 0
  | .Having condition args => placeholders condition = args.length
  | .OrderBy order => placeholders order = 0
  | .Limit _ => True
  | .Offset _ => True

instance SelectCall.decidableBalanced (c : SelectCall) : Decidable c.balanced := by
  cases c <;> unfold SelectCall.balanced <;> infer_instance

/-- The calls come in the order of the rendered clauses: `Having` is called at
most once, and neither `Where` nor `Having` is called after it. -/
def SelectCall.inOrder : List SelectCall → Bool
  | [] => true
  | .Having _ _ :: rest => rest.all (fun c => c.carried.isNone)
  | _ :: rest => SelectCall.inOrder rest

/-- One configuration call on an Update. -/
inductive UpdateCall where
  | Table (table : string)
  | Set (assignments : string) (args : List Value)
  | Where (condition : string) (args : List Value)

/-- The effect of one call on the Update. -/
def UpdateCall.apply (u : Update) : UpdateCall → Update
  | .Table table => u.Table table
  | .Set assignments args => u.Set assignments args
  | .Where condition args => u.Where condition args

/-- The Update after a sequence of calls on a fresh Update. -/
def UpdateCall.run (calls : List UpdateCall) : Update :=
  calls.foldl UpdateCall.apply {}

/-- The text and the arguments of a call that takes arguments. -/
def UpdateCall.carried : UpdateCall → Option (string × List Value)
  | .Table _ => none
  | .Set assignments args => some (assignments, args)
  | .Where condition args => some (condition, args)

/-- A call that takes arguments passes as many as its text has placeholders;
the table name has no placeholder. -/
def UpdateCall.balanced : UpdateCall → Prop
  | .Table table => placeholders table = 0
  | .Set assignments args => placeholders assignments = args.length
  | .Where condition args => placeholders condition = args.length

instance UpdateCall.decidableBalanced (c : UpdateCall) : Decidable c.balanced := by
  cases c <;> unfold UpdateCall.balanced <;> infer_instance

/-- The calls come in the order of the rendered clauses: `Set` is called at
most once, and before every `Where`. -/
def UpdateCall.inOrder : List UpdateCall → Bool
  | [] => true
  | .Table _ :: rest => UpdateCall.inOrder rest
  | _ :: rest => rest.all (fun c => match c with | .Set _ _ => false | _ => true)

/-- The where text after a sequence of conditions, as the three `Where` methods
build it, starting from the text `w`. -/
def whereFrom (w : string) : List string → string
  | [] => w
  | c :: cs => whereFrom ((if w ≠ "" then w ++ " AND " else w) ++ c) cs

/-- The texts `segs` stand in the rendering `T` in this order: the `j`-th of
them is preceded by exactly `base` placeholders plus the placeholders of the
texts before it. -/
def Placed (T : string) (base : Nat) (segs : List string) : Prop :=
  ∀ (j : Nat) (c : string), segs[j]? = some c →
    ∃ pre post, T = pre ++ c ++ post
      ∧ placeholders pre = base + ((segs.take j).map placeholders).sum

/-- The condition and the arguments of a `Where` call. -/
def SelectCall.whereSeg : SelectCall → Option (string × List Value)
  | .Where condition args => some (condition, args)
  | _ => none

/-- The condition and the arguments of a `Having` call. -/
def SelectCall.havingSeg : SelectCall → Option (string × List Value)
  | .Having condition args => some (condition, args)
  | _ => none

/-- The sections of a Select that take no arguments have no placeholder. -/
def Select.QFree (s : SqlGen.Select) : Prop :=
  placeholders s.select_section = 0 ∧ placeholders s.from_section = 0
  ∧ placeholders s.join_section = 0 ∧ placeholders s.group_section = 0
  ∧ placeholders s.order_section = 0 ∧ placeholders s.limit_section = 0
  ∧ placeholders s.offset_section = 0

/-- The assignments and the arguments of a `Set` call. -/
def UpdateCall.setSeg : UpdateCall → Option (string × List Value)
  | .Set assignments args => some (assignments, args)
  | _ => none

/-- The condition and the arguments of a `Where` call. -/
def UpdateCall.whereSeg : UpdateCall → Option (string × List Value)
  | .Where condition args => some (condition, args)
  | _ => none

/-! ## Renderings as the specification words them -/

/-- A section preceded by its keyword, or nothing when the section is empty. -/
def clause (keyword text : string) : string :=
  if text ≠ "" then keyword ++ text else ""

/-- The rendering of a Select in the words of the specification: the sections
SELECT, FROM, JOIN fragments, WHERE, GROUP BY, HAVING, ORDER BY, LIMIT, OFFSET
in this order, each non-empty one preceded by its keyword (the JOIN fragments
carry theirs), every empty one omitted, the select-list included. -/
def Select.rendered_as_specified (s : SqlGen.Select) : string :=
  clause "SELECT " s.select_section ++ clause " FROM " s.from_section ++ s.join_section
    ++ clause " WHERE " s.where_section ++ clause " GROUP BY " s.group_section
    ++ clause " HAVING " s.having_section ++ clause " ORDER BY " s.order_section
    ++ clause " LIMIT " s.limit_section ++ clause " OFFSET " s.offset_section

/-- Applying `Select` once per list of columns, in order. -/
def Select.SelectAll (s : SqlGen.Select) (calls : List (List string)) : SqlGen.Select :=
  calls.foldl (fun s columns => s.Select columns) s

/-- Applying `Where` once per call, in order. -/
def Update.WhereAll (u : Update) (calls : List (string × List Value)) : Update :=
  calls.foldl (fun u c => u.Where c.1 c.2) u

/-- Applying `Where` once per call, in order. -/
def Delete.WhereAll (d : Delete) (calls : List (string × List Value)) : Delete :=
  calls.foldl (fun d c => d.Where c.1 c.2) d

/-- An Insert with exactly one row, which is its `Args()` and has one value per
column. -/
def Insert.WellFormed (i : Insert) : Prop :=
  i.values = [i.Args] ∧ i.Args.length = i.columns.length

/-- The fields that the first loop of `recursive_create` turns into columns:
those whose `relation` tag is neither `one-to-many` nor `many-to-many`. -/
def collected_fields (fields : List (StructField × Value)) : List (StructField × Value) :=
  fields.filter (fun f => ¬ (f.1.Tag.Get "relation" = "one-to-many"
    ∨ f.1.Tag.Get "relation" = "many-to-many"))

/-- Every field of the object carries a column name. -/
def Value.annotated : Value → Bool
  | .struct _ fields => fields.all (fun f => f.1.column != "")
  | _ => false

/-- The join table of every many-to-many field among `fields` can be derived. -/
def resolvable_fields (decls : Decls) (fields : List (StructField × Value)) : Bool :=
  fields.all (fun f => f.1.Tag.Get "one-to-many" != "" || f.1.Tag.Get "many-to-many" == ""
    || (join_table_name decls f.1).isOk)

/-- The join table of every many-to-many field of the object can be derived. -/
def Value.resolvable (decls : Decls) : Value → Bool
  | .struct _ fields => resolvable_fields decls fields
  | _ => false

mutual
/-- The object is the root of an object tree: a struct whose one-to-many fields
hold slices of such objects.  Nothing is asked of the annotations. -/
def tree_shaped : Value → Bool
  | .struct _ fields => tree_shaped_fields fields
  | _ => false
/-- The fields of a node of an object tree. -/
def tree_shaped_fields : List (StructField × Value) → Bool
  | [] => true
  | (field, v) :: rest =>
    (if field.Tag.Get "one-to-many" ≠ "" then
      match v with
      | .slice xs => tree_shaped_children xs
      | _ => false
    else true) && tree_shaped_fields rest
/-- The elements of a one-to-many field of a node of an object tree. -/
def tree_shaped_children : List Value → Bool
  | [] => true
  | child :: rest => tree_shaped child && tree_shaped_children rest
end

/-- An example struct type (`main.go` declares no such type): a note whose field
`Body` carries no `json` tag. -/
def Note : StructType :=
  { Name := "Note"
    Fields := [
      ⟨"Title", .string, [("json", "title")]⟩,
      ⟨"Body", .string, []⟩] }

/-- An example struct type (`main.go` declares no such type): a post with notes
that refer to it through the foreign-key column `post_id`. -/
def Post : StructType :=
  { Name := "Post"
    Fields := [
      ⟨"Title", .string, [("json", "title")]⟩,
      ⟨"Notes", .slice (.named "Note"), [("json", "notes"), ("one-to-many", "post_id")]⟩] }

/-- A `Note` value. -/
def Note.mk (title body : string) : Value :=
  .struct Note.Name (Note.Fields.zip [.str title, .str body])

/-- A `Post` value. -/
def Post.mk (title : string) (notes : List Value) : Value :=
  .struct Post.Name (Post.Fields.zip [.str title, .slice notes])

/-! ## Theorems -/

theorem Insert_ValuesAll_values (rows : List (List Value)) (i : Insert) :
    (i.ValuesAll rows).values = i.values ++ rows
    ∧ (i.ValuesAll rows).args = i.args ++ rows.flatten
    ∧ (i.ValuesAll rows).columns = i.columns
    ∧ (i.ValuesAll rows).table = i.table := by
  induction rows generalizing i with
  | nil => simp [Insert.ValuesAll]
  | cons r rs ih =>
    obtain ⟨h1, h2, h3, h4⟩ := ih (i.Values r)
    simp only [Insert.ValuesAll, List.foldl_cons] at h1 h2 h3 h4 ⊢
    rw [h1, h2, h3, h4]
    simp [Insert.Values]

/-- C1: a fresh Insert configured by `Into(t, cols...)` and then one `Values`
call per row renders `INSERT INTO t (cols joined by ", ") VALUES` followed by
one group per row, the groups joined by `", "`, each group being `len(cols)`
question marks joined by `", "` between parentheses; `Args()` is the
concatenation of the rows. -/
theorem C1_insert_into_values (t : string) (cols : List string) (rows : List (List Value))
    (_hn : rows ≠ []) (_hlen : ∀ r ∈ rows, r.length = cols.length) :
    ((({} : Insert).Into t cols).ValuesAll rows).String
        = "INSERT INTO " ++ t ++ " (" ++ strings.Join cols ", " ++ ") VALUES "
          ++ strings.Join (List.replicate rows.length
              ("(" ++ strings.Join (List.replicate cols.length "?") ", " ++ ")")) ", "
    ∧ ((({} : Insert).Into t cols).ValuesAll rows).Args = rows.flatten := by
  obtain ⟨hv, ha, hc, ht⟩ := Insert_ValuesAll_values rows (({} : Insert).Into t cols)
  constructor
  · unfold Insert.String
    simp only [hv, hc, ht, List.map_const']
    simp [Insert.Into]
  · rw [Insert.Args, Query.Args, ha]
    simp [Insert.Into]

/-- C1, the example of the specification. -/
theorem C1_insert_into_values_witness :
    ((({} : Insert).Into "t" ["a", "b"]).ValuesAll
        [[Value.int 1, Value.int 2], [Value.int 3, Value.int 4]]).String
      = "INSERT INTO t (a, b) VALUES (?, ?), (?, ?)"
    ∧ ((({} : Insert).Into "t" ["a", "b"]).ValuesAll
        [[Value.int 1, Value.int 2], [Value.int 3, Value.int 4]]).Args
      = [Value.int 1, Value.int 2, Value.int 3, Value.int 4] :=
  C1_insert_into_values "t" ["a", "b"] [[Value.int 1, Value.int 2], [Value.int 3, Value.int 4]]
    (by simp) (by simp)

/-! ### Strings -/

theorem string_ne_empty_iff (s : string) : s ≠ "" ↔ s.data ≠ [] := by
  constructor
  · intro h hd
    apply h
    exact String.ext hd
  · intro h hs
    apply h
    rw [hs]

theorem string_append_ne_empty_left (s t : string) (h : s ≠ "") : s ++ t ≠ "" := by
  rw [string_ne_empty_iff] at h ⊢
  rw [String.data_append]
  simp [h]

theorem strings_Join_merge (x y sep : string) (rest : List string) :
    strings.Join ((x ++ sep ++ y) :: rest) sep = strings.Join (x :: y :: rest) sep := by
  cases rest with
  | nil => simp [strings.Join]
  | cons z zs => simp [strings.Join, String.append_assoc]

/-! ### Select.Where -/

theorem Select_WhereAll_of_ne_empty (calls : List (string × List Value)) (s : Select)
    (h : s.where_section ≠ "") :
    s.WhereAll calls =
      { s with
        where_section := strings.Join (s.where_section :: calls.map Prod.fst) " AND "
        args := s.args ++ (calls.map Prod.snd).flatten } := by
  induction calls generalizing s with
  | nil => simp [Select.WhereAll, strings.Join]
  | cons c cs ih =>
    have h1 : (s.Where c.1 c.2).where_section = s.where_section ++ " AND " ++ c.1 := by
      simp [Select.Where, h]
    have h2 : (s.Where c.1 c.2).where_section ≠ "" := by
      rw [h1, String.append_assoc]
      exact string_append_ne_empty_left _ _ h
    have h3 := ih (s.Where c.1 c.2) h2
    simp only [Select.WhereAll, List.foldl_cons] at h3 ⊢
    rw [h3, h1, strings_Join_merge]
    simp [Select.Where]

/-- C2 (as stated, refuted): a single `Where` call with the empty condition on
a fresh Select renders `SELECT ` alone, which contains no WHERE clause. -/
theorem C2_where_empty_condition_counterexample :
    (({} : Select).WhereAll [("", [])]).String = "SELECT "
    ∧ ¬ ∃ pre post : string,
        (({} : Select).WhereAll [("", [])]).String
          = pre ++ (" WHERE " ++ strings.Join ([("", ([] : List Value))].map Prod.fst) " AND ")
            ++ post := by
  have hs : (({} : Select).WhereAll [("", [])]).String = "SELECT " := by decide
  refine ⟨hs, ?_⟩
  rintro ⟨pre, post, h⟩
  rw [hs] at h
  have hj : strings.Join ([("", ([] : List Value))].map Prod.fst) " AND " = "" := rfl
  rw [hj] at h
  have hl := congrArg String.length h
  simp only [String.length_append] at hl
  have h7 : (" WHERE " : string).length = 7 := by decide
  have h7b : ("SELECT " : string).length = 7 := by decide
  have h0 : ("" : string).length = 0 := by decide
  rw [h7, h7b, h0] at hl
  have hpre : pre = "" := by
    apply String.ext
    have : pre.data.length = 0 := by
      simp only [String.length] at hl
      omega
    exact List.length_eq_zero.mp this
  have hpost : post = "" := by
    apply String.ext
    have : post.data.length = 0 := by
      simp only [String.length] at hl
      omega
    exact List.length_eq_zero.mp this
  rw [hpre, hpost] at h
  revert h
  decide

/-- C2 (amended): for Where calls `(c1, a1), ..., (cn, an)` with `n ≥ 1` and
`c1` non-empty, applied in order to a fresh Select, the rendered text is
`SELECT ` followed by the clause ` WHERE c1 AND c2 ... AND cn`, and `Args()` is
`a1 ++ ... ++ an`. -/
theorem C2_where_joins_with_and (c1 : string) (a1 : List Value)
    (rest : List (string × List Value)) (h1 : c1 ≠ "") :
    (({} : Select).WhereAll ((c1, a1) :: rest)).String
        = "SELECT " ++ (" WHERE " ++ strings.Join (((c1, a1) :: rest).map Prod.fst) " AND ")
    ∧ (({} : Select).WhereAll ((c1, a1) :: rest)).Args
        = (((c1, a1) :: rest).map Prod.snd).flatten := by
  have h0 : (({} : Select).Where c1 a1).where_section = c1 := by simp [Select.Where]
  have h := Select_WhereAll_of_ne_empty rest (({} : Select).Where c1 a1) (by rw [h0]; exact h1)
  have hw : (({} : Select).WhereAll ((c1, a1) :: rest))
      = (({} : Select).Where c1 a1).WhereAll rest := by
    simp [Select.WhereAll]
  rw [hw, h, h0]
  have hj : strings.Join (c1 :: rest.map Prod.fst) " AND " ≠ "" := by
    cases rest with
    | nil => simpa [strings.Join] using h1
    | cons r rs =>
      simp only [List.map_cons, strings.Join, String.append_assoc]
      exact string_append_ne_empty_left _ _ h1
  constructor
  · simp [Select.String, Select.Where, hj]
  · simp [Select.Args, Query.Args, Select.Where]

/-- C2 (amended), at two calls. -/
theorem C2_where_joins_with_and_witness :
    (({} : Select).WhereAll [("a = ?", [Value.int 1]), ("b = ?", [Value.int 2])]).String
        = "SELECT  WHERE a = ? AND b = ?"
    ∧ (({} : Select).WhereAll [("a = ?", [Value.int 1]), ("b = ?", [Value.int 2])]).Args
        = [Value.int 1, Value.int 2] :=
  C2_where_joins_with_and "a = ?" [Value.int 1] [("b = ?", [Value.int 2])] (by decide)

/-! ### from_object and from_many_objects -/

theorem from_object_loop_spec (fields : List (StructField × Value)) (insert : Insert)
    (first : List Value) (hann : ∀ f ∈ fields, f.1.column ≠ "") :
    Insert.from_object_loop fields insert first
      = (.ok (first ++ fields.map Prod.snd),
          { insert with columns := insert.columns ++ fields.map (fun f => f.1.column) }) := by
  induction fields generalizing insert first with
  | nil => simp [Insert.from_object_loop]
  | cons f fs ih =>
    obtain ⟨field, v⟩ := f
    have hf : field.Tag.Get "json" ≠ "" := hann (field, v) (by simp)
    have hfs : ∀ f ∈ fs, f.1.column ≠ "" := fun f hf => hann f (by simp [hf])
    simp only [Insert.from_object_loop, hf, ne_eq, not_false_eq_true, if_true]
    rw [ih _ _ hfs]
    simp [StructField.column]

theorem from_object_loop_error (fields : List (StructField × Value)) (insert : Insert)
    (first : List Value) (e : Error)
    (h : (Insert.from_object_loop fields insert first).1 = .error e) : e = .Configuration := by
  induction fields generalizing insert first with
  | nil => simp [Insert.from_object_loop] at h
  | cons f fs ih =>
    obtain ⟨field, v⟩ := f
    simp only [Insert.from_object_loop] at h
    split at h
    · exact ih _ _ h
    · simp at h
      exact h.symm

theorem from_object_loop_values (fields : List (StructField × Value)) (insert : Insert)
    (first : List Value) :
    (Insert.from_object_loop fields insert first).2.values = insert.values
    ∧ (Insert.from_object_loop fields insert first).2.args = insert.args
    ∧ (Insert.from_object_loop fields insert first).2.table = insert.table := by
  induction fields generalizing insert first with
  | nil => simp [Insert.from_object_loop]
  | cons f fs ih =>
    obtain ⟨field, v⟩ := f
    simp only [Insert.from_object_loop]
    split
    · have := ih { insert with columns := insert.columns ++ [field.Tag.Get "json"] } (first ++ [v])
      simpa using this
    · simp

theorem from_object_fresh (i : Insert) (obj : Value) (hc : i.columns = []) (hv : i.values = []) :
    i.from_object obj =
      match obj with
      | .struct _ fields =>
        match Insert.from_object_loop fields i [] with
        | (.ok first_set_of_values, insert1) => (.ok (), insert1.Values first_set_of_values)
        | (.error e, insert1) => (.error e, insert1)
      | _ => (.error .Runtime, i) := by
  simp [Insert.from_object, hc, hv]

theorem from_object_error_fresh (i : Insert) (obj : Value) (hc : i.columns = [])
    (hv : i.values = []) (e : Error) (h : (i.from_object obj).1 = .error e) :
    e = .Configuration ∨ e = .Runtime := by
  rw [from_object_fresh i obj hc hv] at h
  cases obj with
  | struct name fields =>
    simp only at h
    generalize hl : Insert.from_object_loop fields i [] = r at h
    obtain ⟨r1, r2⟩ := r
    cases r1 with
    | ok a => simp at h
    | error e1 =>
      simp only [Except.error.injEq] at h
      have := from_object_loop_error fields i [] e1 (by rw [hl])
      left
      rw [← h, this]
  | str s => simp at h; right; exact h.symm
  | int n => simp at h; right; exact h.symm
  | slice xs => simp at h; right; exact h.symm

theorem from_object_args_values (i : Insert) (obj : Value)
    (h : i.args = i.values.flatten) :
    (i.from_object obj).2.args = (i.from_object obj).2.values.flatten := by
  unfold Insert.from_object
  split
  · exact h
  · split
    · exact h
    · cases obj with
      | struct name fields =>
        simp only
        have hl := from_object_loop_values fields i []
        generalize Insert.from_object_loop fields i [] = r at hl
        obtain ⟨r1, r2⟩ := r
        simp only at hl
        cases r1 with
        | ok a => simp [Insert.Values, hl.1, hl.2.1, h]
        | error e1 => simp [hl.1, hl.2.1, h]
      | str s => exact h
      | int n => exact h
      | slice xs => exact h

theorem Values_each_args_values (others : List Value) (i : Insert)
    (h : i.args = i.values.flatten) :
    (others.foldl (fun i obj => i.Values [obj]) i).args
      = (others.foldl (fun i obj => i.Values [obj]) i).values.flatten := by
  induction others generalizing i with
  | nil => exact h
  | cons o os ih =>
    simp only [List.foldl_cons]
    apply ih
    simp [Insert.Values, h]

theorem from_many_objects_args_values (i : Insert) (objects : List Value)
    (h : i.args = i.values.flatten) :
    (i.from_many_objects objects).2.args = (i.from_many_objects objects).2.values.flatten := by
  unfold Insert.from_many_objects
  split
  · exact h
  · split
    · exact h
    · cases objects with
      | nil => exact h
      | cons first others =>
        simp only
        have hf := from_object_args_values i first h
        generalize i.from_object first = r at hf
        obtain ⟨r1, r2⟩ := r
        cases r1 with
        | ok a => exact Values_each_args_values others r2 hf
        | error e1 => exact hf

/-- Every Insert produced by the builder's operations holds as arguments the
concatenation of its rows. -/
theorem Built_args_values (i : Insert) (hb : i.Built) : i.args = i.values.flatten := by
  induction hb with
  | fresh => rfl
  | Into i table columns _ ih => simpa [Insert.Into] using ih
  | Values i vals _ ih => simp [Insert.Values, ih]
  | from_object i obj _ ih => exact from_object_args_values i obj ih
  | from_many_objects i objects _ ih => exact from_many_objects_args_values i objects ih

/-- C8: on an Insert without columns and rows, `from_object` of an object whose
fields all carry a column name succeeds; the columns are the fields' column
names in declaration order, the only row is the fields' values in that order,
`Args()` is that row, and the table name is unchanged. -/
theorem C8_from_object_columns_and_row (i : Insert) (name : string)
    (fields : List (StructField × Value)) (hb : i.Built)
    (hc : i.columns = []) (hv : i.values = []) (hann : ∀ f ∈ fields, f.1.column ≠ "") :
    (i.from_object (.struct name fields)).1 = .ok ()
    ∧ (i.from_object (.struct name fields)).2.columns = fields.map (fun f => f.1.column)
    ∧ (i.from_object (.struct name fields)).2.values = [fields.map Prod.snd]
    ∧ (i.from_object (.struct name fields)).2.Args = fields.map Prod.snd
    ∧ (i.from_object (.struct name fields)).2.table = i.table := by
  have ha : i.args = [] := by rw [Built_args_values i hb, hv]; rfl
  rw [from_object_fresh i _ hc hv]
  simp only [from_object_loop_spec fields i [] hann]
  simp [Insert.Values, Insert.Args, Query.Args, hc, hv, ha]

/-- C8, the example of the specification: columns `name, email, age` and values
`("x", "y", 5)`. -/
theorem C8_from_object_columns_and_row_witness :
    (({} : Insert).from_object (Person.mk "x" "y" 5)).1 = .ok ()
    ∧ (({} : Insert).from_object (Person.mk "x" "y" 5)).2.columns = ["name", "email", "age"]
    ∧ (({} : Insert).from_object (Person.mk "x" "y" 5)).2.values
        = [[Value.str "x", Value.str "y", Value.int 5]]
    ∧ (({} : Insert).from_object (Person.mk "x" "y" 5)).2.Args
        = [Value.str "x", Value.str "y", Value.int 5]
    ∧ (({} : Insert).from_object (Person.mk "x" "y" 5)).2.table = "" :=
  C8_from_object_columns_and_row {} Person.Name
    (Person.Fields.zip [Value.str "x", Value.str "y", Value.int 5]) Insert.Built.fresh rfl rfl
    (by decide)

/-- C9: `from_object` panics with the misuse error exactly when the Insert
already has a column or a row, and then the Insert is left as it was. -/
theorem C9_from_object_misuse (i : Insert) (obj : Value) :
    ((i.from_object obj).1 = .error .Misuse ↔ (0 < i.columns.length ∨ 0 < i.values.length))
    ∧ ((0 < i.columns.length ∨ 0 < i.values.length) → (i.from_object obj).2 = i) := by
  constructor
  · constructor
    · intro h
      by_contra hn
      have hc : i.columns = [] := by
        apply List.length_eq_zero.mp
        omega
      have hv : i.values = [] := by
        apply List.length_eq_zero.mp
        omega
      have := from_object_error_fresh i obj hc hv _ h
      simp at this
    · intro h
      unfold Insert.from_object
      rcases h with h | h
      · simp [h]
      · split
        · rfl
        · simp [h]
  · intro h
    unfold Insert.from_object
    rcases h with h | h
    · simp [h]
    · split
      · rfl
      · simp [h]

/-- C9, on an Insert that already has a column and on one that has a row. -/
theorem C9_from_object_misuse_witness :
    ((({} : Insert).Into "t" ["a"]).from_object (Person.mk "x" "y" 5)).1 = .error .Misuse
    ∧ ((({} : Insert).Into "t" ["a"]).from_object (Person.mk "x" "y" 5)).2
        = ({} : Insert).Into "t" ["a"]
    ∧ ((({} : Insert).Values [Value.int 1]).from_object (Person.mk "x" "y" 5)).1
        = .error .Misuse :=
  ⟨(C9_from_object_misuse _ _).1.mpr (Or.inl (by decide)),
   (C9_from_object_misuse _ _).2 (Or.inl (by decide)),
   (C9_from_object_misuse _ _).1.mpr (Or.inr (by decide))⟩

/-- C10 (as stated, refuted): on an Insert that already has a column,
`from_many_objects` with an empty collection panics with the misuse error, not
with the empty-input error. -/
theorem C10_empty_collection_counterexample :
    ((({} : Insert).Into "t" ["a"]).from_many_objects []).1 = .error .Misuse
    ∧ ((({} : Insert).Into "t" ["a"]).from_many_objects []).1 ≠ .error .EmptyInput := by
  constructor
  · rfl
  · intro h
    have h2 : ((({} : Insert).Into "t" ["a"]).from_many_objects []).1 = .error .Misuse := rfl
    rw [h2] at h
    cases h

/-- C10 (amended): on an Insert without columns and rows, `from_many_objects`
with an empty collection panics with the empty-input error; on every Insert and
every non-empty collection it does not panic with the empty-input error. -/
theorem C10_empty_collection (i : Insert) :
    (i.columns = [] → i.values = [] → (i.from_many_objects []).1 = .error .EmptyInput)
    ∧ (∀ objects : List Value, objects ≠ [] →
        (i.from_many_objects objects).1 ≠ .error .EmptyInput) := by
  constructor
  · intro hc hv
    simp [Insert.from_many_objects, hc, hv]
  · intro objects hne h
    unfold Insert.from_many_objects at h
    split at h
    · cases h
    · split at h
      · cases h
      · rename_i hc hv
        cases objects with
        | nil => exact hne rfl
        | cons first others =>
          simp only at h
          have hc2 : i.columns = [] := by
            apply List.length_eq_zero.mp
            omega
          have hv2 : i.values = [] := by
            apply List.length_eq_zero.mp
            omega
          have he := from_object_error_fresh i first hc2 hv2
          generalize i.from_object first = r at he h
          obtain ⟨r1, r2⟩ := r
          cases r1 with
          | ok a => simp at h
          | error e1 =>
            simp only [Except.error.injEq] at h
            have := he e1 rfl
            rw [h] at this
            simp at this

/-- C10 (amended), on the fresh Insert and on a collection of one object. -/
theorem C10_empty_collection_witness :
    (({} : Insert).from_many_objects []).1 = .error .EmptyInput
    ∧ (({} : Insert).from_many_objects [Person.mk "x" "y" 5]).1 ≠ .error .EmptyInput :=
  ⟨(C10_empty_collection {}).1 rfl rfl, (C10_empty_collection {}).2 _ (by simp)⟩

/-- C7 (the code at the failing input): for two objects with the columns
`name, email, age`, the second row is the second object itself as a single
value, not its three field values, and `Args()` has four elements. -/
theorem C7_from_many_objects_second_row :
    (({} : Insert).from_many_objects [Person.mk "x" "y" 5, Person.mk "p" "q" 7]).1 = .ok ()
    ∧ (({} : Insert).from_many_objects [Person.mk "x" "y" 5, Person.mk "p" "q" 7]).2.columns
        = ["name", "email", "age"]
    ∧ (({} : Insert).from_many_objects [Person.mk "x" "y" 5, Person.mk "p" "q" 7]).2.values
        = [[Value.str "x", Value.str "y", Value.int 5], [Person.mk "p" "q" 7]]
    ∧ (({} : Insert).from_many_objects [Person.mk "x" "y" 5, Person.mk "p" "q" 7]).2.Args
        = [Value.str "x", Value.str "y", Value.int 5, Person.mk "p" "q" 7]
    ∧ (({} : Insert).from_many_objects [Person.mk "x" "y" 5, Person.mk "p" "q" 7]).2.values
        ≠ [[Value.str "x", Value.str "y", Value.int 5],
           [Value.str "p", Value.str "q", Value.int 7]] := by
  refine ⟨rfl, rfl, rfl, rfl, ?_⟩
  have h : (({} : Insert).from_many_objects [Person.mk "x" "y" 5, Person.mk "p" "q" 7]).2.values
        = [[Value.str "x", Value.str "y", Value.int 5], [Person.mk "p" "q" 7]] := rfl
  rw [h]
  intro hc
  have := congrArg (fun l => l.map List.length) hc
  simp at this

/-! ### recursive_create -/

theorem incInt_eq (x : Int) (hlo : -2 ^ 63 ≤ x) (hhi : x + 1 ≤ maxInt) : incInt x = x + 1 := by
  unfold incInt
  unfold maxInt at hhi
  rw [Int.emod_eq_of_lt (by omega) (by omega)]
  omega

/-- The fields that the first loop of `recursive_create` keeps: those whose
`relation` tag is neither `one-to-many` nor `many-to-many`. -/
theorem recursive_create_collect_spec (fields : List (StructField × Value))
    (columns : List string) (values : List Value) (hann : ∀ f ∈ fields, f.1.column ≠ "") :
    recursive_create_collect fields columns values
      = .ok (columns ++ (fields.filter (fun f => ¬ (f.1.Tag.Get "relation" = "one-to-many"
                ∨ f.1.Tag.Get "relation" = "many-to-many"))).map (fun f => f.1.column),
             values ++ (fields.filter (fun f => ¬ (f.1.Tag.Get "relation" = "one-to-many"
                ∨ f.1.Tag.Get "relation" = "many-to-many"))).map Prod.snd) := by
  induction fields generalizing columns values with
  | nil => simp [recursive_create_collect]
  | cons f fs ih =>
    obtain ⟨field, v⟩ := f
    have hf : ¬ field.Tag.Get "json" = "" := hann (field, v) (by simp)
    have hfs : ∀ f ∈ fs, f.1.column ≠ "" := fun f hf => hann f (by simp [hf])
    simp only [recursive_create_collect, hf, if_false]
    by_cases hr : field.Tag.Get "relation" = "one-to-many"
        ∨ field.Tag.Get "relation" = "many-to-many"
    · have hr2 : ¬ (¬ field.Tag.Get "relation" = "one-to-many"
          ∧ ¬ field.Tag.Get "relation" = "many-to-many") := by tauto
      rw [if_pos hr, ih _ _ hfs]
      simp [List.filter_cons, hr2]
    · have hr2 : ¬ field.Tag.Get "relation" = "one-to-many"
          ∧ ¬ field.Tag.Get "relation" = "many-to-many" := by tauto
      rw [if_neg hr, ih _ _ hfs]
      simp [List.filter_cons, hr2, StructField.column]

theorem recursive_create_fields_skip (decls : Decls) (field : StructField) (v : Value)
    (rest : List (StructField × Value)) (id : Int) (w : World)
    (h1 : ¬ field.Tag.Get "one-to-many" ≠ "")
    (hok : (if field.Tag.Get "many-to-many" ≠ "" then (join_table_name decls field).isOk
      else true) = true) :
    recursive_create_fields decls ((field, v) :: rest) id w
      = recursive_create_fields decls rest id w := by
  generalize hR : recursive_create_fields decls rest id w = R
  unfold recursive_create_fields
  rw [if_neg h1]
  by_cases h2 : field.Tag.Get "many-to-many" ≠ ""
  · rw [if_pos h2] at hok
    rw [if_pos h2]
    cases hj : join_table_name decls field with
    | error e => simp [hj, Except.isOk, Except.toBool] at hok
    | ok t => exact hR
  · rw [if_neg h2]
    exact hR

theorem preorder_fields_skip (field : StructField) (v : Value)
    (rest : List (StructField × Value)) (me next : Nat)
    (h1 : ¬ field.Tag.Get "one-to-many" ≠ "") :
    preorder_fields me next ((field, v) :: rest) = preorder_fields me next rest := by
  generalize hR : preorder_fields me next rest = R
  unfold preorder_fields
  rw [if_neg h1]
  exact hR

mutual
theorem recursive_create_spec (decls : Decls) (c : Int) (ex0 : List (string × Value)) :
    ∀ (node : Value) (next : Nat) (parent : Option (Nat × string)) (w : World),
      persistable decls node = true → w.fake_ids = c + next → -2 ^ 63 ≤ c + next →
      c + next + (preorder next parent node).length ≤ maxInt →
      recursive_create decls node (TreeNode.extras c ex0 ⟨next, node, parent⟩) w
        = (.ok (c + next),
            ⟨c + next + (preorder next parent node).length,
             w.executed ++ (preorder next parent node).map (TreeNode.submission c ex0)⟩)
  | .struct name fields, next, parent, w, hp, hw, hlo, hhi => by
    simp only [persistable, Bool.and_eq_true, List.all_eq_true, bne_iff_ne, ne_eq] at hp
    obtain ⟨hann, hpf⟩ := hp
    have hcol := recursive_create_collect_spec fields [] [] (fun f hf => hann f hf)
    simp only [preorder, List.length_cons] at hhi ⊢
    have hinc : incInt (c + next) = c + (next + 1 : Nat) := by
      rw [incInt_eq _ hlo (by omega)]
      push_cast
      ring
    have hf := recursive_create_fields_spec decls c ex0 fields next (next + 1)
      ⟨c + (next + 1 : Nat), w.executed ++ [⟨node_insert (.struct name fields)
        (TreeNode.extras c ex0 ⟨next, .struct name fields, parent⟩), c + next⟩]⟩
      hpf rfl (by push_cast; omega) (by push_cast; omega)
    unfold recursive_create
    simp only [hcol, Insert.fake_insert_execution, hw, hinc]
    simp only [node_insert, hcol] at hf
    rw [hf]
    simp only [List.map_cons, List.append_assoc, List.singleton_append, TreeNode.submission,
      node_insert, hcol]
    congr 2
    push_cast
    ring
  | .str _, _, _, _, hp, _, _, _ => by simp [persistable] at hp
  | .int _, _, _, _, hp, _, _, _ => by simp [persistable] at hp
  | .slice _, _, _, _, hp, _, _, _ => by simp [persistable] at hp
termination_by node => sizeOf node
theorem recursive_create_fields_spec (decls : Decls) (c : Int) (ex0 : List (string × Value)) :
    ∀ (fields : List (StructField × Value)) (me next : Nat) (w : World),
      persistable_fields decls fields = true → w.fake_ids = c + next → -2 ^ 63 ≤ c + next →
      c + next + (preorder_fields me next fields).length ≤ maxInt →
      recursive_create_fields decls fields (c + me) w
        = (.ok (),
            ⟨c + next + (preorder_fields me next fields).length,
             w.executed ++ (preorder_fields me next fields).map (TreeNode.submission c ex0)⟩)
  | [], me, next, w, _, hw, _, _ => by
    simp [recursive_create_fields, preorder_fields, ← hw]
  | (field, .slice xs) :: rest, me, next, w, hp, hw, hlo, hhi => by
    simp only [persistable_fields, Bool.and_eq_true] at hp
    obtain ⟨hp1, hp2⟩ := hp
    by_cases h1 : field.Tag.Get "one-to-many" ≠ ""
    · rw [if_pos h1] at hp1
      have hpo : preorder_fields me next ((field, .slice xs) :: rest)
          = preorder_children me next (field.Tag.Get "one-to-many") xs
            ++ preorder_fields me
                (next + (preorder_children me next (field.Tag.Get "one-to-many") xs).length)
                rest := by
        rw [preorder_fields, if_pos h1]
      rw [hpo] at hhi ⊢
      simp only [List.length_append] at hhi ⊢
      have hc := recursive_create_children_spec decls c ex0 xs me next
        (field.Tag.Get "one-to-many") w hp1 hw hlo (by push_cast at hhi ⊢; omega)
      have hr := recursive_create_fields_spec decls c ex0 rest me
        (next + (preorder_children me next (field.Tag.Get "one-to-many") xs).length)
        ⟨c + next + (preorder_children me next (field.Tag.Get "one-to-many") xs).length,
          w.executed ++ (preorder_children me next (field.Tag.Get "one-to-many") xs).map
            (TreeNode.submission c ex0)⟩
        hp2 (by push_cast; ring) (by push_cast; omega) (by push_cast at hhi ⊢; omega)
      rw [recursive_create_fields, if_pos h1]
      simp only [hc, hr, List.map_append, List.append_assoc]
      congr 2
      push_cast
      ring
    · rw [if_neg h1] at hp1
      rw [preorder_fields_skip _ _ _ _ _ h1] at hhi ⊢
      rw [recursive_create_fields_skip _ _ _ _ _ _ h1 hp1]
      exact recursive_create_fields_spec decls c ex0 rest me next w hp2 hw hlo hhi
  | (field, .str s) :: rest, me, next, w, hp, hw, hlo, hhi => by
    simp only [persistable_fields, Bool.and_eq_true] at hp
    obtain ⟨hp1, hp2⟩ := hp
    by_cases h1 : field.Tag.Get "one-to-many" ≠ ""
    · rw [if_pos h1] at hp1
      simp at hp1
    · rw [if_neg h1] at hp1
      rw [preorder_fields_skip _ _ _ _ _ h1] at hhi ⊢
      rw [recursive_create_fields_skip _ _ _ _ _ _ h1 hp1]
      exact recursive_create_fields_spec decls c ex0 rest me next w hp2 hw hlo hhi
  | (field, .int n) :: rest, me, next, w, hp, hw, hlo, hhi => by
    simp only [persistable_fields, Bool.and_eq_true] at hp
    obtain ⟨hp1, hp2⟩ := hp
    by_cases h1 : field.Tag.Get "one-to-many" ≠ ""
    · rw [if_pos h1] at hp1
      simp at hp1
    · rw [if_neg h1] at hp1
      rw [preorder_fields_skip _ _ _ _ _ h1] at hhi ⊢
      rw [recursive_create_fields_skip _ _ _ _ _ _ h1 hp1]
      exact recursive_create_fields_spec decls c ex0 rest me next w hp2 hw hlo hhi
  | (field, .struct name fs) :: rest, me, next, w, hp, hw, hlo, hhi => by
    simp only [persistable_fields, Bool.and_eq_true] at hp
    obtain ⟨hp1, hp2⟩ := hp
    by_cases h1 : field.Tag.Get "one-to-many" ≠ ""
    · rw [if_pos h1] at hp1
      simp at hp1
    · rw [if_neg h1] at hp1
      rw [preorder_fields_skip _ _ _ _ _ h1] at hhi ⊢
      rw [recursive_create_fields_skip _ _ _ _ _ _ h1 hp1]
      exact recursive_create_fields_spec decls c ex0 rest me next w hp2 hw hlo hhi
termination_by fields => sizeOf fields
theorem recursive_create_children_spec (decls : Decls) (c : Int) (ex0 : List (string × Value)) :
    ∀ (xs : List Value) (me next : Nat) (fk : string) (w : World),
      persistable_children decls xs = true → w.fake_ids = c + next → -2 ^ 63 ≤ c + next →
      c + next + (preorder_children me next fk xs).length ≤ maxInt →
      recursive_create_children decls xs fk (c + me) w
        = (.ok (),
            ⟨c + next + (preorder_children me next fk xs).length,
             w.executed ++ (preorder_children me next fk xs).map (TreeNode.submission c ex0)⟩)
  | [], me, next, fk, w, _, hw, _, _ => by
    simp [recursive_create_children, preorder_children, ← hw]
  | child :: rest, me, next, fk, w, hp, hw, hlo, hhi => by
    simp only [persistable_children, Bool.and_eq_true] at hp
    obtain ⟨hp1, hp2⟩ := hp
    simp only [preorder_children, List.length_append] at hhi ⊢
    have hc := recursive_create_spec decls c ex0 child next (some (me, fk)) w hp1 hw hlo
      (by push_cast at hhi ⊢; omega)
    have hr := recursive_create_children_spec decls c ex0 rest me
      (next + (preorder next (some (me, fk)) child).length) fk
      ⟨c + next + (preorder next (some (me, fk)) child).length,
        w.executed ++ (preorder next (some (me, fk)) child).map (TreeNode.submission c ex0)⟩
      hp2 (by push_cast; ring) (by push_cast; omega) (by push_cast at hhi ⊢; omega)
    simp only [TreeNode.extras] at hc
    unfold recursive_create_children
    simp only [hc, hr, List.map_append, List.append_assoc]
    congr 2
    push_cast
    ring
termination_by xs => sizeOf xs
end

/-! ### The pre-order list -/

theorem preorder_fields_not_slice (field : StructField) (v : Value)
    (rest : List (StructField × Value)) (me next : Nat) (hv : ∀ xs, v ≠ .slice xs) :
    preorder_fields me next ((field, v) :: rest) = preorder_fields me next rest := by
  generalize hR : preorder_fields me next rest = R
  unfold preorder_fields
  split
  · split
    · rename_i xs
      exact absurd rfl (hv xs)
    · exact hR
  · exact hR

mutual
theorem preorder_idx :
    ∀ (node : Value) (next : Nat) (parent : Option (Nat × string)),
      (preorder next parent node).map TreeNode.idx
        = List.range' next (preorder next parent node).length
  | .struct name fields, next, parent => by
    simp only [preorder, List.map_cons, List.length_cons, List.range'_succ]
    rw [preorder_fields_idx fields next (next + 1)]
  | .str _, _, _ => by simp [preorder]
  | .int _, _, _ => by simp [preorder]
  | .slice _, _, _ => by simp [preorder]
termination_by node => sizeOf node
theorem preorder_fields_idx :
    ∀ (fields : List (StructField × Value)) (me next : Nat),
      (preorder_fields me next fields).map TreeNode.idx
        = List.range' next (preorder_fields me next fields).length
  | [], _, _ => by simp [preorder_fields]
  | (field, .slice xs) :: rest, me, next => by
    by_cases h1 : field.Tag.Get "one-to-many" ≠ ""
    · rw [preorder_fields, if_pos h1]
      simp only [List.map_append, List.length_append]
      rw [preorder_children_idx xs me next, preorder_fields_idx rest me, List.range'_append_1,
        Nat.add_comm]
    · rw [preorder_fields_skip _ _ _ _ _ h1]
      exact preorder_fields_idx rest me next
  | (field, .str s) :: rest, me, next => by
    rw [preorder_fields_not_slice _ _ _ _ _ (by intro xs h; cases h)]
    exact preorder_fields_idx rest me next
  | (field, .int n) :: rest, me, next => by
    rw [preorder_fields_not_slice _ _ _ _ _ (by intro xs h; cases h)]
    exact preorder_fields_idx rest me next
  | (field, .struct nm fs) :: rest, me, next => by
    rw [preorder_fields_not_slice _ _ _ _ _ (by intro xs h; cases h)]
    exact preorder_fields_idx rest me next
termination_by fields => sizeOf fields
theorem preorder_children_idx :
    ∀ (xs : List Value) (me next : Nat) (fk : string),
      (preorder_children me next fk xs).map TreeNode.idx
        = List.range' next (preorder_children me next fk xs).length
  | [], _, _, _ => by simp [preorder_children]
  | child :: rest, me, next, fk => by
    simp only [preorder_children, List.map_append, List.length_append]
    rw [preorder_idx child next, preorder_children_idx rest me, List.range'_append_1,
      Nat.add_comm]
termination_by xs => sizeOf xs
end

theorem preorder_getElem?_idx (root : Value) (k : Nat) (n : TreeNode)
    (h : (preorder 0 none root)[k]? = some n) : n.idx = k := by
  have h1 := preorder_idx root 0 none
  have h2 : ((preorder 0 none root).map TreeNode.idx)[k]? = some n.idx := by
    rw [List.getElem?_map, h]
    rfl
  rw [h1] at h2
  have hk : k < (preorder 0 none root).length := by
    by_contra hc
    rw [List.getElem?_eq_none (by omega)] at h
    cases h
  rw [List.getElem?_eq_getElem (by simpa using hk)] at h2
  simp at h2
  omega

theorem HasParentIn_append_left (L1 L2 : List TreeNode) (next k : Nat) (n : TreeNode)
    (hk : k < L1.length) (h : HasParentIn L1 next k n) : HasParentIn (L1 ++ L2) next k n := by
  obtain ⟨p, fk, pn, h1, h2, h3, h4, h5⟩ := h
  refine ⟨p, fk, pn, h1, h2, h3, ?_, h5⟩
  rw [List.getElem?_append_left (by omega)]
  exact h4

theorem HasParentIn_append_right (L1 L2 : List TreeNode) (next k : Nat) (n : TreeNode)
    (hk : L1.length ≤ k) (h : HasParentIn L2 (next + L1.length) (k - L1.length) n) :
    HasParentIn (L1 ++ L2) next k n := by
  obtain ⟨p, fk, pn, h1, h2, h3, h4, h5⟩ := h
  refine ⟨p, fk, pn, h1, by omega, by omega, ?_, h5⟩
  rw [List.getElem?_append_right (by omega)]
  rw [← h4]
  congr 1
  omega

mutual
theorem preorder_parent :
    ∀ (node : Value) (next : Nat) (parent : Option (Nat × string)) (k : Nat) (n : TreeNode),
      (preorder next parent node)[k]? = some n →
      (k = 0 ∧ n.parent = parent ∧ n.node = node)
        ∨ HasParentIn (preorder next parent node) next k n
  | .struct name fields, next, parent, 0, n, h => by
    left
    simp only [preorder, List.getElem?_cons_zero, Option.some.injEq] at h
    subst h
    exact ⟨rfl, rfl, rfl⟩
  | .struct name fields, next, parent, k + 1, n, h => by
    right
    simp only [preorder, List.getElem?_cons_succ] at h ⊢
    rcases preorder_fields_parent fields next (next + 1) k n h with ⟨fk, h1, h2⟩ | hin
    · refine ⟨next, fk, ⟨next, .struct name fields, parent⟩, h1, le_refl _, by omega, ?_, ?_⟩
      · simp
      · simpa [Value.children] using h2
    · obtain ⟨p, fk, pn, h1, h2, h3, h4, h5⟩ := hin
      refine ⟨p, fk, pn, h1, by omega, by omega, ?_, h5⟩
      have : p - next = (p - (next + 1)) + 1 := by omega
      rw [this, List.getElem?_cons_succ]
      exact h4
  | .str _, _, _, _, _, h => by simp [preorder] at h
  | .int _, _, _, _, _, h => by simp [preorder] at h
  | .slice _, _, _, _, _, h => by simp [preorder] at h
termination_by node => sizeOf node
theorem preorder_fields_parent :
    ∀ (fields : List (StructField × Value)) (me next : Nat) (k : Nat) (n : TreeNode),
      (preorder_fields me next fields)[k]? = some n →
      (∃ fk, n.parent = some (me, fk) ∧ (fk, n.node) ∈ one_to_many_children fields)
        ∨ HasParentIn (preorder_fields me next fields) next k n
  | [], _, _, _, _, h => by simp [preorder_fields] at h
  | (field, .slice xs) :: rest, me, next, k, n, h => by
    by_cases h1 : field.Tag.Get "one-to-many" ≠ ""
    · have hpo : preorder_fields me next ((field, .slice xs) :: rest)
          = preorder_children me next (field.Tag.Get "one-to-many") xs
            ++ preorder_fields me
                (next + (preorder_children me next (field.Tag.Get "one-to-many") xs).length)
                rest := by
        rw [preorder_fields, if_pos h1]
      rw [hpo] at h ⊢
      by_cases hk : k < (preorder_children me next (field.Tag.Get "one-to-many") xs).length
      · rw [List.getElem?_append_left hk] at h
        rcases preorder_children_parent xs me next (field.Tag.Get "one-to-many") k n h
          with ⟨h2, h3⟩ | hin
        · left
          refine ⟨field.Tag.Get "one-to-many", h2, ?_⟩
          simp only [one_to_many_children, if_pos h1, List.mem_append, List.mem_map]
          left
          exact ⟨n.node, h3, rfl⟩
        · right
          exact HasParentIn_append_left _ _ _ _ _ hk hin
      · rw [List.getElem?_append_right (by omega)] at h
        rcases preorder_fields_parent rest me _ _ n h with ⟨fk, h2, h3⟩ | hin
        · left
          refine ⟨fk, h2, ?_⟩
          simp only [one_to_many_children, List.mem_append]
          right
          exact h3
        · right
          exact HasParentIn_append_right _ _ _ _ _ (by omega) hin
    · rw [preorder_fields_skip _ _ _ _ _ h1] at h ⊢
      rcases preorder_fields_parent rest me next k n h with ⟨fk, h2, h3⟩ | hin
      · left
        refine ⟨fk, h2, ?_⟩
        simp only [one_to_many_children, List.mem_append]
        right
        exact h3
      · right
        exact hin
  | (field, .str s) :: rest, me, next, k, n, h => by
    rw [preorder_fields_not_slice _ _ _ _ _ (by intro xs h; cases h)] at h ⊢
    rcases preorder_fields_parent rest me next k n h with ⟨fk, h2, h3⟩ | hin
    · left
      refine ⟨fk, h2, ?_⟩
      simp only [one_to_many_children, List.mem_append]
      right
      exact h3
    · right
      exact hin
  | (field, .int i) :: rest, me, next, k, n, h => by
    rw [preorder_fields_not_slice _ _ _ _ _ (by intro xs h; cases h)] at h ⊢
    rcases preorder_fields_parent rest me next k n h with ⟨fk, h2, h3⟩ | hin
    · left
      refine ⟨fk, h2, ?_⟩
      simp only [one_to_many_children, List.mem_append]
      right
      exact h3
    · right
      exact hin
  | (field, .struct nm fs) :: rest, me, next, k, n, h => by
    rw [preorder_fields_not_slice _ _ _ _ _ (by intro xs h; cases h)] at h ⊢
    rcases preorder_fields_parent rest me next k n h with ⟨fk, h2, h3⟩ | hin
    · left
      refine ⟨fk, h2, ?_⟩
      simp only [one_to_many_children, List.mem_append]
      right
      exact h3
    · right
      exact hin
termination_by fields => sizeOf fields
theorem preorder_children_parent :
    ∀ (xs : List Value) (me next : Nat) (fk : string) (k : Nat) (n : TreeNode),
      (preorder_children me next fk xs)[k]? = some n →
      (n.parent = some (me, fk) ∧ n.node ∈ xs)
        ∨ HasParentIn (preorder_children me next fk xs) next k n
  | [], _, _, _, _, _, h => by simp [preorder_children] at h
  | child :: rest, me, next, fk, k, n, h => by
    simp only [preorder_children] at h ⊢
    by_cases hk : k < (preorder next (some (me, fk)) child).length
    · rw [List.getElem?_append_left hk] at h
      rcases preorder_parent child next (some (me, fk)) k n h with ⟨_, h2, h3⟩ | hin
      · left
        exact ⟨h2, by simp [h3]⟩
      · right
        exact HasParentIn_append_left _ _ _ _ _ hk hin
    · rw [List.getElem?_append_right (by omega)] at h
      rcases preorder_children_parent rest me _ fk _ n h with ⟨h2, h3⟩ | hin
      · left
        exact ⟨h2, by simp [h3]⟩
      · right
        exact HasParentIn_append_right _ _ _ _ _ (by omega) hin
termination_by xs => sizeOf xs
end

/-! ### The claims on recursive_create -/

theorem recursive_create_root (decls : Decls) (root : Value)
    (extras : List (string × Value)) (w : World)
    (hp : persistable decls root = true) (hlo : -2 ^ 63 ≤ w.fake_ids)
    (hhi : w.fake_ids + (preorder 0 none root).length ≤ maxInt) :
    recursive_create decls root extras w
      = (.ok w.fake_ids,
          ⟨w.fake_ids + (preorder 0 none root).length,
           w.executed ++ (preorder 0 none root).map (TreeNode.submission w.fake_ids extras)⟩) := by
  have h := recursive_create_spec decls w.fake_ids extras root 0 none w hp (by simp)
    (by simpa using hlo) (by simpa using hhi)
  simpa [TreeNode.extras] using h

/-- C4: on a well-formed object tree, with the counter at `c` and room for one
identifier per node in Go's `int`, `recursive_create` returns `c`, leaves the
counter at `c` plus the number of nodes, and appends to the submissions exactly
one per node of the tree, in depth-first pre-order: the `k`-th new submission
has identifier `c + k` and is the Insert built for the `k`-th node, and the
parent of every node other than the root stands before it. -/
theorem C4_recursive_create_preorder (decls : Decls) (root : Value)
    (extras : List (string × Value)) (w : World)
    (hp : persistable decls root = true) (hlo : -2 ^ 63 ≤ w.fake_ids)
    (hhi : w.fake_ids + (preorder 0 none root).length ≤ maxInt) :
    (recursive_create decls root extras w).1 = .ok w.fake_ids
    ∧ (recursive_create decls root extras w).2.fake_ids
        = w.fake_ids + (preorder 0 none root).length
    ∧ ∃ subs : List Submission,
        (recursive_create decls root extras w).2.executed = w.executed ++ subs
        ∧ subs.length = (preorder 0 none root).length
        ∧ (∃ n0, (preorder 0 none root)[0]? = some n0 ∧ n0.node = root)
        ∧ ∀ (k : Nat) (n : TreeNode), (preorder 0 none root)[k]? = some n →
            (∃ s, subs[k]? = some s ∧ s.id = w.fake_ids + k
              ∧ ∃ ex, s.insert = node_insert n.node ex)
            ∧ (k = 0 ∨ HasParentIn (preorder 0 none root) 0 k n) := by
  rw [recursive_create_root decls root extras w hp hlo hhi]
  refine ⟨rfl, rfl, _, rfl, by simp, ?_, ?_⟩
  · cases root with
    | struct name fields =>
      exact ⟨⟨0, .struct name fields, none⟩, by simp [preorder], rfl⟩
    | str s => simp [persistable] at hp
    | int n => simp [persistable] at hp
    | slice xs => simp [persistable] at hp
  · intro k n hk
    constructor
    · refine ⟨TreeNode.submission w.fake_ids extras n, ?_, ?_, _, rfl⟩
      · rw [List.getElem?_map, hk]
        rfl
      · simp [TreeNode.submission, preorder_getElem?_idx root k n hk]
    · rcases preorder_parent root 0 none k n hk with ⟨h0, _, _⟩ | hin
      · exact Or.inl h0
      · exact Or.inr hin

/-- C4, the tree built in `main` with the counter at 12: four submissions with
the identifiers 12, 13, 14, 15, and 12 is returned. -/
theorem C4_recursive_create_preorder_witness :
    (recursive_create [User] main_u [] {}).1 = .ok 12
    ∧ (recursive_create [User] main_u [] {}).2.fake_ids = 16
    ∧ (recursive_create [User] main_u [] {}).2.executed.map Submission.id = [12, 13, 14, 15]
    ∧ (preorder 0 none main_u).length = 4 :=
  ⟨(C4_recursive_create_preorder [User] main_u [] {} (by decide) (by decide) (by decide)).1,
    by decide, by decide, by decide⟩

/-- C6 (the code at the failing input): for a `User` and the extras
`{refered_by: 12}` the submitted Insert has the columns of all six fields, the
three relation fields included, followed by `refered_by`. -/
theorem C6_user_columns :
    (recursive_create [User] (User.mk "berel" "berel@example.com" 30 [])
        [("refered_by", .int 12)] {}).2.executed.map (fun s => (s.insert.table, s.insert.columns))
      = [("User", ["name", "email", "age", "othersRefered", "worksFor", "workers", "refered_by"])]
    ∧ (recursive_create [User] (User.mk "berel" "berel@example.com" 30 [])
        [("refered_by", .int 12)] {}).2.executed.map (fun s => s.insert.columns)
      ≠ [["name", "email", "age", "refered_by"]] := by
  constructor <;> decide

mutual
theorem preorder_persistable (decls : Decls) :
    ∀ (node : Value) (next : Nat) (parent : Option (Nat × string)),
      persistable decls node = true →
      ∀ n ∈ preorder next parent node, persistable decls n.node = true
  | .struct name fields, next, parent, hp, n, hn => by
    simp only [preorder, List.mem_cons] at hn
    rcases hn with hn | hn
    · rw [hn]
      exact hp
    · simp only [persistable, Bool.and_eq_true] at hp
      exact preorder_fields_persistable decls fields next (next + 1) hp.2 n hn
  | .str _, _, _, hp, _, _ => by simp [persistable] at hp
  | .int _, _, _, hp, _, _ => by simp [persistable] at hp
  | .slice _, _, _, hp, _, _ => by simp [persistable] at hp
termination_by node => sizeOf node
theorem preorder_fields_persistable (decls : Decls) :
    ∀ (fields : List (StructField × Value)) (me next : Nat),
      persistable_fields decls fields = true →
      ∀ n ∈ preorder_fields me next fields, persistable decls n.node = true
  | [], _, _, _, n, hn => by simp [preorder_fields] at hn
  | (field, .slice xs) :: rest, me, next, hp, n, hn => by
    simp only [persistable_fields, Bool.and_eq_true] at hp
    by_cases h1 : field.Tag.Get "one-to-many" ≠ ""
    · rw [preorder_fields, if_pos h1, List.mem_append] at hn
      rw [if_pos h1] at hp
      rcases hn with hn | hn
      · exact preorder_children_persistable decls xs me next _ hp.1 n hn
      · exact preorder_fields_persistable decls rest me _ hp.2 n hn
    · rw [preorder_fields_skip _ _ _ _ _ h1] at hn
      exact preorder_fields_persistable decls rest me next hp.2 n hn
  | (field, .str s) :: rest, me, next, hp, n, hn => by
    simp only [persistable_fields, Bool.and_eq_true] at hp
    rw [preorder_fields_not_slice _ _ _ _ _ (by intro xs h; cases h)] at hn
    exact preorder_fields_persistable decls rest me next hp.2 n hn
  | (field, .int i) :: rest, me, next, hp, n, hn => by
    simp only [persistable_fields, Bool.and_eq_true] at hp
    rw [preorder_fields_not_slice _ _ _ _ _ (by intro xs h; cases h)] at hn
    exact preorder_fields_persistable decls rest me next hp.2 n hn
  | (field, .struct nm fs) :: rest, me, next, hp, n, hn => by
    simp only [persistable_fields, Bool.and_eq_true] at hp
    rw [preorder_fields_not_slice _ _ _ _ _ (by intro xs h; cases h)] at hn
    exact preorder_fields_persistable decls rest me next hp.2 n hn
termination_by fields => sizeOf fields
theorem preorder_children_persistable (decls : Decls) :
    ∀ (xs : List Value) (me next : Nat) (fk : string),
      persistable_children decls xs = true →
      ∀ n ∈ preorder_children me next fk xs, persistable decls n.node = true
  | [], _, _, _, _, n, hn => by simp [preorder_children] at hn
  | child :: rest, me, next, fk, hp, n, hn => by
    simp only [persistable_children, Bool.and_eq_true] at hp
    simp only [preorder_children, List.mem_append] at hn
    rcases hn with hn | hn
    · exact preorder_persistable decls child next _ hp.1 n hn
    · exact preorder_children_persistable decls rest me _ fk hp.2 n hn
termination_by xs => sizeOf xs
end

/-- The Insert of a well-formed node: the node's own columns and values,
followed by the extras. -/
theorem node_insert_extras (decls : Decls) (node : Value) (extras : List (string × Value))
    (hp : persistable decls node = true) :
    (node_insert node extras).columns = (node_insert node []).columns ++ extras.map Prod.fst
    ∧ (node_insert node extras).Args = (node_insert node []).Args ++ extras.map Prod.snd
    ∧ (node_insert node extras).values = [(node_insert node extras).Args]
    ∧ (node_insert node extras).table = (node_insert node []).table := by
  cases node with
  | struct name fields =>
    simp only [persistable, Bool.and_eq_true, List.all_eq_true, bne_iff_ne, ne_eq] at hp
    have hcol := recursive_create_collect_spec fields [] [] (fun f hf => hp.1 f hf)
    simp [node_insert, hcol, recursive_create_insert, Insert.Args, Query.Args]
  | str s => simp [persistable] at hp
  | int n => simp [persistable] at hp
  | slice xs => simp [persistable] at hp

/-- C5 (as stated, refuted): a child whose own field has the column name that
the parent's one-to-many field names as foreign key gets that column twice. -/
theorem C5_foreign_key_twice_counterexample :
    persistable [Category] (Category.mk 0 [Category.mk 0 []]) = true
    ∧ (recursive_create [Category] (Category.mk 0 [Category.mk 0 []]) [] {}).2.executed.map
        (fun s => s.insert.columns)
      = [["parent_id", "children"], ["parent_id", "children", "parent_id"]]
    ∧ ((recursive_create [Category] (Category.mk 0 [Category.mk 0 []]) [] {}).2.executed.map
        (fun s => s.insert.columns.count "parent_id")) = [1, 2] := by
  refine ⟨by decide, by decide, by decide⟩

/-- C5 (amended): on a well-formed tree, the Insert submitted for the root has
the root's own columns and values followed by the caller's extras; the Insert
submitted for any other node `n`, held by its parent `p` in a one-to-many field
naming the foreign-key column `fk`, has `n`'s own columns followed by the one
column `fk`, and its row and `Args()` are `n`'s own values followed by the
identifier returned for `p`'s own Insert, which was submitted earlier; `fk`
occurs exactly once among the columns when no own column of `n` is named `fk`. -/
theorem C5_foreign_key_threading (decls : Decls) (root : Value)
    (extras : List (string × Value)) (w : World)
    (hp : persistable decls root = true) (hlo : -2 ^ 63 ≤ w.fake_ids)
    (hhi : w.fake_ids + (preorder 0 none root).length ≤ maxInt) :
    ∃ subs : List Submission,
      (recursive_create decls root extras w).2.executed = w.executed ++ subs
      ∧ (∃ s0, subs[0]? = some s0
          ∧ s0.insert.columns = (node_insert root []).columns ++ extras.map Prod.fst
          ∧ s0.insert.Args = (node_insert root []).Args ++ extras.map Prod.snd
          ∧ s0.insert.values = [s0.insert.Args])
      ∧ ∀ (k : Nat) (n : TreeNode) (p : Nat) (fk : string),
          (preorder 0 none root)[k]? = some n → n.parent = some (p, fk) →
          ∃ s sp pn, subs[k]? = some s ∧ subs[p]? = some sp
            ∧ (preorder 0 none root)[p]? = some pn
            ∧ p < k ∧ (fk, n.node) ∈ pn.node.children
            ∧ (∃ ex, sp.insert = node_insert pn.node ex)
            ∧ sp.id = w.fake_ids + p
            ∧ s.insert.columns = (node_insert n.node []).columns ++ [fk]
            ∧ s.insert.Args = (node_insert n.node []).Args ++ [.int sp.id]
            ∧ s.insert.values = [s.insert.Args]
            ∧ (fk ∉ (node_insert n.node []).columns → s.insert.columns.count fk = 1) := by
  rw [recursive_create_root decls root extras w hp hlo hhi]
  refine ⟨_, rfl, ?_, ?_⟩
  · cases root with
    | struct name fields =>
      have hx := node_insert_extras decls (.struct name fields) extras hp
      refine ⟨TreeNode.submission w.fake_ids extras ⟨0, .struct name fields, none⟩, ?_, ?_⟩
      · simp [preorder]
      · simpa [TreeNode.submission, TreeNode.extras] using ⟨hx.1, hx.2.1, hx.2.2.1⟩
    | str s => simp [persistable] at hp
    | int n => simp [persistable] at hp
    | slice xs => simp [persistable] at hp
  · intro k n p fk hk hpar
    rcases preorder_parent root 0 none k n hk with ⟨_, h0, _⟩ | hin
    · rw [hpar] at h0
      cases h0
    · obtain ⟨p2, fk2, pn, h1, _, h3, h4, h5⟩ := hin
      rw [hpar] at h1
      simp only [Option.some.injEq, Prod.mk.injEq] at h1
      obtain ⟨rfl, rfl⟩ := h1
      simp only [Nat.sub_zero, Nat.zero_add] at h3 h4
      have hn : persistable decls n.node = true :=
        preorder_persistable decls root 0 none hp n (List.getElem?_mem hk)
      have hx := node_insert_extras decls n.node [(fk, .int (w.fake_ids + p))] hn
      have hidx : pn.idx = p := preorder_getElem?_idx root p pn h4
      refine ⟨TreeNode.submission w.fake_ids extras n, TreeNode.submission w.fake_ids extras pn,
        pn, ?_, ?_, h4, h3, h5, ⟨_, rfl⟩, ?_, ?_, ?_, ?_, ?_⟩
      · rw [List.getElem?_map, hk]
        rfl
      · rw [List.getElem?_map, h4]
        rfl
      · simp [TreeNode.submission, hidx]
      · simpa [TreeNode.submission, TreeNode.extras, hpar] using hx.1
      · simpa [TreeNode.submission, TreeNode.extras, hpar, hidx] using hx.2.1
      · simpa [TreeNode.submission, TreeNode.extras, hpar] using hx.2.2.1
      · intro hnot
        have hc : (TreeNode.submission w.fake_ids extras n).insert.columns
            = (node_insert n.node []).columns ++ [fk] := by
          simpa [TreeNode.submission, TreeNode.extras, hpar] using hx.1
        rw [hc, List.count_append, List.count_eq_zero_of_not_mem hnot]
        simp

/-- C5 (amended), the tree built in `main`: the rows of berel and lev end with
`refered_by = 12`, the row of lev's child ends with `refered_by = 14`, the
identifier returned for lev's own Insert. -/
theorem C5_foreign_key_threading_witness :
    (∃ s sp, (recursive_create [User] main_u [] {}).2.executed[3]? = some s
        ∧ (recursive_create [User] main_u [] {}).2.executed[2]? = some sp
        ∧ sp.id = 12 + 2
        ∧ s.insert.columns = (node_insert (User.mk "fag" "fag.com" 21 []) []).columns
            ++ ["refered_by"]
        ∧ s.insert.Args = (node_insert (User.mk "fag" "fag.com" 21 []) []).Args
            ++ [.int sp.id])
    ∧ (recursive_create [User] main_u [] {}).2.executed.map
        (fun s => (s.insert.columns.getLast?, s.insert.Args.getLast?))
      = [(some "workers", some (.slice [])), (some "refered_by", some (.int 12)),
         (some "refered_by", some (.int 12)), (some "refered_by", some (.int 14))] := by
  constructor
  · obtain ⟨subs, hsubs, _, h⟩ :=
      C5_foreign_key_threading [User] main_u [] {} (by decide) (by decide) (by decide)
    obtain ⟨s, sp, pn, h1, h2, _, _, _, _, h7, h8, h9, _, _⟩ :=
      h 3 ⟨3, User.mk "fag" "fag.com" 21 [], some (2, "refered_by")⟩ 2 "refered_by" rfl rfl
    refine ⟨s, sp, ?_, ?_, h7, h8, h9⟩
    · rw [hsubs]
      simpa using h1
    · rw [hsubs]
      simpa using h2
  · rfl

/-! ### Placeholders -/

theorem placeholders_append (a b : string) :
    placeholders (a ++ b) = placeholders a + placeholders b := by
  simp [placeholders, String.data_append, List.count_append]

theorem placeholders_empty : placeholders "" = 0 := by decide

theorem digitChar_lt_ten_ne_question : ∀ d, d < 10 → Nat.digitChar d ≠ '?' := by
  decide

theorem digitChar_ne_question (n : Nat) : Nat.digitChar (n % 10) ≠ '?' :=
  digitChar_lt_ten_ne_question (n % 10) (Nat.mod_lt n (by decide))

theorem toDigitsCore_count (fuel n : Nat) (ds : List Char) :
    (Nat.toDigitsCore 10 fuel n ds).count '?' = ds.count '?' := by
  induction fuel generalizing n ds with
  | zero => simp [Nat.toDigitsCore]
  | succ f ih =>
    simp only [Nat.toDigitsCore]
    split
    · simp [List.count_cons, digitChar_ne_question]
    · rw [ih]
      simp [List.count_cons, digitChar_ne_question]

theorem placeholders_nat_repr (n : Nat) : placeholders (Nat.repr n) = 0 := by
  simp [placeholders, Nat.repr, Nat.toDigits, List.asString, toDigitsCore_count]

theorem placeholders_toString_int (n : Int) : placeholders (toString n) = 0 := by
  cases n with
  | ofNat m =>
    show placeholders (Nat.repr m) = 0
    exact placeholders_nat_repr m
  | negSucc m =>
    show placeholders ("-" ++ Nat.repr (m + 1)) = 0
    rw [placeholders_append, placeholders_nat_repr]
    decide

theorem placeholders_Join (elems : List string) (sep : string)
    (h : ∀ c ∈ elems, placeholders c = 0) (hsep : placeholders sep = 0) :
    placeholders (strings.Join elems sep) = 0 := by
  induction elems with
  | nil => simp [strings.Join, placeholders_empty]
  | cons x xs ih =>
    cases xs with
    | nil => simpa [strings.Join] using h x (by simp)
    | cons y ys =>
      simp only [strings.Join, placeholders_append, hsep]
      rw [h x (by simp), ih (fun c hc => h c (by simp [hc]))]

/-! ### The where text -/

theorem whereFrom_prefix (cs : List string) (w : string) : ∃ suf, whereFrom w cs = w ++ suf := by
  induction cs generalizing w with
  | nil => exact ⟨"", by simp [whereFrom]⟩
  | cons c cs ih =>
    obtain ⟨suf, h⟩ := ih ((if w ≠ "" then w ++ " AND " else w) ++ c)
    simp only [whereFrom]
    rw [h]
    by_cases hw : w ≠ ""
    · rw [if_pos hw]
      exact ⟨" AND " ++ c ++ suf, by simp [String.append_assoc]⟩
    · rw [if_neg hw]
      exact ⟨c ++ suf, by simp [String.append_assoc]⟩

theorem placeholders_and (w : string) :
    placeholders (if w ≠ "" then w ++ " AND " else w) = placeholders w := by
  split
  · rw [placeholders_append]
    have : placeholders " AND " = 0 := by decide
    omega
  · rfl

theorem placeholders_whereFrom (cs : List string) (w : string) :
    placeholders (whereFrom w cs) = placeholders w + (cs.map placeholders).sum := by
  induction cs generalizing w with
  | nil => simp [whereFrom]
  | cons c cs ih =>
    simp only [whereFrom, List.map_cons, List.sum_cons]
    rw [ih, placeholders_append, placeholders_and]
    omega

/-- The `j`-th condition stands in the where text after exactly the
placeholders of the text so far and of the conditions before it. -/
theorem whereFrom_split (cs : List string) (w : string) (j : Nat) (c : string)
    (hj : cs[j]? = some c) :
    ∃ pre post, whereFrom w cs = pre ++ c ++ post
      ∧ placeholders pre = placeholders w + ((cs.take j).map placeholders).sum := by
  induction cs generalizing w j with
  | nil => simp at hj
  | cons c0 cs ih =>
    cases j with
    | zero =>
      simp only [List.getElem?_cons_zero, Option.some.injEq] at hj
      subst hj
      obtain ⟨suf, h⟩ := whereFrom_prefix cs ((if w ≠ "" then w ++ " AND " else w) ++ c0)
      refine ⟨if w ≠ "" then w ++ " AND " else w, suf, ?_, ?_⟩
      · simp only [whereFrom]
        exact h
      · rw [placeholders_and]
        simp
    | succ j =>
      simp only [List.getElem?_cons_succ] at hj
      obtain ⟨pre, post, h1, h2⟩ := ih ((if w ≠ "" then w ++ " AND " else w) ++ c0) j hj
      refine ⟨pre, post, ?_, ?_⟩
      · simp only [whereFrom]
        exact h1
      · rw [h2, placeholders_append, placeholders_and]
        simp only [List.take_succ_cons, List.map_cons, List.sum_cons]
        omega

/-! ### Texts placed in a rendering -/

theorem Placed_nil (T : string) (base : Nat) : Placed T base [] := by
  intro j c h
  simp at h

theorem Placed_single (c : string) : Placed c 0 [c] := by
  intro j c1 h
  cases j with
  | zero =>
    simp only [List.getElem?_cons_zero, Option.some.injEq] at h
    subst h
    exact ⟨"", "", by simp, by simp [placeholders_empty]⟩
  | succ j => simp at h

theorem Placed_where (w : string) (cs : List string) :
    Placed (whereFrom w cs) (placeholders w) cs := by
  intro j c h
  exact whereFrom_split cs w j c h

theorem Placed_wrap (A B T : string) (base : Nat) (segs : List string)
    (h : Placed T base segs) : Placed (A ++ T ++ B) (placeholders A + base) segs := by
  intro j c hj
  obtain ⟨pre, post, h1, h2⟩ := h j c hj
  refine ⟨A ++ pre, post ++ B, ?_, ?_⟩
  · rw [h1]
    simp [String.append_assoc]
  · rw [placeholders_append, h2]
    omega

theorem Placed_append (T1 T2 : string) (base : Nat) (segs1 segs2 : List string)
    (h1 : Placed T1 base segs1) (h2 : Placed T2 0 segs2)
    (hT1 : placeholders T1 = base + (segs1.map placeholders).sum) :
    Placed (T1 ++ T2) base (segs1 ++ segs2) := by
  intro j c hj
  by_cases hlt : j < segs1.length
  · rw [List.getElem?_append_left hlt] at hj
    obtain ⟨pre, post, e1, e2⟩ := h1 j c hj
    refine ⟨pre, post ++ T2, ?_, ?_⟩
    · rw [e1]
      simp [String.append_assoc]
    · rw [e2, List.take_append_of_le_length (by omega)]
  · rw [List.getElem?_append_right (by omega)] at hj
    obtain ⟨pre, post, e1, e2⟩ := h2 (j - segs1.length) c hj
    refine ⟨T1 ++ pre, post, ?_, ?_⟩
    · rw [e1]
      simp [String.append_assoc]
    · have ht : (segs1 ++ segs2).take j = segs1 ++ segs2.take (j - segs1.length) := by
        rw [List.take_append_eq_append_take, List.take_of_length_le (by omega)]
      rw [placeholders_append, e2, hT1, ht, List.map_append, List.sum_append]
      omega

theorem sum_placeholders_eq_length (segs : List (string × List Value))
    (h : ∀ seg ∈ segs, placeholders seg.1 = seg.2.length) :
    ((segs.map Prod.fst).map placeholders).sum = ((segs.map Prod.snd).flatten).length := by
  induction segs with
  | nil => simp
  | cons x xs ih =>
    simp only [List.map_cons, List.sum_cons, List.flatten_cons, List.length_append]
    rw [ih (fun seg hs => h seg (by simp [hs])), h x (by simp)]

/-! ### Sequences of calls on a Select -/

theorem Select_foldl_args (calls : List SelectCall) (s : Select) :
    (calls.foldl SelectCall.apply s).args
      = s.args ++ ((calls.filterMap SelectCall.carried).map Prod.snd).flatten := by
  induction calls generalizing s with
  | nil => simp
  | cons c cs ih =>
    rw [List.foldl_cons, ih]
    cases c <;>
      simp [SelectCall.apply, SelectCall.carried, Select.Select, Select.From, Select.Join,
        Select.LeftJoin, Select.Where, Select.GroupBy, Select.Having, Select.OrderBy,
        Select.Limit, Select.Offset]

theorem Select_foldl_where (calls : List SelectCall) (s : Select) :
    (calls.foldl SelectCall.apply s).where_section
      = whereFrom s.where_section ((calls.filterMap SelectCall.whereSeg).map Prod.fst) := by
  induction calls generalizing s with
  | nil => simp [whereFrom]
  | cons c cs ih =>
    rw [List.foldl_cons, ih]
    cases c <;>
      simp [SelectCall.apply, SelectCall.whereSeg, Select.Select, Select.From, Select.Join,
        Select.LeftJoin, Select.Where, Select.GroupBy, Select.Having, Select.OrderBy,
        Select.Limit, Select.Offset, whereFrom]

theorem Select_foldl_having_none (calls : List SelectCall) (s : Select)
    (h : calls.filterMap SelectCall.havingSeg = []) :
    (calls.foldl SelectCall.apply s).having_section = s.having_section := by
  induction calls generalizing s with
  | nil => simp
  | cons c cs ih =>
    rw [List.foldl_cons]
    cases c with
    | Having c1 a1 => simp [SelectCall.havingSeg] at h
    | Select _ =>
      rw [List.filterMap_cons_none rfl] at h
      rw [ih _ h]
      rfl
    | From _ =>
      rw [List.filterMap_cons_none rfl] at h
      rw [ih _ h]
      rfl
    | Join _ _ =>
      rw [List.filterMap_cons_none rfl] at h
      rw [ih _ h]
      rfl
    | LeftJoin _ _ =>
      rw [List.filterMap_cons_none rfl] at h
      rw [ih _ h]
      rfl
    | Where _ _ =>
      rw [List.filterMap_cons_none rfl] at h
      rw [ih _ h]
      rfl
    | GroupBy _ =>
      rw [List.filterMap_cons_none rfl] at h
      rw [ih _ h]
      rfl
    | OrderBy _ =>
      rw [List.filterMap_cons_none rfl] at h
      rw [ih _ h]
      rfl
    | Limit _ =>
      rw [List.filterMap_cons_none rfl] at h
      rw [ih _ h]
      rfl
    | Offset _ =>
      rw [List.filterMap_cons_none rfl] at h
      rw [ih _ h]
      rfl

theorem Select_foldl_having_one (calls : List SelectCall) (s : Select) (c : string)
    (a : List Value) (h : calls.filterMap SelectCall.havingSeg = [(c, a)]) :
    (calls.foldl SelectCall.apply s).having_section = c := by
  induction calls generalizing s with
  | nil => simp at h
  | cons c0 cs ih =>
    rw [List.foldl_cons]
    cases c0 with
    | Having c1 a1 =>
      have h2 : List.filterMap SelectCall.havingSeg (SelectCall.Having c1 a1 :: cs)
          = (c1, a1) :: List.filterMap SelectCall.havingSeg cs :=
        List.filterMap_cons_some rfl
      rw [h2] at h
      simp only [List.cons.injEq, Prod.mk.injEq] at h
      rw [Select_foldl_having_none cs _ h.2]
      simp [SelectCall.apply, Select.Having, h.1.1]
    | Select _ =>
      rw [List.filterMap_cons_none rfl] at h
      exact ih _ h
    | From _ =>
      rw [List.filterMap_cons_none rfl] at h
      exact ih _ h
    | Join _ _ =>
      rw [List.filterMap_cons_none rfl] at h
      exact ih _ h
    | LeftJoin _ _ =>
      rw [List.filterMap_cons_none rfl] at h
      exact ih _ h
    | Where _ _ =>
      rw [List.filterMap_cons_none rfl] at h
      exact ih _ h
    | GroupBy _ =>
      rw [List.filterMap_cons_none rfl] at h
      exact ih _ h
    | OrderBy _ =>
      rw [List.filterMap_cons_none rfl] at h
      exact ih _ h
    | Limit _ =>
      rw [List.filterMap_cons_none rfl] at h
      exact ih _ h
    | Offset _ =>
      rw [List.filterMap_cons_none rfl] at h
      exact ih _ h

theorem Select_QFree_apply (s : Select) (c : SelectCall) (hs : s.QFree) (hc : c.balanced) :
    (SelectCall.apply s c).QFree := by
  obtain ⟨h1, h2, h3, h4, h5, h6, h7⟩ := hs
  have hsep : placeholders ", " = 0 := by decide
  cases c with
  | Select columns =>
    refine ⟨?_, h2, h3, h4, h5, h6, h7⟩
    simp only [SelectCall.apply, Select.Select]
    rw [placeholders_append, placeholders_Join columns ", " hc hsep]
    split
    · rw [placeholders_append, h1, hsep]
    · exact h1
  | From table => exact ⟨h1, hc, h3, h4, h5, h6, h7⟩
  | Join table onCondition =>
    refine ⟨h1, h2, ?_, h4, h5, h6, h7⟩
    simp only [SelectCall.apply, Select.Join, placeholders_append, h3, hc.1, hc.2]
    decide
  | LeftJoin table onCondition =>
    refine ⟨h1, h2, ?_, h4, h5, h6, h7⟩
    simp only [SelectCall.apply, Select.LeftJoin, placeholders_append, h3, hc.1, hc.2]
    decide
  | Where condition args => exact ⟨h1, h2, h3, h4, h5, h6, h7⟩
  | GroupBy columns =>
    exact ⟨h1, h2, h3, placeholders_Join columns ", " hc hsep, h5, h6, h7⟩
  | Having condition args => exact ⟨h1, h2, h3, h4, h5, h6, h7⟩
  | OrderBy order => exact ⟨h1, h2, h3, h4, hc, h6, h7⟩
  | Limit n => exact ⟨h1, h2, h3, h4, h5, placeholders_toString_int n, h7⟩
  | Offset n => exact ⟨h1, h2, h3, h4, h5, h6, placeholders_toString_int n⟩

theorem Select_foldl_QFree (calls : List SelectCall) (s : Select) (hs : s.QFree)
    (hc : ∀ c ∈ calls, c.balanced) : (calls.foldl SelectCall.apply s).QFree := by
  induction calls generalizing s with
  | nil => exact hs
  | cons c cs ih =>
    rw [List.foldl_cons]
    exact ih _ (Select_QFree_apply s c hs (hc c (by simp))) (fun c1 h1 => hc c1 (by simp [h1]))

theorem filterMap_eq_nil_of_all_isNone {α β : Type} (f : α → Option β) (l : List α)
    (h : l.all (fun c => (f c).isNone) = true) : l.filterMap f = [] := by
  induction l with
  | nil => rfl
  | cons x xs ih =>
    simp only [List.all_cons, Bool.and_eq_true] at h
    have hx : f x = none := by simpa using h.1
    rw [List.filterMap_cons_none hx]
    exact ih h.2

theorem Select_carried_none (cs : List SelectCall)
    (h : cs.all (fun c => c.carried.isNone) = true) :
    cs.filterMap SelectCall.carried = [] ∧ cs.filterMap SelectCall.whereSeg = []
    ∧ cs.filterMap SelectCall.havingSeg = [] := by
  refine ⟨filterMap_eq_nil_of_all_isNone _ _ h, filterMap_eq_nil_of_all_isNone _ _ ?_,
    filterMap_eq_nil_of_all_isNone _ _ ?_⟩
  · rw [List.all_eq_true] at h ⊢
    intro c hc
    have := h c hc
    cases c <;> simp_all [SelectCall.carried, SelectCall.whereSeg]
  · rw [List.all_eq_true] at h ⊢
    intro c hc
    have := h c hc
    cases c <;> simp_all [SelectCall.carried, SelectCall.havingSeg]

theorem Select_inOrder_split (calls : List SelectCall)
    (h : SelectCall.inOrder calls = true) :
    calls.filterMap SelectCall.carried
        = calls.filterMap SelectCall.whereSeg ++ calls.filterMap SelectCall.havingSeg
    ∧ (calls.filterMap SelectCall.havingSeg).length ≤ 1 := by
  induction calls with
  | nil => simp
  | cons c cs ih =>
    cases c with
    | Having c1 a1 =>
      simp only [SelectCall.inOrder] at h
      obtain ⟨h1, h2, h3⟩ := Select_carried_none cs h
      have e1 : List.filterMap SelectCall.carried (SelectCall.Having c1 a1 :: cs)
          = (c1, a1) :: List.filterMap SelectCall.carried cs := List.filterMap_cons_some rfl
      have e2 : List.filterMap SelectCall.havingSeg (SelectCall.Having c1 a1 :: cs)
          = (c1, a1) :: List.filterMap SelectCall.havingSeg cs := List.filterMap_cons_some rfl
      have e3 : List.filterMap SelectCall.whereSeg (SelectCall.Having c1 a1 :: cs)
          = List.filterMap SelectCall.whereSeg cs := List.filterMap_cons_none rfl
      rw [e1, e2, e3, h1, h2, h3]
      simp
    | Where c1 a1 =>
      simp only [SelectCall.inOrder] at h
      have e1 : List.filterMap SelectCall.carried (SelectCall.Where c1 a1 :: cs)
          = (c1, a1) :: List.filterMap SelectCall.carried cs := List.filterMap_cons_some rfl
      have e2 : List.filterMap SelectCall.whereSeg (SelectCall.Where c1 a1 :: cs)
          = (c1, a1) :: List.filterMap SelectCall.whereSeg cs := List.filterMap_cons_some rfl
      have e3 : List.filterMap SelectCall.havingSeg (SelectCall.Where c1 a1 :: cs)
          = List.filterMap SelectCall.havingSeg cs := List.filterMap_cons_none rfl
      rw [e1, e2, e3, (ih h).1]
      exact ⟨by simp, (ih h).2⟩
    | Select _ =>
      simp only [SelectCall.inOrder] at h
      rw [List.filterMap_cons_none rfl, List.filterMap_cons_none rfl,
        List.filterMap_cons_none rfl]
      exact ih h
    | From _ =>
      simp only [SelectCall.inOrder] at h
      rw [List.filterMap_cons_none rfl, List.filterMap_cons_none rfl,
        List.filterMap_cons_none rfl]
      exact ih h
    | Join _ _ =>
      simp only [SelectCall.inOrder] at h
      rw [List.filterMap_cons_none rfl, List.filterMap_cons_none rfl,
        List.filterMap_cons_none rfl]
      exact ih h
    | LeftJoin _ _ =>
      simp only [SelectCall.inOrder] at h
      rw [List.filterMap_cons_none rfl, List.filterMap_cons_none rfl,
        List.filterMap_cons_none rfl]
      exact ih h
    | GroupBy _ =>
      simp only [SelectCall.inOrder] at h
      rw [List.filterMap_cons_none rfl, List.filterMap_cons_none rfl,
        List.filterMap_cons_none rfl]
      exact ih h
    | OrderBy _ =>
      simp only [SelectCall.inOrder] at h
      rw [List.filterMap_cons_none rfl, List.filterMap_cons_none rfl,
        List.filterMap_cons_none rfl]
      exact ih h
    | Limit _ =>
      simp only [SelectCall.inOrder] at h
      rw [List.filterMap_cons_none rfl, List.filterMap_cons_none rfl,
        List.filterMap_cons_none rfl]
      exact ih h
    | Offset _ =>
      simp only [SelectCall.inOrder] at h
      rw [List.filterMap_cons_none rfl, List.filterMap_cons_none rfl,
        List.filterMap_cons_none rfl]
      exact ih h

/-- The rendering of a Select, cut around the where text and the having text. -/
theorem Select_String_cut (s : Select) :
    s.String =
      (("SELECT " ++ s.select_section
          ++ (if s.from_section ≠ "" then " FROM " ++ s.from_section else "")
          ++ s.join_section ++ (if s.where_section ≠ "" then " WHERE " else ""))
        ++ s.where_section
        ++ (if s.group_section ≠ "" then " GROUP BY " ++ s.group_section else ""))
      ++ ((if s.having_section ≠ "" then " HAVING " else "") ++ s.having_section
        ++ ((if s.order_section ≠ "" then " ORDER BY " ++ s.order_section else "")
          ++ (if s.limit_section ≠ "" then " LIMIT " ++ s.limit_section else "")
          ++ (if s.offset_section ≠ "" then " OFFSET " ++ s.offset_section else ""))) := by
  unfold Select.String
  by_cases h1 : s.from_section = "" <;> by_cases h2 : s.where_section = "" <;>
    by_cases h3 : s.group_section = "" <;> by_cases h4 : s.having_section = "" <;>
    by_cases h5 : s.order_section = "" <;> by_cases h6 : s.limit_section = "" <;>
    by_cases h7 : s.offset_section = "" <;>
    simp [h1, h2, h3, h4, h5, h6, h7, String.append_assoc]

theorem placeholders_ite_keyword (c : Prop) [Decidable c] (kw x : string)
    (hkw : placeholders kw = 0) (hx : placeholders x = 0) :
    placeholders (if c then kw ++ x else "") = 0 := by
  split
  · rw [placeholders_append, hkw, hx]
  · exact placeholders_empty

theorem placeholders_ite_empty (c : Prop) [Decidable c] (kw : string)
    (hkw : placeholders kw = 0) : placeholders (if c then kw else "") = 0 := by
  split
  · exact hkw
  · exact placeholders_empty

theorem Select_fresh_QFree : ({} : Select).QFree := by
  refine ⟨?_, ?_, ?_, ?_, ?_, ?_, ?_⟩ <;> exact placeholders_empty

/-- On a Select configured by calls in the order of the clauses, the texts of
the calls that take arguments stand in the rendering in call order, and only
they hold placeholders. -/
theorem Select_run_placed (calls : List SelectCall)
    (hb : ∀ c ∈ calls, c.balanced) (ho : SelectCall.inOrder calls = true) :
    Placed (SelectCall.run calls).String 0 ((calls.filterMap SelectCall.carried).map Prod.fst)
    ∧ placeholders (SelectCall.run calls).String
        = (((calls.filterMap SelectCall.carried).map Prod.fst).map placeholders).sum := by
  have hq : (SelectCall.run calls).QFree := Select_foldl_QFree calls {} Select_fresh_QFree hb
  obtain ⟨q1, q2, q3, q4, q5, q6, q7⟩ := hq
  have hw : (SelectCall.run calls).where_section
      = whereFrom "" ((calls.filterMap SelectCall.whereSeg).map Prod.fst) :=
    Select_foldl_where calls {}
  obtain ⟨hsplit, hlen⟩ := Select_inOrder_split calls ho
  have k1 : placeholders "SELECT " = 0 := by decide
  have k2 : placeholders " FROM " = 0 := by decide
  have k3 : placeholders " WHERE " = 0 := by decide
  have k4 : placeholders " GROUP BY " = 0 := by decide
  have k5 : placeholders " HAVING " = 0 := by decide
  have k6 : placeholders " ORDER BY " = 0 := by decide
  have k7 : placeholders " LIMIT " = 0 := by decide
  have k8 : placeholders " OFFSET " = 0 := by decide
  generalize hs : SelectCall.run calls = s at *
  have hA : placeholders ("SELECT " ++ s.select_section
      ++ (if s.from_section ≠ "" then " FROM " ++ s.from_section else "")
      ++ s.join_section ++ (if s.where_section ≠ "" then " WHERE " else "")) = 0 := by
    rw [placeholders_append, placeholders_append, placeholders_append, placeholders_append,
      k1, q1, q3, placeholders_ite_keyword _ _ _ k2 q2, placeholders_ite_empty _ _ k3]
  have hG : placeholders (if s.group_section ≠ "" then " GROUP BY " ++ s.group_section else "")
      = 0 := placeholders_ite_keyword _ _ _ k4 q4
  have hP : placeholders ((if s.order_section ≠ "" then " ORDER BY " ++ s.order_section else "")
      ++ (if s.limit_section ≠ "" then " LIMIT " ++ s.limit_section else "")
      ++ (if s.offset_section ≠ "" then " OFFSET " ++ s.offset_section else "")) = 0 := by
    rw [placeholders_append, placeholders_append, placeholders_ite_keyword _ _ _ k6 q5,
      placeholders_ite_keyword _ _ _ k7 q6, placeholders_ite_keyword _ _ _ k8 q7]
  have hH : placeholders (if s.having_section ≠ "" then " HAVING " else "") = 0 :=
    placeholders_ite_empty _ _ k5
  rw [Select_String_cut s, hsplit, List.map_append]
  have p1 := Placed_wrap ("SELECT " ++ s.select_section
      ++ (if s.from_section ≠ "" then " FROM " ++ s.from_section else "")
      ++ s.join_section ++ (if s.where_section ≠ "" then " WHERE " else ""))
    (if s.group_section ≠ "" then " GROUP BY " ++ s.group_section else "")
    _ _ _ (Placed_where "" ((calls.filterMap SelectCall.whereSeg).map Prod.fst))
  rw [← hw, hA, placeholders_empty] at p1
  have c1 : placeholders (("SELECT " ++ s.select_section
        ++ (if s.from_section ≠ "" then " FROM " ++ s.from_section else "")
        ++ s.join_section ++ (if s.where_section ≠ "" then " WHERE " else ""))
      ++ s.where_section
      ++ (if s.group_section ≠ "" then " GROUP BY " ++ s.group_section else ""))
      = 0 + (((calls.filterMap SelectCall.whereSeg).map Prod.fst).map placeholders).sum := by
    rw [placeholders_append, placeholders_append, hA, hG, hw, placeholders_whereFrom,
      placeholders_empty]
    omega
  match hH2 : calls.filterMap SelectCall.havingSeg, hlen with
  | [], _ =>
    have hh : s.having_section = "" := by
      rw [← hs]
      exact Select_foldl_having_none calls {} hH2
    constructor
    · exact Placed_append _ _ 0 _ _ p1 (Placed_nil _ 0) c1
    · rw [placeholders_append, c1, placeholders_append, placeholders_append, hH, hP, hh,
        placeholders_empty]
      simp
  | [(h, a)], _ =>
    have hh : s.having_section = h := by
      rw [← hs]
      exact Select_foldl_having_one calls {} h a hH2
    have p2 := Placed_wrap (if s.having_section ≠ "" then " HAVING " else "")
      ((if s.order_section ≠ "" then " ORDER BY " ++ s.order_section else "")
      ++ (if s.limit_section ≠ "" then " LIMIT " ++ s.limit_section else "")
      ++ (if s.offset_section ≠ "" then " OFFSET " ++ s.offset_section else ""))
      _ _ _ (Placed_single h)
    rw [hH] at p2
    rw [hh]
    rw [hh] at p2
    constructor
    · exact Placed_append _ _ 0 _ _ p1 p2 c1
    · rw [placeholders_append, c1, placeholders_append, placeholders_append, ← hh, hH, hP]
      simp
  | _ :: _ :: _, hl => simp at hl

/-! ### Sequences of calls on an Update -/

theorem Update_foldl_args (calls : List UpdateCall) (u : Update) :
    (calls.foldl UpdateCall.apply u).args
      = u.args ++ ((calls.filterMap UpdateCall.carried).map Prod.snd).flatten := by
  induction calls generalizing u with
  | nil => simp
  | cons c cs ih =>
    rw [List.foldl_cons, ih]
    cases c <;>
      simp [UpdateCall.apply, UpdateCall.carried, Update.Table, Update.Set, Update.Where]

theorem Update_foldl_where (calls : List UpdateCall) (u : Update) :
    (calls.foldl UpdateCall.apply u).where_
      = whereFrom u.where_ ((calls.filterMap UpdateCall.whereSeg).map Prod.fst) := by
  induction calls generalizing u with
  | nil => simp [whereFrom]
  | cons c cs ih =>
    rw [List.foldl_cons, ih]
    cases c <;>
      simp [UpdateCall.apply, UpdateCall.whereSeg, Update.Table, Update.Set, Update.Where,
        whereFrom]

theorem Update_foldl_set_none (calls : List UpdateCall) (u : Update)
    (h : calls.filterMap UpdateCall.setSeg = []) :
    (calls.foldl UpdateCall.apply u).set_section = u.set_section := by
  induction calls generalizing u with
  | nil => simp
  | cons c cs ih =>
    rw [List.foldl_cons]
    cases c with
    | Set c1 a1 => simp [UpdateCall.setSeg] at h
    | Table _ =>
      rw [List.filterMap_cons_none rfl] at h
      rw [ih _ h]
      rfl
    | Where _ _ =>
      rw [List.filterMap_cons_none rfl] at h
      rw [ih _ h]
      rfl

theorem Update_foldl_set_one (calls : List UpdateCall) (u : Update) (c : string)
    (a : List Value) (h : calls.filterMap UpdateCall.setSeg = [(c, a)]) :
    (calls.foldl UpdateCall.apply u).set_section = c := by
  induction calls generalizing u with
  | nil => simp at h
  | cons c0 cs ih =>
    rw [List.foldl_cons]
    cases c0 with
    | Set c1 a1 =>
      have h2 : List.filterMap UpdateCall.setSeg (UpdateCall.Set c1 a1 :: cs)
          = (c1, a1) :: List.filterMap UpdateCall.setSeg cs :=
        List.filterMap_cons_some rfl
      rw [h2] at h
      simp only [List.cons.injEq, Prod.mk.injEq] at h
      rw [Update_foldl_set_none cs _ h.2]
      simp [UpdateCall.apply, Update.Set, h.1.1]
    | Table _ =>
      rw [List.filterMap_cons_none rfl] at h
      exact ih _ h
    | Where _ _ =>
      rw [List.filterMap_cons_none rfl] at h
      exact ih _ h

theorem Update_foldl_table (calls : List UpdateCall) (u : Update)
    (hu : placeholders u.table = 0) (hc : ∀ c ∈ calls, c.balanced) :
    placeholders (calls.foldl UpdateCall.apply u).table = 0 := by
  induction calls generalizing u with
  | nil => exact hu
  | cons c cs ih =>
    rw [List.foldl_cons]
    apply ih _ _ (fun c1 h1 => hc c1 (by simp [h1]))
    have hb := hc c (by simp)
    cases c with
    | Table t => exact hb
    | Set _ _ => exact hu
    | Where _ _ => exact hu

theorem Update_no_Set (cs : List UpdateCall)
    (h : cs.all (fun c => match c with | .Set _ _ => false | _ => true) = true) :
    cs.filterMap UpdateCall.setSeg = []
    ∧ cs.filterMap UpdateCall.carried = cs.filterMap UpdateCall.whereSeg := by
  induction cs with
  | nil => simp
  | cons c cs ih =>
    simp only [List.all_cons, Bool.and_eq_true] at h
    obtain ⟨i1, i2⟩ := ih h.2
    cases c with
    | Set _ _ => simp at h
    | Table _ =>
      rw [List.filterMap_cons_none rfl, List.filterMap_cons_none rfl,
        List.filterMap_cons_none rfl]
      exact ⟨i1, i2⟩
    | Where c1 a1 =>
      have e1 : List.filterMap UpdateCall.carried (UpdateCall.Where c1 a1 :: cs)
          = (c1, a1) :: List.filterMap UpdateCall.carried cs := List.filterMap_cons_some rfl
      have e2 : List.filterMap UpdateCall.whereSeg (UpdateCall.Where c1 a1 :: cs)
          = (c1, a1) :: List.filterMap UpdateCall.whereSeg cs := List.filterMap_cons_some rfl
      rw [List.filterMap_cons_none rfl, e1, e2, i2]
      exact ⟨i1, rfl⟩

theorem Update_inOrder_split (calls : List UpdateCall)
    (h : UpdateCall.inOrder calls = true) :
    calls.filterMap UpdateCall.carried
        = calls.filterMap UpdateCall.setSeg ++ calls.filterMap UpdateCall.whereSeg
    ∧ (calls.filterMap UpdateCall.setSeg).length ≤ 1 := by
  induction calls with
  | nil => simp
  | cons c cs ih =>
    cases c with
    | Table _ =>
      simp only [UpdateCall.inOrder] at h
      rw [List.filterMap_cons_none rfl, List.filterMap_cons_none rfl,
        List.filterMap_cons_none rfl]
      exact ih h
    | Set c1 a1 =>
      simp only [UpdateCall.inOrder] at h
      obtain ⟨i1, i2⟩ := Update_no_Set cs h
      have e1 : List.filterMap UpdateCall.carried (UpdateCall.Set c1 a1 :: cs)
          = (c1, a1) :: List.filterMap UpdateCall.carried cs := List.filterMap_cons_some rfl
      have e2 : List.filterMap UpdateCall.setSeg (UpdateCall.Set c1 a1 :: cs)
          = (c1, a1) :: List.filterMap UpdateCall.setSeg cs := List.filterMap_cons_some rfl
      have e3 : List.filterMap UpdateCall.whereSeg (UpdateCall.Set c1 a1 :: cs)
          = List.filterMap UpdateCall.whereSeg cs := List.filterMap_cons_none rfl
      rw [e1, e2, e3, i1, i2]
      simp
    | Where c1 a1 =>
      simp only [UpdateCall.inOrder] at h
      obtain ⟨i1, i2⟩ := Update_no_Set cs h
      have e1 : List.filterMap UpdateCall.carried (UpdateCall.Where c1 a1 :: cs)
          = (c1, a1) :: List.filterMap UpdateCall.carried cs := List.filterMap_cons_some rfl
      have e2 : List.filterMap UpdateCall.whereSeg (UpdateCall.Where c1 a1 :: cs)
          = (c1, a1) :: List.filterMap UpdateCall.whereSeg cs := List.filterMap_cons_some rfl
      have e3 : List.filterMap UpdateCall.setSeg (UpdateCall.Where c1 a1 :: cs)
          = List.filterMap UpdateCall.setSeg cs := List.filterMap_cons_none rfl
      rw [e1, e2, e3, i1, i2]
      simp

/-- The rendering of an Update, cut around the set text and the where text. -/
theorem Update_String_cut (u : Update) :
    u.String = (("UPDATE " ++ u.table ++ " SET ") ++ u.set_section ++ "")
      ++ ((if u.where_ ≠ "" then " WHERE " else "") ++ u.where_ ++ "") := by
  unfold Update.String
  by_cases h : u.where_ = "" <;> simp [h, String.append_assoc]

/-- On an Update configured by calls in the order of the clauses, the texts of
the calls that take arguments stand in the rendering in call order, and only
they hold placeholders. -/
theorem Update_run_placed (calls : List UpdateCall)
    (hb : ∀ c ∈ calls, c.balanced) (ho : UpdateCall.inOrder calls = true) :
    Placed (UpdateCall.run calls).String 0 ((calls.filterMap UpdateCall.carried).map Prod.fst)
    ∧ placeholders (UpdateCall.run calls).String
        = (((calls.filterMap UpdateCall.carried).map Prod.fst).map placeholders).sum := by
  have ht : placeholders (UpdateCall.run calls).table = 0 :=
    Update_foldl_table calls {} placeholders_empty hb
  have hw : (UpdateCall.run calls).where_
      = whereFrom "" ((calls.filterMap UpdateCall.whereSeg).map Prod.fst) :=
    Update_foldl_where calls {}
  obtain ⟨hsplit, hlen⟩ := Update_inOrder_split calls ho
  have k1 : placeholders "UPDATE " = 0 := by decide
  have k2 : placeholders " SET " = 0 := by decide
  have k3 : placeholders " WHERE " = 0 := by decide
  generalize hu : UpdateCall.run calls = u at *
  have hA : placeholders ("UPDATE " ++ u.table ++ " SET ") = 0 := by
    rw [placeholders_append, placeholders_append, k1, k2, ht]
  have hK : placeholders (if u.where_ ≠ "" then " WHERE " else "") = 0 :=
    placeholders_ite_empty _ _ k3
  rw [Update_String_cut u, hsplit, List.map_append]
  have p2 := Placed_wrap (if u.where_ ≠ "" then " WHERE " else "") "" _ _ _
    (Placed_where "" ((calls.filterMap UpdateCall.whereSeg).map Prod.fst))
  rw [← hw, hK, placeholders_empty] at p2
  have c2 : placeholders ((if u.where_ ≠ "" then " WHERE " else "") ++ u.where_ ++ "")
      = (((calls.filterMap UpdateCall.whereSeg).map Prod.fst).map placeholders).sum := by
    rw [placeholders_append, placeholders_append, hK, hw, placeholders_whereFrom,
      placeholders_empty]
    omega
  match hS : calls.filterMap UpdateCall.setSeg, hlen with
  | [], _ =>
    have hh : u.set_section = "" := by
      rw [← hu]
      exact Update_foldl_set_none calls {} hS
    have c1 : placeholders (("UPDATE " ++ u.table ++ " SET ") ++ u.set_section ++ "")
        = 0 + ((([] : List (string × List Value)).map Prod.fst).map placeholders).sum := by
      rw [placeholders_append, placeholders_append, hA, hh, placeholders_empty]
      simp
    constructor
    · exact Placed_append _ _ 0 _ _ (Placed_nil _ 0) p2 c1
    · rw [placeholders_append, c1, c2]
      simp
  | [(h, a)], _ =>
    have hh : u.set_section = h := by
      rw [← hu]
      exact Update_foldl_set_one calls {} h a hS
    have p1 := Placed_wrap ("UPDATE " ++ u.table ++ " SET ") "" _ _ _ (Placed_single h)
    rw [hA] at p1
    have c1 : placeholders (("UPDATE " ++ u.table ++ " SET ") ++ u.set_section ++ "")
        = 0 + (([(h, a)].map Prod.fst).map placeholders).sum := by
      rw [placeholders_append, placeholders_append, hA, hh, placeholders_empty]
      simp
    rw [hh] at c1 ⊢
    constructor
    · exact Placed_append _ _ 0 _ _ p1 p2 c1
    · rw [placeholders_append, c1, c2]
      simp
  | _ :: _ :: _, hl => simp at hl

/-! ### Placeholders and arguments -/

theorem Placed_args (T : string) (segs : List (string × List Value))
    (hbal : ∀ seg ∈ segs, placeholders seg.1 = seg.2.length)
    (hp : Placed T 0 (segs.map Prod.fst)) :
    ∀ (j : Nat) (c : string) (a : List Value), segs[j]? = some (c, a) →
      ∃ pre post, T = pre ++ c ++ post
        ∧ placeholders pre = (((segs.take j).map Prod.snd).flatten).length := by
  intro j c a hj
  have hj2 : (segs.map Prod.fst)[j]? = some c := by
    rw [List.getElem?_map, hj]
    rfl
  obtain ⟨pre, post, h1, h2⟩ := hp j c hj2
  refine ⟨pre, post, h1, ?_⟩
  rw [h2, ← List.map_take,
    sum_placeholders_eq_length (segs.take j) (fun seg hs => hbal seg (List.mem_of_mem_take hs))]
  simp

theorem Select_carried_balanced (calls : List SelectCall) (hb : ∀ c ∈ calls, c.balanced) :
    ∀ seg ∈ calls.filterMap SelectCall.carried, placeholders seg.1 = seg.2.length := by
  intro seg hseg
  rw [List.mem_filterMap] at hseg
  obtain ⟨c, hc, hcs⟩ := hseg
  have := hb c hc
  cases c <;> simp [SelectCall.carried] at hcs
  · rw [← hcs]
    exact this
  · rw [← hcs]
    exact this

theorem Update_carried_balanced (calls : List UpdateCall) (hb : ∀ c ∈ calls, c.balanced) :
    ∀ seg ∈ calls.filterMap UpdateCall.carried, placeholders seg.1 = seg.2.length := by
  intro seg hseg
  rw [List.mem_filterMap] at hseg
  obtain ⟨c, hc, hcs⟩ := hseg
  have := hb c hc
  cases c <;> simp [UpdateCall.carried] at hcs
  · rw [← hcs]
    exact this
  · rw [← hcs]
    exact this

/-- C3 (as stated, refuted): every call passes as many arguments as its text
has placeholders, and yet two `Having` calls leave one placeholder for two
arguments; `Having` before `Where` renders the placeholder of `Where` first
while `Args()` starts with the argument of `Having`; the same holds for two
`Set` calls and for `Where` before `Set` on an Update. -/
theorem C3_arguments_out_of_step_counterexample :
    (∀ c ∈ [SelectCall.Having "a > ?" [.int 1], SelectCall.Having "b > ?" [.int 2]],
        c.balanced)
    ∧ (SelectCall.run [.Having "a > ?" [.int 1], .Having "b > ?" [.int 2]]).String
        = "SELECT  HAVING b > ?"
    ∧ placeholders
        (SelectCall.run [.Having "a > ?" [.int 1], .Having "b > ?" [.int 2]]).String = 1
    ∧ (SelectCall.run [.Having "a > ?" [.int 1], .Having "b > ?" [.int 2]]).Args.length = 2
    ∧ (SelectCall.run [.Having "h > ?" [.int 1], .Where "w = ?" [.int 2]]).String
        = "SELECT  WHERE w = ? HAVING h > ?"
    ∧ (SelectCall.run [.Having "h > ?" [.int 1], .Where "w = ?" [.int 2]]).Args
        = [.int 1, .int 2]
    ∧ (UpdateCall.run [.Set "a = ?" [.int 1], .Set "b = ?" [.int 2]]).String
        = "UPDATE  SET b = ?"
    ∧ (UpdateCall.run [.Set "a = ?" [.int 1], .Set "b = ?" [.int 2]]).Args.length = 2
    ∧ (UpdateCall.run [.Where "w = ?" [.int 1], .Set "a = ?" [.int 2]]).String
        = "UPDATE  SET a = ? WHERE w = ?"
    ∧ (UpdateCall.run [.Where "w = ?" [.int 1], .Set "a = ?" [.int 2]]).Args
        = [.int 1, .int 2] := by
  refine ⟨by decide, by decide, by decide, by decide, by decide, rfl, by decide, by decide,
    by decide, rfl⟩

/-- C3 (amended): for every sequence of calls on a fresh Select in which
`Having` is called at most once and neither `Where` nor `Having` after it, and
for every sequence of calls on a fresh Update in which `Set` is called at most
once and before every `Where`, each call passing as many arguments as its text
has placeholders and the other texts having none: the rendered text has as many
placeholders as `Args()` has elements, `Args()` is the concatenation of the
calls' arguments in call order, and the text of the `j`-th call that takes
arguments stands in the rendering after exactly as many placeholders as the
calls before it supplied arguments. -/
theorem C3_placeholders_match_args :
    (∀ calls : List SelectCall,
      (∀ c ∈ calls, c.balanced) → SelectCall.inOrder calls = true →
        placeholders (SelectCall.run calls).String = (SelectCall.run calls).Args.length
        ∧ (SelectCall.run calls).Args
            = ((calls.filterMap SelectCall.carried).map Prod.snd).flatten
        ∧ ∀ (j : Nat) (c : string) (a : List Value),
            (calls.filterMap SelectCall.carried)[j]? = some (c, a) →
            ∃ pre post, (SelectCall.run calls).String = pre ++ c ++ post
              ∧ placeholders pre
                = ((((calls.filterMap SelectCall.carried).take j).map Prod.snd).flatten).length)
    ∧ (∀ calls : List UpdateCall,
      (∀ c ∈ calls, c.balanced) → UpdateCall.inOrder calls = true →
        placeholders (UpdateCall.run calls).String = (UpdateCall.run calls).Args.length
        ∧ (UpdateCall.run calls).Args
            = ((calls.filterMap UpdateCall.carried).map Prod.snd).flatten
        ∧ ∀ (j : Nat) (c : string) (a : List Value),
            (calls.filterMap UpdateCall.carried)[j]? = some (c, a) →
            ∃ pre post, (UpdateCall.run calls).String = pre ++ c ++ post
              ∧ placeholders pre
                = ((((calls.filterMap UpdateCall.carried).take j).map Prod.snd).flatten).length)
    := by
  constructor
  · intro calls hb ho
    obtain ⟨hp, hc⟩ := Select_run_placed calls hb ho
    have hbal := Select_carried_balanced calls hb
    have ha : (SelectCall.run calls).Args
        = ((calls.filterMap SelectCall.carried).map Prod.snd).flatten := by
      simp [Select.Args, Query.Args, SelectCall.run, Select_foldl_args]
    refine ⟨?_, ha, Placed_args _ _ hbal hp⟩
    rw [hc, ha, sum_placeholders_eq_length _ hbal]
  · intro calls hb ho
    obtain ⟨hp, hc⟩ := Update_run_placed calls hb ho
    have hbal := Update_carried_balanced calls hb
    have ha : (UpdateCall.run calls).Args
        = ((calls.filterMap UpdateCall.carried).map Prod.snd).flatten := by
      simp [Update.Args, Query.Args, UpdateCall.run, Update_foldl_args]
    refine ⟨?_, ha, Placed_args _ _ hbal hp⟩
    rw [hc, ha, sum_placeholders_eq_length _ hbal]

/-- C3 (amended), on a Select with two `Where` calls and one `Having` call
between other setters, and on an Update with `Set` before `Where`. -/
theorem C3_placeholders_match_args_witness :
    placeholders (SelectCall.run [.Select ["a", "b"], .Where "a = ?" [.int 1], .From "t",
        .Where "b IN (?, ?)" [.int 2, .int 3], .Limit 5, .Having "c > ?" [.int 4]]).String
      = (SelectCall.run [.Select ["a", "b"], .Where "a = ?" [.int 1], .From "t",
        .Where "b IN (?, ?)" [.int 2, .int 3], .Limit 5, .Having "c > ?" [.int 4]]).Args.length
    ∧ (SelectCall.run [.Select ["a", "b"], .Where "a = ?" [.int 1], .From "t",
        .Where "b IN (?, ?)" [.int 2, .int 3], .Limit 5, .Having "c > ?" [.int 4]]).String
      = "SELECT a, b FROM t WHERE a = ? AND b IN (?, ?) HAVING c > ? LIMIT 5"
    ∧ placeholders
        (UpdateCall.run [.Table "t", .Set "a = ?" [.int 1], .Where "b = ?" [.int 2]]).String
      = (UpdateCall.run [.Table "t", .Set "a = ?" [.int 1], .Where "b = ?" [.int 2]]).Args.length
    :=
  ⟨(C3_placeholders_match_args.1 _ (by decide) (by decide)).1, by decide,
    (C3_placeholders_match_args.2 _ (by decide) (by decide)).1⟩

/-! ### The rendering of a Select -/

/-- C12 (as stated, refuted): a Select whose nine sections are all empty renders
the keyword `SELECT ` all the same. -/
theorem C12_empty_select_list_counterexample :
    ({} : Select).select_section = ""
    ∧ ({} : Select).String = "SELECT "
    ∧ ({} : Select).rendered_as_specified = ""
    ∧ ({} : Select).String ≠ ({} : Select).rendered_as_specified := by
  refine ⟨rfl, by decide, by decide, by decide⟩

/-- C12 (amended): for every Select state, `String()` is `SELECT ` and the
select-list, followed in the fixed order FROM, JOIN fragments, WHERE, GROUP BY,
HAVING, ORDER BY, LIMIT, OFFSET by exactly those sections that are non-empty,
each preceded by its keyword; every empty section other than the select-list
contributes nothing, and with a non-empty select-list the rendering is the one
of the specification. -/
theorem C12_select_sections_in_order (s : Select) :
    s.String = "SELECT " ++ s.select_section ++ clause " FROM " s.from_section
        ++ s.join_section ++ clause " WHERE " s.where_section
        ++ clause " GROUP BY " s.group_section ++ clause " HAVING " s.having_section
        ++ clause " ORDER BY " s.order_section ++ clause " LIMIT " s.limit_section
        ++ clause " OFFSET " s.offset_section
    ∧ (s.select_section ≠ "" → s.String = s.rendered_as_specified) := by
  have h : s.String = "SELECT " ++ s.select_section ++ clause " FROM " s.from_section
        ++ s.join_section ++ clause " WHERE " s.where_section
        ++ clause " GROUP BY " s.group_section ++ clause " HAVING " s.having_section
        ++ clause " ORDER BY " s.order_section ++ clause " LIMIT " s.limit_section
        ++ clause " OFFSET " s.offset_section := by
    unfold Select.String clause
    by_cases h1 : s.from_section = "" <;> by_cases h2 : s.where_section = "" <;>
      by_cases h3 : s.group_section = "" <;> by_cases h4 : s.having_section = "" <;>
      by_cases h5 : s.order_section = "" <;> by_cases h6 : s.limit_section = "" <;>
      by_cases h7 : s.offset_section = "" <;>
      simp [h1, h2, h3, h4, h5, h6, h7, String.append_assoc]
  refine ⟨h, ?_⟩
  intro hs
  rw [h]
  unfold Select.rendered_as_specified
  have hc : clause "SELECT " s.select_section = "SELECT " ++ s.select_section := by
    unfold clause
    rw [if_pos hs]
  rw [hc]

/-- C12 (amended), on a Select with a select-list, a table and a limit. -/
theorem C12_select_sections_in_order_witness :
    (((({} : Select).Select ["a", "b"]).From "t").Limit 5).String
      = "SELECT a, b FROM t LIMIT 5"
    ∧ (((({} : Select).Select ["a", "b"]).From "t").Limit 5).String
      = (((({} : Select).Select ["a", "b"]).From "t").Limit 5).rendered_as_specified :=
  ⟨by decide, (C12_select_sections_in_order _).2 (by decide)⟩

/-! ### Select.Select -/

theorem strings_Join_append (xs ys : List string) (sep : string) (hx : xs ≠ [])
    (hy : ys ≠ []) :
    strings.Join (xs ++ ys) sep = strings.Join xs sep ++ sep ++ strings.Join ys sep := by
  induction xs with
  | nil => exact absurd rfl hx
  | cons x xs ih =>
    cases xs with
    | nil =>
      cases ys with
      | nil => exact absurd rfl hy
      | cons y ys => simp [strings.Join]
    | cons x2 xs =>
      have := ih (by simp)
      simp only [List.cons_append] at this ⊢
      simp only [strings.Join, this, String.append_assoc]

theorem strings_Join_ne_empty (xs : List string) (sep : string) (hx : xs ≠ [])
    (h : ∀ x ∈ xs, x ≠ "") : strings.Join xs sep ≠ "" := by
  cases xs with
  | nil => exact absurd rfl hx
  | cons x xs =>
    cases xs with
    | nil => simpa [strings.Join] using h x (by simp)
    | cons y ys =>
      simp only [strings.Join, String.append_assoc]
      exact string_append_ne_empty_left _ _ (h x (by simp))

theorem Select_Select_twice (xs ys : List string)
    (h : xs = [] ∨ (ys ≠ [] ∧ strings.Join xs ", " ≠ "")) :
    (({} : Select).Select xs).Select ys = ({} : Select).Select (xs ++ ys) := by
  rcases h with h | ⟨hy, hx⟩
  · subst h
    simp [Select.Select, strings.Join]
  · have hxs : xs ≠ [] := by
      intro hc
      rw [hc] at hx
      exact hx rfl
    simp only [Select.Select, ne_eq, not_true_eq_false, if_false, String.empty_append]
    rw [if_pos hx, strings_Join_append xs ys ", " hxs hy]

theorem Select_SelectAll_from (calls : List (List string)) (acc : List string) (s : Select)
    (hs : s.select_section = strings.Join acc ", ")
    (hacc : ∀ x ∈ acc, x ≠ "")
    (h : ∀ c ∈ calls, c ≠ [] ∧ ∀ x ∈ c, x ≠ "") :
    (s.SelectAll calls).select_section = strings.Join (acc ++ calls.flatten) ", " := by
  induction calls generalizing acc s with
  | nil => simpa [Select.SelectAll] using hs
  | cons c cs ih =>
    obtain ⟨hc1, hc2⟩ := h c (by simp)
    have hstep : (s.Select c).select_section = strings.Join (acc ++ c) ", " := by
      by_cases ha : acc = []
      · subst ha
        simp only [Select.Select, hs, strings.Join, ne_eq, not_true_eq_false, if_false,
          String.empty_append, List.nil_append]
      · have hne := strings_Join_ne_empty acc ", " ha hacc
        simp only [Select.Select, hs]
        rw [if_pos hne, strings_Join_append acc c ", " ha hc1]
    have hnext : ∀ x ∈ acc ++ c, x ≠ "" := by
      intro x hx
      rcases List.mem_append.mp hx with hx | hx
      · exact hacc x hx
      · exact hc2 x hx
    have := ih (acc ++ c) (s.Select c) hstep hnext (fun c1 h1 => h c1 (by simp [h1]))
    simpa [Select.SelectAll, List.append_assoc] using this

/-- C13 (as stated, refuted): `Select("a")` followed by `Select()` without
columns leaves the select-list `a, `, the single call `Select("a")` leaves `a`. -/
theorem C13_select_without_columns_counterexample :
    ((({} : Select).Select ["a"]).Select []).select_section = "a, "
    ∧ (({} : Select).Select (["a"] ++ [])).select_section = "a"
    ∧ ((({} : Select).Select ["a"]).Select []).String
        ≠ (({} : Select).Select (["a"] ++ [])).String := by
  refine ⟨by decide, by decide, by decide⟩

/-- C13 (amended): for column lists `xs` and `ys` such that `xs` is empty, or
`ys` is not empty and the columns of `xs` joined by `", "` are not the empty
text, `Select(xs...)` and then `Select(ys...)` on a fresh Select leaves the same
statement, and hence the same rendered text, as `Select((xs ++ ys)...)`; after
any sequence of `Select` calls that each pass at least one column, all column
names non-empty, the select-list is all the columns of all the calls, in call
order, joined by `", "`. -/
theorem C13_select_is_cumulative :
    (∀ xs ys : List string, (xs = [] ∨ (ys ≠ [] ∧ strings.Join xs ", " ≠ "")) →
      (({} : Select).Select xs).Select ys = ({} : Select).Select (xs ++ ys)
      ∧ ((({} : Select).Select xs).Select ys).String
          = (({} : Select).Select (xs ++ ys)).String)
    ∧ (∀ calls : List (List string), (∀ c ∈ calls, c ≠ [] ∧ ∀ x ∈ c, x ≠ "") →
      (({} : Select).SelectAll calls).select_section = strings.Join calls.flatten ", ") := by
  constructor
  · intro xs ys h
    have := Select_Select_twice xs ys h
    exact ⟨this, by rw [this]⟩
  · intro calls h
    have := Select_SelectAll_from calls [] {} rfl (by simp) h
    simpa using this

/-- C13 (amended), on two calls with two columns and one column. -/
theorem C13_select_is_cumulative_witness :
    ((({} : Select).Select ["a", "b"]).Select ["c"]).String = "SELECT a, b, c"
    ∧ ((({} : Select).Select ["a", "b"]).Select ["c"])
        = ({} : Select).Select (["a", "b"] ++ ["c"])
    ∧ (({} : Select).SelectAll [["a", "b"], ["c"]]).select_section
        = strings.Join [["a", "b"], ["c"]].flatten ", " :=
  ⟨by decide, (C13_select_is_cumulative.1 ["a", "b"] ["c"] (Or.inr (by decide))).1,
    C13_select_is_cumulative.2 [["a", "b"], ["c"]] (by decide)⟩

/-! ### The replacing setters -/

/-- C14: for every Select state and each of `From`, `GroupBy`, `OrderBy`,
`Limit` and `Offset`, the setter applied with one value and then with another
gives the same statement as the setter applied once with the second value, and
the setter changes no section but its own and leaves `Args()` alone; `Having`
applied twice leaves the second condition as having section, appends the
arguments of both calls to `Args()` in call order and changes no other
section. -/
theorem C14_last_call_wins (s : Select) :
    (∀ v1 v2 : string, (s.From v1).From v2 = s.From v2)
    ∧ (∀ v1 v2 : List string, (s.GroupBy v1).GroupBy v2 = s.GroupBy v2)
    ∧ (∀ v1 v2 : string, (s.OrderBy v1).OrderBy v2 = s.OrderBy v2)
    ∧ (∀ v1 v2 : Int, (s.Limit v1).Limit v2 = s.Limit v2)
    ∧ (∀ v1 v2 : Int, (s.Offset v1).Offset v2 = s.Offset v2)
    ∧ (∀ v : string, s.From v = { s with from_section := v })
    ∧ (∀ v : List string, s.GroupBy v = { s with group_section := strings.Join v ", " })
    ∧ (∀ v : string, s.OrderBy v = { s with order_section := v })
    ∧ (∀ v : Int, s.Limit v = { s with limit_section := toString v })
    ∧ (∀ v : Int, s.Offset v = { s with offset_section := toString v })
    ∧ (∀ (c1 c2 : string) (a1 a2 : List Value),
        (s.Having c1 a1).Having c2 a2
          = { s with having_section := c2, args := s.Args ++ a1 ++ a2 }) := by
  refine ⟨?_, ?_, ?_, ?_, ?_, ?_, ?_, ?_, ?_, ?_, ?_⟩
  · intro v1 v2
    rfl
  · intro v1 v2
    rfl
  · intro v1 v2
    rfl
  · intro v1 v2
    rfl
  · intro v1 v2
    rfl
  · intro v
    rfl
  · intro v
    rfl
  · intro v
    rfl
  · intro v
    rfl
  · intro v
    rfl
  · intro c1 c2 a1 a2
    simp [Select.Having, Select.Args, Query.Args]

/-! ### The placeholders of an Insert -/

theorem placeholders_Join_sum (elems : List string) (sep : string)
    (hsep : placeholders sep = 0) :
    placeholders (strings.Join elems sep) = (elems.map placeholders).sum := by
  induction elems with
  | nil => simp [strings.Join, placeholders_empty]
  | cons x xs ih =>
    cases xs with
    | nil => simp [strings.Join]
    | cons y ys =>
      simp only [strings.Join, placeholders_append, hsep, ih, List.map_cons, List.sum_cons]
      omega

theorem placeholders_group (n : Nat) :
    placeholders ("(" ++ strings.Join (List.replicate n "?") ", " ++ ")") = n := by
  have h1 : placeholders "(" = 0 := by decide
  have h2 : placeholders ")" = 0 := by decide
  have h3 : placeholders ", " = 0 := by decide
  have h4 : placeholders "?" = 1 := by decide
  rw [placeholders_append, placeholders_append, h1, h2, placeholders_Join_sum _ _ h3]
  simp [h4]

theorem placeholders_Insert_String (i : Insert) (ht : placeholders i.table = 0)
    (hc : ∀ c ∈ i.columns, placeholders c = 0) :
    placeholders i.String = i.columns.length * i.values.length := by
  have h1 : placeholders "INSERT INTO " = 0 := by decide
  have h2 : placeholders " (" = 0 := by decide
  have h3 : placeholders ") VALUES " = 0 := by decide
  have h4 : placeholders ", " = 0 := by decide
  unfold Insert.String
  simp only [placeholders_append, h1, h2, h3, ht, placeholders_Join i.columns ", " hc h4,
    placeholders_Join_sum _ _ h4, List.map_map]
  have : (List.map (placeholders ∘ fun _ =>
      "(" ++ strings.Join (List.replicate i.columns.length "?") ", " ++ ")") i.values)
      = List.replicate i.values.length i.columns.length := by
    rw [List.eq_replicate_iff]
    constructor
    · simp
    · intro b hb
      rw [List.mem_map] at hb
      obtain ⟨_, _, hb⟩ := hb
      rw [← hb]
      exact placeholders_group _
  rw [this]
  simp [Nat.mul_comm]

/-- C15: on an Insert built by `Into(t, cols...)` and any `Values` calls, `t`
and `cols` holding no placeholder, the rendered text holds `len(cols)`
placeholders per `Values` call, whatever the lengths of the rows; this equals
`len(Args())` when every row has `len(cols)` values, and
`Into("t", "a", "b").Values(1)` renders two placeholders for one argument. -/
theorem C15_insert_arity_not_validated (t : string) (cols : List string)
    (rows : List (List Value)) (ht : placeholders t = 0)
    (hc : ∀ c ∈ cols, placeholders c = 0) :
    placeholders ((({} : Insert).Into t cols).ValuesAll rows).String
        = cols.length * rows.length
    ∧ ((∀ r ∈ rows, r.length = cols.length) →
        placeholders ((({} : Insert).Into t cols).ValuesAll rows).String
          = ((({} : Insert).Into t cols).ValuesAll rows).Args.length)
    ∧ placeholders ((({} : Insert).Into "t" ["a", "b"]).ValuesAll [[Value.int 1]]).String = 2
    ∧ ((({} : Insert).Into "t" ["a", "b"]).ValuesAll [[Value.int 1]]).Args.length = 1 := by
  obtain ⟨hv, ha, hcol, htab⟩ := Insert_ValuesAll_values rows (({} : Insert).Into t cols)
  have hcount : placeholders ((({} : Insert).Into t cols).ValuesAll rows).String
      = cols.length * rows.length := by
    rw [placeholders_Insert_String _ (by rw [htab]; exact ht) (by rw [hcol]; exact hc), hv,
      hcol]
    simp [Insert.Into]
  refine ⟨hcount, ?_, by decide, by decide⟩
  intro hlen
  rw [hcount, Insert.Args, Query.Args, ha]
  simp only [Insert.Into, List.nil_append, List.length_flatten]
  have : List.map List.length rows = List.replicate rows.length cols.length := by
    rw [List.eq_replicate_iff]
    constructor
    · simp
    · intro b hb
      rw [List.mem_map] at hb
      obtain ⟨r, hr, hb⟩ := hb
      rw [← hb]
      exact hlen r hr
  rw [this]
  simp [Nat.mul_comm]

/-- C15, on two columns and the rows `(1)` and `(2, 3, 4)`. -/
theorem C15_insert_arity_not_validated_witness :
    placeholders ((({} : Insert).Into "t" ["a", "b"]).ValuesAll
        [[Value.int 1], [Value.int 2, Value.int 3, Value.int 4]]).String = 2 * 2
    ∧ ((({} : Insert).Into "t" ["a", "b"]).ValuesAll
        [[Value.int 1], [Value.int 2, Value.int 3, Value.int 4]]).String
      = "INSERT INTO t (a, b) VALUES (?, ?), (?, ?)" :=
  ⟨(C15_insert_arity_not_validated "t" ["a", "b"]
      [[Value.int 1], [Value.int 2, Value.int 3, Value.int 4]] (by decide) (by decide)).1,
    by decide⟩

/-! ### Update and Delete -/

theorem whereFrom_eq_Join (cs : List string) (w : string) (hw : w ≠ "") :
    whereFrom w cs = strings.Join (w :: cs) " AND " := by
  induction cs generalizing w with
  | nil => simp [whereFrom, strings.Join]
  | cons c cs ih =>
    simp only [whereFrom]
    rw [if_pos hw, ih _ (by rw [String.append_assoc]; exact string_append_ne_empty_left _ _ hw),
      strings_Join_merge]

theorem whereFrom_cons_ne_empty (c : string) (cs : List string) (hc : c ≠ "") :
    whereFrom "" (c :: cs) = strings.Join (c :: cs) " AND "
    ∧ whereFrom "" (c :: cs) ≠ "" := by
  have h : whereFrom "" (c :: cs) = strings.Join (c :: cs) " AND " := by
    simp only [whereFrom, ne_eq, not_true_eq_false, if_false, String.empty_append]
    exact whereFrom_eq_Join cs c hc
  refine ⟨h, ?_⟩
  rw [h]
  cases cs with
  | nil => simpa [strings.Join] using hc
  | cons c2 cs =>
    simp only [strings.Join, String.append_assoc]
    exact string_append_ne_empty_left _ _ hc

theorem Select_WhereAll_eq (calls : List (string × List Value)) (s : Select) :
    s.WhereAll calls =
      { s with
        where_section := whereFrom s.where_section (calls.map Prod.fst)
        args := s.args ++ (calls.map Prod.snd).flatten } := by
  induction calls generalizing s with
  | nil => simp [Select.WhereAll, whereFrom]
  | cons c cs ih =>
    have := ih (s.Where c.1 c.2)
    simp only [Select.WhereAll, List.foldl_cons] at this ⊢
    rw [this]
    simp [Select.Where, whereFrom]

theorem Update_WhereAll_eq (calls : List (string × List Value)) (u : Update) :
    u.WhereAll calls =
      { u with
        where_ := whereFrom u.where_ (calls.map Prod.fst)
        args := u.args ++ (calls.map Prod.snd).flatten } := by
  induction calls generalizing u with
  | nil => simp [Update.WhereAll, whereFrom]
  | cons c cs ih =>
    have := ih (u.Where c.1 c.2)
    simp only [Update.WhereAll, List.foldl_cons] at this ⊢
    rw [this]
    simp [Update.Where, whereFrom]

theorem Delete_WhereAll_eq (calls : List (string × List Value)) (d : Delete) :
    d.WhereAll calls =
      { d with
        where_ := whereFrom d.where_ (calls.map Prod.fst)
        args := d.args ++ (calls.map Prod.snd).flatten } := by
  induction calls generalizing d with
  | nil => simp [Delete.WhereAll, whereFrom]
  | cons c cs ih =>
    have := ih (d.Where c.1 c.2)
    simp only [Delete.WhereAll, List.foldl_cons] at this ⊢
    rw [this]
    simp [Delete.Where, whereFrom]

/-- C16 (as stated, refuted): after `Table("t")`, `Set("a = 1")` and one `Where`
call with the empty condition the Update renders without a WHERE clause. -/
theorem C16_update_empty_condition_counterexample :
    (((({} : Update).Table "t").Set "a = 1" []).WhereAll [("", [])]).String
      = "UPDATE t SET a = 1"
    ∧ (((({} : Update).Table "t").Set "a = 1" []).WhereAll [("", [])]).String
      ≠ "UPDATE " ++ "t" ++ " SET " ++ "a = 1" ++ " WHERE "
          ++ strings.Join ([("", ([] : List Value))].map Prod.fst) " AND " := by
  refine ⟨by decide, ?_⟩
  have h1 : (((({} : Update).Table "t").Set "a = 1" []).WhereAll [("", [])]).String
      = "UPDATE t SET a = 1" := by decide
  have h2 : "UPDATE " ++ "t" ++ " SET " ++ "a = 1" ++ " WHERE "
      ++ strings.Join ([("", ([] : List Value))].map Prod.fst) " AND "
      = "UPDATE t SET a = 1 WHERE " := rfl
  rw [h1, h2]
  decide

/-- C16 (amended): a fresh Update configured by `Table(t)` and `Set(a, sa...)`
renders `UPDATE t SET a` with `Args() = sa`; followed by the Where calls
`(c1, w1), ..., (cn, wn)`, `n ≥ 1` and `c1` non-empty, it renders
`UPDATE t SET a WHERE c1 AND ... AND cn` with `Args() = sa ++ w1 ++ ... ++ wn`;
and on every Update `Set(a2, sa2...)` replaces the SET text by `a2`, appends
`sa2` to `Args()` and leaves the table and the where text alone. -/
theorem C16_update_rendering (t a : string) (sa : List Value) :
    ((({} : Update).Table t).Set a sa).String = "UPDATE " ++ t ++ " SET " ++ a
    ∧ ((({} : Update).Table t).Set a sa).Args = sa
    ∧ (∀ (c1 : string) (w1 : List Value) (rest : List (string × List Value)), c1 ≠ "" →
        (((({} : Update).Table t).Set a sa).WhereAll ((c1, w1) :: rest)).String
          = "UPDATE " ++ t ++ " SET " ++ a ++ " WHERE "
            ++ strings.Join (((c1, w1) :: rest).map Prod.fst) " AND "
        ∧ (((({} : Update).Table t).Set a sa).WhereAll ((c1, w1) :: rest)).Args
          = sa ++ (((c1, w1) :: rest).map Prod.snd).flatten)
    ∧ (∀ (u : Update) (a2 : string) (sa2 : List Value),
        u.Set a2 sa2 = { u with set_section := a2, args := u.Args ++ sa2 }) := by
  refine ⟨?_, ?_, ?_, ?_⟩
  · simp [Update.String, Update.Set, Update.Table]
  · simp [Update.Args, Query.Args, Update.Set, Update.Table]
  · intro c1 w1 rest hc
    obtain ⟨hj, hne⟩ := whereFrom_cons_ne_empty c1 (rest.map Prod.fst) hc
    rw [Update_WhereAll_eq]
    have hw : ((({} : Update).Table t).Set a sa).where_ = "" := rfl
    simp only [hw, List.map_cons] at hj hne ⊢
    constructor
    · simp only [Update.String]
      rw [if_pos hne, hj]
      simp [Update.Set, Update.Table, String.append_assoc]
    · simp [Update.Args, Query.Args, Update.Set, Update.Table]
  · intro u a2 sa2
    rfl

/-- C16 (amended), on one `Set` and two `Where` calls. -/
theorem C16_update_rendering_witness :
    (((({} : Update).Table "t").Set "a = ?" [Value.int 1]).WhereAll
        [("b = ?", [Value.int 2]), ("c = ?", [Value.int 3])]).String
      = "UPDATE t SET a = ? WHERE b = ? AND c = ?"
    ∧ (((({} : Update).Table "t").Set "a = ?" [Value.int 1]).WhereAll
        [("b = ?", [Value.int 2]), ("c = ?", [Value.int 3])]).Args
      = [Value.int 1, Value.int 2, Value.int 3] :=
  (C16_update_rendering "t" "a = ?" [Value.int 1]).2.2.1 "b = ?" [Value.int 2]
    [("c = ?", [Value.int 3])] (by decide)

/-- C17 (as stated, refuted): after `From("t")` and one `Where` call with the
empty condition the Delete renders without a WHERE clause. -/
theorem C17_delete_empty_condition_counterexample :
    ((({} : Delete).From "t").WhereAll [("", [])]).String = "DELETE FROM t"
    ∧ ((({} : Delete).From "t").WhereAll [("", [])]).String
      ≠ "DELETE FROM " ++ "t" ++ " WHERE "
          ++ strings.Join ([("", ([] : List Value))].map Prod.fst) " AND " := by
  refine ⟨by decide, ?_⟩
  have h1 : ((({} : Delete).From "t").WhereAll [("", [])]).String = "DELETE FROM t" := by
    decide
  have h2 : "DELETE FROM " ++ "t" ++ " WHERE "
      ++ strings.Join ([("", ([] : List Value))].map Prod.fst) " AND "
      = "DELETE FROM t WHERE " := rfl
  rw [h1, h2]
  decide

/-- C17 (amended): a fresh Delete configured by `From(t)` renders
`DELETE FROM t` with no arguments; followed by the Where calls
`(c1, w1), ..., (cn, wn)`, `n ≥ 1` and `c1` non-empty, it renders
`DELETE FROM t WHERE c1 AND ... AND cn` with `Args() = w1 ++ ... ++ wn`; and for
every list of Where calls the where text and the `Args()` of the Delete are
those of a fresh Select and of a fresh Update after the same calls. -/
theorem C17_delete_rendering (t : string) :
    (({} : Delete).From t).String = "DELETE FROM " ++ t
    ∧ (({} : Delete).From t).Args = []
    ∧ (∀ (c1 : string) (w1 : List Value) (rest : List (string × List Value)), c1 ≠ "" →
        ((({} : Delete).From t).WhereAll ((c1, w1) :: rest)).String
          = "DELETE FROM " ++ t ++ " WHERE "
            ++ strings.Join (((c1, w1) :: rest).map Prod.fst) " AND "
        ∧ ((({} : Delete).From t).WhereAll ((c1, w1) :: rest)).Args
          = (((c1, w1) :: rest).map Prod.snd).flatten)
    ∧ (∀ calls : List (string × List Value),
        ((({} : Delete).From t).WhereAll calls).where_
          = (({} : Select).WhereAll calls).where_section
        ∧ ((({} : Delete).From t).WhereAll calls).where_
          = (({} : Update).WhereAll calls).where_
        ∧ ((({} : Delete).From t).WhereAll calls).Args = (({} : Select).WhereAll calls).Args
        ∧ ((({} : Delete).From t).WhereAll calls).Args
          = (({} : Update).WhereAll calls).Args) := by
  refine ⟨?_, ?_, ?_, ?_⟩
  · simp [Delete.String, Delete.From]
  · rfl
  · intro c1 w1 rest hc
    obtain ⟨hj, hne⟩ := whereFrom_cons_ne_empty c1 (rest.map Prod.fst) hc
    rw [Delete_WhereAll_eq]
    have hw : (({} : Delete).From t).where_ = "" := rfl
    simp only [hw, List.map_cons] at hj hne ⊢
    constructor
    · simp only [Delete.String]
      rw [if_pos hne, hj]
      simp [Delete.From, String.append_assoc]
    · simp [Delete.Args, Query.Args, Delete.From]
  · intro calls
    rw [Delete_WhereAll_eq, Select_WhereAll_eq, Update_WhereAll_eq]
    simp [Delete.Args, Select.Args, Update.Args, Query.Args, Delete.From]

/-- C17 (amended), on two `Where` calls. -/
theorem C17_delete_rendering_witness :
    ((({} : Delete).From "t").WhereAll
        [("b = ?", [Value.int 2]), ("c = ?", [Value.int 3])]).String
      = "DELETE FROM t WHERE b = ? AND c = ?"
    ∧ ((({} : Delete).From "t").WhereAll
        [("b = ?", [Value.int 2]), ("c = ?", [Value.int 3])]).Args
      = [Value.int 2, Value.int 3] :=
  (C17_delete_rendering "t").2.2.1 "b = ?" [Value.int 2] [("c = ?", [Value.int 3])]
    (by decide)

/-! ### The relation metadata -/

theorem find_by_json_tag_loop_error (json_tag : string) (fields : List StructField) :
    (find_by_json_tag_loop json_tag fields = .error .FieldNotFound
      ↔ ∀ f ∈ fields, f.column ≠ json_tag)
    ∧ (∀ e, find_by_json_tag_loop json_tag fields = .error e → e = .FieldNotFound) := by
  induction fields with
  | nil => simp [find_by_json_tag_loop]
  | cons f fs ih =>
    by_cases h : f.Tag.Get "json" = json_tag
    · simp [find_by_json_tag_loop, h, StructField.column]
    · simp only [find_by_json_tag_loop, if_neg h, List.mem_cons, forall_eq_or_imp]
      refine ⟨?_, ih.2⟩
      rw [ih.1]
      simp [StructField.column, h]

theorem find_by_json_tag_loop_ok (json_tag : string) (fields : List StructField)
    (f : StructField) :
    find_by_json_tag_loop json_tag fields = .ok f
      ↔ ∃ pre post, fields = pre ++ f :: post ∧ f.column = json_tag
          ∧ ∀ g ∈ pre, g.column ≠ json_tag := by
  induction fields with
  | nil => simp [find_by_json_tag_loop]
  | cons f0 fs ih =>
    by_cases h : f0.Tag.Get "json" = json_tag
    · simp only [find_by_json_tag_loop, if_pos h, Except.ok.injEq]
      constructor
      · intro hf
        subst hf
        exact ⟨[], fs, rfl, h, by simp⟩
      · rintro ⟨pre, post, h1, h2, h3⟩
        cases pre with
        | nil =>
          simp only [List.nil_append, List.cons.injEq] at h1
          exact h1.1
        | cons p ps =>
          simp only [List.cons_append, List.cons.injEq] at h1
          exact absurd (h1.1 ▸ h) (h3 p (by simp))
    · simp only [find_by_json_tag_loop, if_neg h]
      rw [ih]
      constructor
      · rintro ⟨pre, post, h1, h2, h3⟩
        refine ⟨f0 :: pre, post, by simp [h1], h2, ?_⟩
        intro g hg
        rcases List.mem_cons.mp hg with hg | hg
        · rw [hg]
          exact h
        · exact h3 g hg
      · rintro ⟨pre, post, h1, h2, h3⟩
        cases pre with
        | nil =>
          simp only [List.nil_append, List.cons.injEq] at h1
          exact absurd (h1.1 ▸ h2) h
        | cons p ps =>
          simp only [List.cons_append, List.cons.injEq] at h1
          exact ⟨ps, post, h1.2, h2, fun g hg => h3 g (by simp [hg])⟩

/-- C18: for a declared struct type `T`, `find_by_json_tag(T, name)` panics with
the field-not-found error exactly when no field of `T` has the column name
`name`, it panics with no other error, and it returns a field `f` exactly when
`f` is the first field of `T` in declaration order whose column name is
`name`. -/
theorem C18_find_by_json_tag (decls : Decls) (T : StructType) (typeName name : string)
    (hT : decls.find? (fun t => t.Name == typeName) = some T) :
    (find_by_json_tag decls (.named typeName) name = .error .FieldNotFound
      ↔ ∀ f ∈ T.Fields, f.column ≠ name)
    ∧ (∀ e, find_by_json_tag decls (.named typeName) name = .error e → e = .FieldNotFound)
    ∧ (∀ f, find_by_json_tag decls (.named typeName) name = .ok f
        ↔ ∃ pre post, T.Fields = pre ++ f :: post ∧ f.column = name
            ∧ ∀ g ∈ pre, g.column ≠ name) := by
  have h : find_by_json_tag decls (.named typeName) name
      = find_by_json_tag_loop name T.Fields := by
    simp [find_by_json_tag, GoType.Fields, hT]
  rw [h]
  exact ⟨(find_by_json_tag_loop_error name T.Fields).1,
    (find_by_json_tag_loop_error name T.Fields).2,
    fun f => find_by_json_tag_loop_ok name T.Fields f⟩

/-- C18, on `User`: the column `workers` is found, the column `salary` is
not. -/
theorem C18_find_by_json_tag_witness :
    find_by_json_tag [User] (.named "User") "salary" = .error .FieldNotFound
    ∧ find_by_json_tag [User] (.named "User") "workers"
        = .ok ⟨"Workers", .slice (.named "User"),
            [("json", "workers"), ("many-to-many", "worker-worksFor")]⟩ :=
  ⟨(C18_find_by_json_tag [User] User "User" "salary" rfl).1.mpr (by decide),
    ((C18_find_by_json_tag [User] User "User" "workers" rfl).2.2 _).mpr
      ⟨User.Fields.take 5, [], rfl, rfl, by decide⟩⟩

theorem splitChars_no_sep (sep : Char) (cs : List Char) (h : sep ∉ cs) :
    strings.splitChars sep cs = [cs] := by
  induction cs with
  | nil => rfl
  | cons c cs ih =>
    have hc : ¬ c = sep := fun e => h (by simp [e])
    have hcs : sep ∉ cs := fun e => h (by simp [e])
    simp [strings.splitChars, hc, ih hcs]

theorem splitChars_ne_nil (sep : Char) (cs : List Char) : strings.splitChars sep cs ≠ [] := by
  induction cs with
  | nil => simp [strings.splitChars]
  | cons c cs ih =>
    simp only [strings.splitChars]
    split
    · simp
    · split
      · simp
      · simp

theorem splitChars_append (sep : Char) (as bs : List Char) (h : sep ∉ as) :
    strings.splitChars sep (as ++ sep :: bs) = as :: strings.splitChars sep bs := by
  induction as with
  | nil => simp [strings.splitChars]
  | cons c cs ih =>
    have hc : ¬ c = sep := fun e => h (by simp [e])
    have hcs : sep ∉ cs := fun e => h (by simp [e])
    simp [strings.splitChars, hc, ih hcs]

/-- The components of `A-B`: `A`, then the components of `B`. -/
theorem strings_Split_dash (A B : string) (hA : '-' ∉ A.data) :
    strings.Split (A ++ "-" ++ B) '-' = A :: strings.Split B '-' := by
  have hd : (A ++ "-" ++ B).data = A.data ++ '-' :: B.data := by
    simp [String.data_append]
  simp [strings.Split, hd, splitChars_append _ _ _ hA]

theorem strings_Split_head (B : string) (hB : '-' ∉ B.data) :
    strings.Split B '-' = [B] := by
  simp [strings.Split, splitChars_no_sep _ _ hB]

/-- A field that is no one-to-many field leaves the submissions as they are. -/
theorem recursive_create_fields_no_submission (decls : Decls) (field : StructField)
    (v : Value) (id : Int) (w : World) (h1 : field.Tag.Get "one-to-many" = "") :
    (recursive_create_fields decls [(field, v)] id w).2 = w := by
  unfold recursive_create_fields
  rw [if_neg (by simp [h1])]
  split
  · split
    · rfl
    · simp [recursive_create_fields]
  · simp [recursive_create_fields]

/-- C19: for a many-to-many field of a slice type with the relationship tag
`A-B` (no `-` inside `A` or `B`), when the first field of the element type with
the column name `B` carries the relationship tag `C-D` (no `-` inside `C`) the
derived join-table name is `A_C`; when no field of the element type has the
column name `B` the derivation panics with the field-not-found error; and a
field that is no one-to-many field leaves the submissions and the counter as
they are, whether the derivation succeeds or panics. -/
theorem C19_join_table_name (decls : Decls) (field : StructField) (elem : GoType)
    (fields : List StructField) (A B : string)
    (hty : field.Type_ = .slice elem) (hel : elem.Fields decls = .ok fields)
    (htag : field.Tag.Get "many-to-many" = A ++ "-" ++ B)
    (hA : '-' ∉ A.data) (hB : '-' ∉ B.data) :
    (∀ (related : StructField) (pre post : List StructField) (C D : string),
        fields = pre ++ related :: post → related.column = B →
        (∀ g ∈ pre, g.column ≠ B) →
        related.Tag.Get "many-to-many" = C ++ "-" ++ D → '-' ∉ C.data →
        join_table_name decls field = .ok (A ++ "_" ++ C))
    ∧ ((∀ f ∈ fields, f.column ≠ B) → join_table_name decls field = .error .FieldNotFound)
    ∧ (field.Tag.Get "one-to-many" = "" → ∀ (v : Value) (id : Int) (w : World),
        (recursive_create_fields decls [(field, v)] id w).2 = w) := by
  have hs : strings.Split (A ++ "-" ++ B) '-' = [A, B] := by
    rw [strings_Split_dash A B hA, strings_Split_head B hB]
  refine ⟨?_, ?_, ?_⟩
  · intro related pre post C D hf hcol hpre hrel hC
    have hfind : find_by_json_tag decls elem B = .ok related := by
      simp only [find_by_json_tag, hel]
      exact (find_by_json_tag_loop_ok B fields related).mpr ⟨pre, post, hf, hcol, hpre⟩
    simp [join_table_name, hty, GoType.Elem, htag, hs, hfind, hrel,
      strings_Split_dash C D hC]
  · intro hnone
    have hfind : find_by_json_tag decls elem B = .error .FieldNotFound := by
      simp only [find_by_json_tag, hel]
      exact (find_by_json_tag_loop_error B fields).1.mpr hnone
    simp [join_table_name, hty, GoType.Elem, htag, hs, hfind]
  · intro h1 v id w
    exact recursive_create_fields_no_submission decls field v id w h1

/-- C19, on `User`: the field `worksFor` derives `boss_worker` and the field
`workers` derives `worker_boss`. -/
theorem C19_join_table_name_witness :
    join_table_name [User] ⟨"WorksFor", .slice (.named "User"),
        [("json", "worksFor"), ("many-to-many", "boss-workers")]⟩ = .ok "boss_worker"
    ∧ join_table_name [User] ⟨"Workers", .slice (.named "User"),
        [("json", "workers"), ("many-to-many", "worker-worksFor")]⟩ = .ok "worker_boss" :=
  ⟨(C19_join_table_name [User] ⟨"WorksFor", .slice (.named "User"),
        [("json", "worksFor"), ("many-to-many", "boss-workers")]⟩ (.named "User") User.Fields
      "boss" "workers" rfl rfl rfl (by decide) (by decide)).1
      ⟨"Workers", .slice (.named "User"),
        [("json", "workers"), ("many-to-many", "worker-worksFor")]⟩
      (User.Fields.take 5) [] "worker" "worksFor" rfl rfl (by decide) rfl (by decide),
   (C19_join_table_name [User] ⟨"Workers", .slice (.named "User"),
        [("json", "workers"), ("many-to-many", "worker-worksFor")]⟩ (.named "User") User.Fields
      "worker" "worksFor" rfl rfl rfl (by decide) (by decide)).1
      ⟨"WorksFor", .slice (.named "User"),
        [("json", "worksFor"), ("many-to-many", "boss-workers")]⟩
      (User.Fields.take 4) (User.Fields.drop 5) "boss" "workers" rfl rfl (by decide) rfl
      (by decide)⟩

/-! ### The Inserts handed to the executor -/

theorem recursive_create_collect_ok (fields : List (StructField × Value))
    (columns : List string) (values : List Value) (r : List string × List Value)
    (h : recursive_create_collect fields columns values = .ok r) :
    ∀ f ∈ fields, f.1.column ≠ "" := by
  induction fields generalizing columns values with
  | nil => simp
  | cons f fs ih =>
    obtain ⟨field, v⟩ := f
    simp only [recursive_create_collect] at h
    split at h
    · cases h
    · rename_i hj
      intro g hg
      rcases List.mem_cons.mp hg with hg | hg
      · rw [hg]
        exact hj
      · split at h
        · exact ih _ _ h g hg
        · exact ih _ _ h g hg

theorem recursive_create_collect_error (fields : List (StructField × Value))
    (columns : List string) (values : List Value) (h : ∃ f ∈ fields, f.1.column = "") :
    recursive_create_collect fields columns values = .error .Configuration := by
  induction fields generalizing columns values with
  | nil => simp at h
  | cons f fs ih =>
    obtain ⟨field, v⟩ := f
    simp only [recursive_create_collect]
    by_cases hj : field.Tag.Get "json" = ""
    · rw [if_pos hj]
    · rw [if_neg hj]
      have hrest : ∃ f ∈ fs, f.1.column = "" := by
        obtain ⟨g, hg, hg2⟩ := h
        rcases List.mem_cons.mp hg with hg | hg
        · rw [hg] at hg2
          exact absurd hg2 hj
        · exact ⟨g, hg, hg2⟩
      split
      · exact ih _ _ hrest
      · exact ih _ _ hrest

theorem recursive_create_collect_eq (fields : List (StructField × Value))
    (r : List string × List Value) (h : recursive_create_collect fields [] [] = .ok r) :
    r = ((collected_fields fields).map (fun f => f.1.column),
         (collected_fields fields).map Prod.snd) := by
  have hann := recursive_create_collect_ok fields [] [] r h
  rw [recursive_create_collect_spec fields [] [] hann] at h
  simp only [List.nil_append, Except.ok.injEq] at h
  rw [← h]
  rfl

theorem recursive_create_insert_WellFormed (name : string) (columns : List string)
    (values : List Value) (extras : List (string × Value))
    (h : columns.length = values.length) :
    (recursive_create_insert name columns values extras).WellFormed := by
  simp [Insert.WellFormed, recursive_create_insert, Insert.Args, Query.Args, h]

mutual
theorem recursive_create_appends (decls : Decls) :
    ∀ (obj : Value) (extras : List (string × Value)) (w : World),
      ∃ subs, (recursive_create decls obj extras w).2.executed = w.executed ++ subs
        ∧ ∀ s ∈ subs, s.insert.WellFormed
  | .struct name fields, extras, w => by
    unfold recursive_create
    cases hc : recursive_create_collect fields [] [] with
    | error e => exact ⟨[], by simp, by simp⟩
    | ok r =>
      obtain ⟨columns, values⟩ := r
      have hr := recursive_create_collect_eq fields _ hc
      simp only [Prod.mk.injEq] at hr
      have hwf := recursive_create_insert_WellFormed name columns values extras
        (by rw [hr.1, hr.2]; simp)
      obtain ⟨subs, h1, h2⟩ := recursive_create_fields_appends decls fields
        ((recursive_create_insert name columns values extras).fake_insert_execution w).1
        ((recursive_create_insert name columns values extras).fake_insert_execution w).2
      refine ⟨⟨recursive_create_insert name columns values extras, w.fake_ids⟩ :: subs, ?_, ?_⟩
      · simp only
        split
        · rename_i e w2 heq
          rw [heq] at h1
          simpa [Insert.fake_insert_execution] using h1
        · rename_i a w2 heq
          rw [heq] at h1
          simpa [Insert.fake_insert_execution] using h1
      · intro s hs
        rcases List.mem_cons.mp hs with hs | hs
        · rw [hs]
          exact hwf
        · exact h2 s hs
  | .str _, _, _ => ⟨[], by simp [recursive_create], by simp⟩
  | .int _, _, _ => ⟨[], by simp [recursive_create], by simp⟩
  | .slice _, _, _ => ⟨[], by simp [recursive_create], by simp⟩
termination_by obj => sizeOf obj
theorem recursive_create_fields_appends (decls : Decls) :
    ∀ (fields : List (StructField × Value)) (id : Int) (w : World),
      ∃ subs, (recursive_create_fields decls fields id w).2.executed = w.executed ++ subs
        ∧ ∀ s ∈ subs, s.insert.WellFormed
  | [], _, w => ⟨[], by simp [recursive_create_fields], by simp⟩
  | (field, .slice xs) :: rest, id, w => by
    unfold recursive_create_fields
    by_cases h1 : field.Tag.Get "one-to-many" ≠ ""
    · rw [if_pos h1]
      obtain ⟨s1, a1, b1⟩ := recursive_create_children_appends decls xs
        (field.Tag.Get "one-to-many") id w
      simp only
      split
      · rename_i e w1 heq
        rw [heq] at a1
        exact ⟨s1, a1, b1⟩
      · rename_i a w1 heq
        rw [heq] at a1
        obtain ⟨s2, a2, b2⟩ := recursive_create_fields_appends decls rest id w1
        refine ⟨s1 ++ s2, ?_, ?_⟩
        · rw [a2, a1]
          simp
        · intro s hs
          rcases List.mem_append.mp hs with hs | hs
          · exact b1 s hs
          · exact b2 s hs
    · rw [if_neg h1]
      split
      · split
        · exact ⟨[], by simp, by simp⟩
        · exact recursive_create_fields_appends decls rest id w
      · exact recursive_create_fields_appends decls rest id w
  | (field, .str s) :: rest, id, w => by
    unfold recursive_create_fields
    split
    · simp only
      split
      · exact recursive_create_fields_appends decls rest id w
      · exact ⟨[], by simp, by simp⟩
    · split
      · split
        · exact ⟨[], by simp, by simp⟩
        · exact recursive_create_fields_appends decls rest id w
      · exact recursive_create_fields_appends decls rest id w
  | (field, .int n) :: rest, id, w => by
    unfold recursive_create_fields
    split
    · exact ⟨[], by simp, by simp⟩
    · split
      · split
        · exact ⟨[], by simp, by simp⟩
        · exact recursive_create_fields_appends decls rest id w
      · exact recursive_create_fields_appends decls rest id w
  | (field, .struct nm fs) :: rest, id, w => by
    unfold recursive_create_fields
    split
    · exact ⟨[], by simp, by simp⟩
    · split
      · split
        · exact ⟨[], by simp, by simp⟩
        · exact recursive_create_fields_appends decls rest id w
      · exact recursive_create_fields_appends decls rest id w
termination_by fields => sizeOf fields
theorem recursive_create_children_appends (decls : Decls) :
    ∀ (xs : List Value) (fk : string) (id : Int) (w : World),
      ∃ subs, (recursive_create_children decls xs fk id w).2.executed = w.executed ++ subs
        ∧ ∀ s ∈ subs, s.insert.WellFormed
  | [], _, _, w => ⟨[], by simp [recursive_create_children], by simp⟩
  | child :: rest, fk, id, w => by
    unfold recursive_create_children
    obtain ⟨s1, a1, b1⟩ := recursive_create_appends decls child [(fk, .int id)] w
    split
    · rename_i e w1 heq
      rw [heq] at a1
      exact ⟨s1, a1, b1⟩
    · rename_i a w1 heq
      rw [heq] at a1
      obtain ⟨s2, a2, b2⟩ := recursive_create_children_appends decls rest fk id w1
      refine ⟨s1 ++ s2, ?_, ?_⟩
      · rw [a2, a1]
        simp
      · intro s hs
        rcases List.mem_append.mp hs with hs | hs
        · exact b1 s hs
        · exact b2 s hs
termination_by xs => sizeOf xs
end
theorem WellFormed_placeholders (i : Insert) (h : i.WellFormed)
    (ht : placeholders i.table = 0) (hc : ∀ c ∈ i.columns, placeholders c = 0) :
    placeholders i.String = i.Args.length := by
  rw [placeholders_Insert_String i ht hc, h.1, h.2]
  simp

theorem recursive_create_insert_pairs (name : string) (fields : List (StructField × Value))
    (extras : List (string × Value)) :
    (recursive_create_insert name ((collected_fields fields).map (fun f => f.1.column))
        ((collected_fields fields).map Prod.snd) extras).columns.zip
      (recursive_create_insert name ((collected_fields fields).map (fun f => f.1.column))
        ((collected_fields fields).map Prod.snd) extras).Args
      = (collected_fields fields).map (fun f => (f.1.column, f.2)) ++ extras := by
  simp only [recursive_create_insert, Insert.Args, Query.Args]
  rw [List.zip_append (by simp)]
  congr 1
  · induction collected_fields fields with
    | nil => rfl
    | cons x xs ih => simp [ih]
  · induction extras with
    | nil => rfl
    | cons x xs ih => simp [ih]

/-- C20: every Insert that `recursive_create` hands to the executor, for the
object and for the objects below it, has exactly one row, which is its `Args()`
and has one value per column, so that its rendered text holds as many
placeholders as `Args()` has elements when the table name and the column names
hold none; the Insert for the object itself, all its fields carrying a column
name, is submitted first, has the type name as table, and pairs the columns of
the collected fields with their values, in declaration order, followed by the
extras. -/
theorem C20_submitted_inserts_well_formed (decls : Decls) (obj : Value)
    (extras : List (string × Value)) (w : World) :
    ∃ subs : List Submission,
      (recursive_create decls obj extras w).2.executed = w.executed ++ subs
      ∧ (∀ s ∈ subs, s.insert.values = [s.insert.Args]
          ∧ s.insert.Args.length = s.insert.columns.length
          ∧ (placeholders s.insert.table = 0 → (∀ c ∈ s.insert.columns, placeholders c = 0) →
              placeholders s.insert.String = s.insert.Args.length))
      ∧ (∀ (name : string) (fields : List (StructField × Value)),
          obj = .struct name fields → (∀ f ∈ fields, f.1.column ≠ "") →
          ∃ s0 rest, subs = s0 :: rest ∧ s0.id = w.fake_ids ∧ s0.insert.table = name
            ∧ s0.insert.columns.zip s0.insert.Args
              = (collected_fields fields).map (fun f => (f.1.column, f.2)) ++ extras) := by
  obtain ⟨subs, h1, h2⟩ := recursive_create_appends decls obj extras w
  refine ⟨subs, h1, ?_, ?_⟩
  · intro s hs
    exact ⟨(h2 s hs).1, (h2 s hs).2, WellFormed_placeholders s.insert (h2 s hs)⟩
  · intro name fields hobj hann
    subst hobj
    have hcol := recursive_create_collect_spec fields [] [] hann
    simp only [List.nil_append] at hcol
    obtain ⟨subs2, a2, _⟩ := recursive_create_fields_appends decls fields w.fake_ids
      ⟨incInt w.fake_ids, w.executed ++ [⟨recursive_create_insert name
        ((collected_fields fields).map (fun f => f.1.column))
        ((collected_fields fields).map Prod.snd) extras, w.fake_ids⟩]⟩
    have hstate : (recursive_create decls (.struct name fields) extras w).2
        = (recursive_create_fields decls fields w.fake_ids
            ⟨incInt w.fake_ids, w.executed ++ [⟨recursive_create_insert name
              ((collected_fields fields).map (fun f => f.1.column))
              ((collected_fields fields).map Prod.snd) extras, w.fake_ids⟩]⟩).2 := by
      unfold recursive_create
      simp only [hcol, Insert.fake_insert_execution, collected_fields]
      split <;> simp_all
    rw [hstate, a2, List.append_assoc] at h1
    have hsubs := List.append_cancel_left h1
    refine ⟨_, subs2, hsubs.symm, rfl, rfl, ?_⟩
    exact recursive_create_insert_pairs name fields extras

/-- C20, the tree built in `main`: four Inserts, each with one row of seven
values for seven columns, the root's with the six columns of `User`. -/
theorem C20_submitted_inserts_well_formed_witness :
    ∃ subs : List Submission,
      (recursive_create [User] main_u [] {}).2.executed = subs
      ∧ subs.map (fun s => (s.insert.values.length, s.insert.Args.length,
          s.insert.columns.length)) = [(1, 6, 6), (1, 7, 7), (1, 7, 7), (1, 7, 7)]
      ∧ (∀ s ∈ subs, placeholders s.insert.String = s.insert.Args.length) := by
  obtain ⟨subs, h1, h2, _⟩ := C20_submitted_inserts_well_formed [User] main_u [] {}
  refine ⟨subs, by simpa using h1, ?_, ?_⟩
  · have h3 : (recursive_create [User] main_u [] {}).2.executed = [] ++ subs := h1
    rw [List.nil_append] at h3
    rw [← h3]
    decide
  · intro s hs
    have h3 : (recursive_create [User] main_u [] {}).2.executed = [] ++ subs := h1
    rw [List.nil_append] at h3
    refine (h2 s hs).2.2 ?_ ?_
    · rw [← h3] at hs
      revert s
      decide
    · rw [← h3] at hs
      revert s
      decide

/-! ### A field without a column name -/

theorem resolvable_fields_cons (decls : Decls) (field : StructField) (v : Value)
    (rest : List (StructField × Value))
    (h : resolvable_fields decls ((field, v) :: rest) = true)
    (h1 : ¬ field.Tag.Get "one-to-many" ≠ "") :
    (if field.Tag.Get "many-to-many" ≠ "" then (join_table_name decls field).isOk
      else true) = true
    ∧ resolvable_fields decls rest = true := by
  simp only [resolvable_fields, List.all_cons, Bool.and_eq_true, Bool.or_eq_true, bne_iff_ne,
    beq_iff_eq] at h
  refine ⟨?_, by simpa [resolvable_fields] using h.2⟩
  rcases h.1 with (h2 | h2) | h2
  · exact absurd h2 h1
  · simp [h2]
  · simp [h2]

theorem resolvable_fields_tail (decls : Decls) (f : StructField × Value)
    (rest : List (StructField × Value))
    (h : resolvable_fields decls (f :: rest) = true) :
    resolvable_fields decls rest = true := by
  simp only [resolvable_fields, List.all_cons, Bool.and_eq_true] at h
  simpa [resolvable_fields] using h.2

mutual
theorem recursive_create_prefix (decls : Decls) (c : Int) (ex0 : List (string × Value)) :
    ∀ (node : Value) (next : Nat) (parent : Option (Nat × string)) (w : World) (k : Nat),
      tree_shaped node = true → w.fake_ids = c + next → -2 ^ 63 ≤ c + next →
      c + next + k ≤ maxInt → k ≤ (preorder next parent node).length →
      (∀ j n, j < k → (preorder next parent node)[j]? = some n →
        n.node.annotated = true ∧ n.node.resolvable decls = true) →
      (∀ n, (preorder next parent node)[k]? = some n → n.node.annotated = false) →
      recursive_create decls node (TreeNode.extras c ex0 ⟨next, node, parent⟩) w
        = (if k < (preorder next parent node).length then .error .Configuration
            else .ok (c + next),
            ⟨c + next + k,
             w.executed ++ ((preorder next parent node).take k).map
               (TreeNode.submission c ex0)⟩)
  | .struct name fields, next, parent, w, 0, _, hw, _, _, _, _, hbad => by
    have hb := hbad ⟨next, .struct name fields, parent⟩ (by simp [preorder])
    simp only [Value.annotated, List.all_eq_false, bne_iff_ne, ne_eq, not_not] at hb
    have hcol := recursive_create_collect_error fields [] [] hb
    unfold recursive_create
    simp only [hcol, preorder, List.length_cons, Nat.zero_lt_succ, if_true, List.take_zero,
      List.map_nil, List.append_nil, Nat.cast_zero, add_zero, ← hw]
  | .struct name fields, next, parent, w, k + 1, hsh, hw, hlo, hhi, hk, hgood, hbad => by
    have h0 := hgood 0 ⟨next, .struct name fields, parent⟩ (by omega) (by simp [preorder])
    obtain ⟨hann, hres⟩ := h0
    simp only [Value.annotated, List.all_eq_true, bne_iff_ne, ne_eq] at hann
    simp only [Value.resolvable] at hres
    simp only [tree_shaped] at hsh
    have hcol := recursive_create_collect_spec fields [] [] (fun f hf => hann f hf)
    simp only [preorder, List.length_cons] at hk hgood hbad ⊢
    have hinc : incInt (c + next) = c + (next + 1 : Nat) := by
      rw [incInt_eq _ hlo (by push_cast at hhi; omega)]
      push_cast
      ring
    have hf := recursive_create_fields_prefix decls c ex0 fields next (next + 1)
      ⟨c + (next + 1 : Nat), w.executed ++ [⟨node_insert (.struct name fields)
        (TreeNode.extras c ex0 ⟨next, .struct name fields, parent⟩), c + next⟩]⟩ k
      hsh hres rfl (by push_cast; omega) (by push_cast at hhi ⊢; omega) (by omega)
      (fun j n hj hn => hgood (j + 1) n (by omega) (by simpa using hn))
      (fun n hn => hbad n (by simpa using hn))
    unfold recursive_create
    simp only [hcol, Insert.fake_insert_execution, hw, hinc]
    simp only [node_insert, hcol] at hf
    rw [hf]
    by_cases hlt : k < (preorder_fields next (next + 1) fields).length
    · simp only [hlt, if_true, Nat.add_lt_add_iff_right, List.take_succ_cons, List.map_cons,
        List.append_assoc, List.singleton_append, TreeNode.submission, node_insert, hcol]
      congr 2
      push_cast
      ring
    · simp only [hlt, if_false, Nat.add_lt_add_iff_right, List.take_succ_cons, List.map_cons,
        List.append_assoc, List.singleton_append, TreeNode.submission, node_insert, hcol]
      congr 2
      push_cast
      ring
  | .str _, _, _, _, _, hsh, _, _, _, _, _, _ => by simp [tree_shaped] at hsh
  | .int _, _, _, _, _, hsh, _, _, _, _, _, _ => by simp [tree_shaped] at hsh
  | .slice _, _, _, _, _, hsh, _, _, _, _, _, _ => by simp [tree_shaped] at hsh
termination_by node => sizeOf node
theorem recursive_create_fields_prefix (decls : Decls) (c : Int)
    (ex0 : List (string × Value)) :
    ∀ (fields : List (StructField × Value)) (me next : Nat) (w : World) (k : Nat),
      tree_shaped_fields fields = true → resolvable_fields decls fields = true →
      w.fake_ids = c + next → -2 ^ 63 ≤ c + next →
      c + next + k ≤ maxInt → k ≤ (preorder_fields me next fields).length →
      (∀ j n, j < k → (preorder_fields me next fields)[j]? = some n →
        n.node.annotated = true ∧ n.node.resolvable decls = true) →
      (∀ n, (preorder_fields me next fields)[k]? = some n → n.node.annotated = false) →
      recursive_create_fields decls fields (c + me) w
        = (if k < (preorder_fields me next fields).length then .error .Configuration
            else .ok (),
            ⟨c + next + k,
             w.executed ++ ((preorder_fields me next fields).take k).map
               (TreeNode.submission c ex0)⟩)
  | [], me, next, w, k, _, _, hw, _, _, hk, _, _ => by
    simp only [preorder_fields, List.length_nil, Nat.le_zero_eq] at hk
    subst hk
    simp [recursive_create_fields, preorder_fields, ← hw]
  | (field, .slice xs) :: rest, me, next, w, k, hsh, hres, hw, hlo, hhi, hk, hgood, hbad => by
    simp only [tree_shaped_fields, Bool.and_eq_true] at hsh
    obtain ⟨hs1, hs2⟩ := hsh
    by_cases h1 : field.Tag.Get "one-to-many" ≠ ""
    · rw [if_pos h1] at hs1
      have hpo : preorder_fields me next ((field, .slice xs) :: rest)
          = preorder_children me next (field.Tag.Get "one-to-many") xs
            ++ preorder_fields me
                (next + (preorder_children me next (field.Tag.Get "one-to-many") xs).length)
                rest := by
        rw [preorder_fields, if_pos h1]
      rw [hpo] at hk hgood hbad ⊢
      simp only [List.length_append] at hk ⊢
      rw [recursive_create_fields, if_pos h1]
      by_cases hlt : k < (preorder_children me next (field.Tag.Get "one-to-many") xs).length
      · have hc := recursive_create_children_prefix decls c ex0 xs me next
          (field.Tag.Get "one-to-many") w k hs1 hw hlo hhi (by omega)
          (fun j n hj hn => hgood j n hj (by rw [List.getElem?_append_left (by omega)]; exact hn))
          (fun n hn => hbad n (by rw [List.getElem?_append_left hlt]; exact hn))
        rw [hc]
        have hlt2 : k < (preorder_children me next (field.Tag.Get "one-to-many") xs).length
            + (preorder_fields me (next
              + (preorder_children me next (field.Tag.Get "one-to-many") xs).length)
              rest).length := by omega
        simp only [hlt, hlt2, if_true, List.take_append_of_le_length (Nat.le_of_lt hlt)]
      · have hge : (preorder_children me next (field.Tag.Get "one-to-many") xs).length ≤ k := by
          omega
        have hc := recursive_create_children_prefix decls c ex0 xs me next
          (field.Tag.Get "one-to-many") w
          (preorder_children me next (field.Tag.Get "one-to-many") xs).length
          hs1 hw hlo (by omega) (le_refl _)
          (fun j n hj hn => hgood j n (by omega)
            (by rw [List.getElem?_append_left hj]; exact hn))
          (fun n hn => by simp at hn)
        have hr := recursive_create_fields_prefix decls c ex0 rest me
          (next + (preorder_children me next (field.Tag.Get "one-to-many") xs).length)
          ⟨c + next + (preorder_children me next (field.Tag.Get "one-to-many") xs).length,
            w.executed ++ (preorder_children me next (field.Tag.Get "one-to-many") xs).map
              (TreeNode.submission c ex0)⟩
          (k - (preorder_children me next (field.Tag.Get "one-to-many") xs).length)
          hs2 (resolvable_fields_tail decls _ rest hres) (by push_cast; ring)
          (by push_cast; omega) (by push_cast; omega) (by omega)
          (fun j n hj hn => hgood
            (j + (preorder_children me next (field.Tag.Get "one-to-many") xs).length) n
            (by omega)
            (by rw [List.getElem?_append_right (by omega)]; simpa using hn))
          (fun n hn => hbad n (by rw [List.getElem?_append_right hge]; exact hn))
        rw [hc]
        simp only [Nat.lt_irrefl, if_false, List.take_length]
        rw [hr]
        have ht : (preorder_children me next (field.Tag.Get "one-to-many") xs
            ++ preorder_fields me (next
              + (preorder_children me next (field.Tag.Get "one-to-many") xs).length) rest).take k
            = preorder_children me next (field.Tag.Get "one-to-many") xs
              ++ (preorder_fields me (next
                + (preorder_children me next (field.Tag.Get "one-to-many") xs).length)
                rest).take
                (k - (preorder_children me next (field.Tag.Get "one-to-many") xs).length) := by
          rw [List.take_append_eq_append_take, List.take_of_length_le hge]
        rw [ht]
        by_cases hlt3 : k - (preorder_children me next (field.Tag.Get "one-to-many") xs).length
            < (preorder_fields me (next
              + (preorder_children me next (field.Tag.Get "one-to-many") xs).length)
              rest).length
        · have hlt4 : k < (preorder_children me next (field.Tag.Get "one-to-many") xs).length
              + (preorder_fields me (next
                + (preorder_children me next (field.Tag.Get "one-to-many") xs).length)
                rest).length := by omega
          simp only [hlt3, hlt4, if_true, List.map_append, List.append_assoc]
          congr 2
          push_cast
          omega
        · have hlt4 : ¬ k < (preorder_children me next (field.Tag.Get "one-to-many") xs).length
              + (preorder_fields me (next
                + (preorder_children me next (field.Tag.Get "one-to-many") xs).length)
                rest).length := by omega
          simp only [hlt3, hlt4, if_false, List.map_append, List.append_assoc]
          congr 2
          push_cast
          omega
    · obtain ⟨hok, hres2⟩ := resolvable_fields_cons decls field _ rest hres h1
      rw [preorder_fields_skip _ _ _ _ _ h1] at hk hgood hbad ⊢
      rw [recursive_create_fields_skip _ _ _ _ _ _ h1 hok]
      exact recursive_create_fields_prefix decls c ex0 rest me next w k hs2 hres2 hw hlo hhi hk
        hgood hbad
  | (field, .str s) :: rest, me, next, w, k, hsh, hres, hw, hlo, hhi, hk, hgood, hbad => by
    simp only [tree_shaped_fields, Bool.and_eq_true] at hsh
    obtain ⟨hs1, hs2⟩ := hsh
    by_cases h1 : field.Tag.Get "one-to-many" ≠ ""
    · rw [if_pos h1] at hs1
      simp at hs1
    · obtain ⟨hok, hres2⟩ := resolvable_fields_cons decls field _ rest hres h1
      rw [preorder_fields_skip _ _ _ _ _ h1] at hk hgood hbad ⊢
      rw [recursive_create_fields_skip _ _ _ _ _ _ h1 hok]
      exact recursive_create_fields_prefix decls c ex0 rest me next w k hs2 hres2 hw hlo hhi hk
        hgood hbad
  | (field, .int i) :: rest, me, next, w, k, hsh, hres, hw, hlo, hhi, hk, hgood, hbad => by
    simp only [tree_shaped_fields, Bool.and_eq_true] at hsh
    obtain ⟨hs1, hs2⟩ := hsh
    by_cases h1 : field.Tag.Get "one-to-many" ≠ ""
    · rw [if_pos h1] at hs1
      simp at hs1
    · obtain ⟨hok, hres2⟩ := resolvable_fields_cons decls field _ rest hres h1
      rw [preorder_fields_skip _ _ _ _ _ h1] at hk hgood hbad ⊢
      rw [recursive_create_fields_skip _ _ _ _ _ _ h1 hok]
      exact recursive_create_fields_prefix decls c ex0 rest me next w k hs2 hres2 hw hlo hhi hk
        hgood hbad
  | (field, .struct nm fs) :: rest, me, next, w, k, hsh, hres, hw, hlo, hhi, hk, hgood,
      hbad => by
    simp only [tree_shaped_fields, Bool.and_eq_true] at hsh
    obtain ⟨hs1, hs2⟩ := hsh
    by_cases h1 : field.Tag.Get "one-to-many" ≠ ""
    · rw [if_pos h1] at hs1
      simp at hs1
    · obtain ⟨hok, hres2⟩ := resolvable_fields_cons decls field _ rest hres h1
      rw [preorder_fields_skip _ _ _ _ _ h1] at hk hgood hbad ⊢
      rw [recursive_create_fields_skip _ _ _ _ _ _ h1 hok]
      exact recursive_create_fields_prefix decls c ex0 rest me next w k hs2 hres2 hw hlo hhi hk
        hgood hbad
termination_by fields => sizeOf fields
theorem recursive_create_children_prefix (decls : Decls) (c : Int)
    (ex0 : List (string × Value)) :
    ∀ (xs : List Value) (me next : Nat) (fk : string) (w : World) (k : Nat),
      tree_shaped_children xs = true →
      w.fake_ids = c + next → -2 ^ 63 ≤ c + next →
      c + next + k ≤ maxInt → k ≤ (preorder_children me next fk xs).length →
      (∀ j n, j < k → (preorder_children me next fk xs)[j]? = some n →
        n.node.annotated = true ∧ n.node.resolvable decls = true) →
      (∀ n, (preorder_children me next fk xs)[k]? = some n → n.node.annotated = false) →
      recursive_create_children decls xs fk (c + me) w
        = (if k < (preorder_children me next fk xs).length then .error .Configuration
            else .ok (),
            ⟨c + next + k,
             w.executed ++ ((preorder_children me next fk xs).take k).map
               (TreeNode.submission c ex0)⟩)
  | [], me, next, fk, w, k, _, hw, _, _, hk, _, _ => by
    simp only [preorder_children, List.length_nil, Nat.le_zero_eq] at hk
    subst hk
    simp [recursive_create_children, preorder_children, ← hw]
  | child :: rest, me, next, fk, w, k, hsh, hw, hlo, hhi, hk, hgood, hbad => by
    simp only [tree_shaped_children, Bool.and_eq_true] at hsh
    obtain ⟨hs1, hs2⟩ := hsh
    simp only [preorder_children] at hk hgood hbad ⊢
    simp only [List.length_append] at hk ⊢
    unfold recursive_create_children
    by_cases hlt : k < (preorder next (some (me, fk)) child).length
    · have hc := recursive_create_prefix decls c ex0 child next (some (me, fk)) w k hs1 hw hlo
        hhi (by omega)
        (fun j n hj hn => hgood j n hj (by rw [List.getElem?_append_left (by omega)]; exact hn))
        (fun n hn => hbad n (by rw [List.getElem?_append_left hlt]; exact hn))
      simp only [TreeNode.extras] at hc
      rw [hc]
      have hlt2 : k < (preorder next (some (me, fk)) child).length
          + (preorder_children me (next + (preorder next (some (me, fk)) child).length) fk
            rest).length := by omega
      simp only [hlt, hlt2, if_true, List.take_append_of_le_length (Nat.le_of_lt hlt)]
    · have hge : (preorder next (some (me, fk)) child).length ≤ k := by omega
      have hc := recursive_create_prefix decls c ex0 child next (some (me, fk)) w
        (preorder next (some (me, fk)) child).length hs1 hw hlo (by omega) (le_refl _)
        (fun j n hj hn => hgood j n (by omega)
          (by rw [List.getElem?_append_left hj]; exact hn))
        (fun n hn => by simp at hn)
      have hr := recursive_create_children_prefix decls c ex0 rest me
        (next + (preorder next (some (me, fk)) child).length) fk
        ⟨c + next + (preorder next (some (me, fk)) child).length,
          w.executed ++ (preorder next (some (me, fk)) child).map (TreeNode.submission c ex0)⟩
        (k - (preorder next (some (me, fk)) child).length)
        hs2 (by push_cast; ring) (by push_cast; omega) (by push_cast; omega) (by omega)
        (fun j n hj hn => hgood (j + (preorder next (some (me, fk)) child).length) n
          (by omega) (by rw [List.getElem?_append_right (by omega)]; simpa using hn))
        (fun n hn => hbad n (by rw [List.getElem?_append_right hge]; exact hn))
      simp only [TreeNode.extras] at hc
      rw [hc]
      simp only [Nat.lt_irrefl, if_false, List.take_length]
      rw [hr]
      have ht : (preorder next (some (me, fk)) child
          ++ preorder_children me (next + (preorder next (some (me, fk)) child).length) fk
            rest).take k
          = preorder next (some (me, fk)) child
            ++ (preorder_children me (next + (preorder next (some (me, fk)) child).length) fk
              rest).take (k - (preorder next (some (me, fk)) child).length) := by
        rw [List.take_append_eq_append_take, List.take_of_length_le hge]
      rw [ht]
      by_cases hlt3 : k - (preorder next (some (me, fk)) child).length
          < (preorder_children me (next + (preorder next (some (me, fk)) child).length) fk
            rest).length
      · have hlt4 : k < (preorder next (some (me, fk)) child).length
            + (preorder_children me (next + (preorder next (some (me, fk)) child).length) fk
              rest).length := by omega
        simp only [hlt3, hlt4, if_true, List.map_append, List.append_assoc]
        congr 2
        push_cast
        omega
      · have hlt4 : ¬ k < (preorder next (some (me, fk)) child).length
            + (preorder_children me (next + (preorder next (some (me, fk)) child).length) fk
              rest).length := by omega
        simp only [hlt3, hlt4, if_false, List.map_append, List.append_assoc]
        congr 2
        push_cast
        omega
termination_by xs => sizeOf xs
end
/-- C11: on an object tree in which the node `N` at position `k` of the
depth-first pre-order has a field without a column name, all nodes before it
having their fields annotated and their many-to-many tags resolvable, and with
room for `k` identifiers in Go's `int`, `recursive_create` panics with the
configuration error and returns no identifier; the Inserts submitted before the
panic are exactly those of the `k` nodes before `N`, in pre-order, so that none
is submitted for `N`, for a node below `N` or for a node after `N`. -/
theorem C11_missing_column_name_aborts (decls : Decls) (root : Value)
    (extras : List (string × Value)) (w : World) (k : Nat) (N : TreeNode)
    (hsh : tree_shaped root = true)
    (hN : (preorder 0 none root)[k]? = some N) (hbad : N.node.annotated = false)
    (hgood : ∀ j n, j < k → (preorder 0 none root)[j]? = some n →
      n.node.annotated = true ∧ n.node.resolvable decls = true)
    (hlo : -2 ^ 63 ≤ w.fake_ids) (hhi : w.fake_ids + k ≤ maxInt) :
    (recursive_create decls root extras w).1 = .error .Configuration
    ∧ (recursive_create decls root extras w).2.executed
        = w.executed ++ ((preorder 0 none root).take k).map
            (TreeNode.submission w.fake_ids extras)
    ∧ (((preorder 0 none root).take k).map (TreeNode.submission w.fake_ids extras)).length = k
    ∧ (recursive_create decls root extras w).2.fake_ids = w.fake_ids + k := by
  have hk : k < (preorder 0 none root).length := by
    by_contra hc
    rw [List.getElem?_eq_none (by omega)] at hN
    cases hN
  have h := recursive_create_prefix decls w.fake_ids extras root 0 none w k hsh (by simp)
    (by simpa using hlo) (by simpa using hhi) (Nat.le_of_lt hk)
    hgood (fun n hn => by rw [hN] at hn; cases hn; exact hbad)
  have hex : TreeNode.extras w.fake_ids extras ⟨0, root, none⟩ = extras := rfl
  rw [hex] at h
  rw [h]
  simp only [hk, if_true, Nat.cast_zero, add_zero]
  refine ⟨trivial, trivial, ?_, trivial⟩
  simp [Nat.le_of_lt hk]

/-- C11, on a post with two notes whose field `Body` has no column name: the
Insert of the post is submitted with the identifier 12, then the first note
aborts the traversal. -/
theorem C11_missing_column_name_aborts_witness :
    (recursive_create [Post, Note] (Post.mk "p" [Note.mk "a" "x", Note.mk "b" "y"]) [] {}).1
      = .error .Configuration
    ∧ (recursive_create [Post, Note] (Post.mk "p" [Note.mk "a" "x", Note.mk "b" "y"]) []
        {}).2.executed.map (fun s => (s.insert.table, s.id)) = [("Post", 12)]
    ∧ (preorder 0 none (Post.mk "p" [Note.mk "a" "x", Note.mk "b" "y"])).length = 3 :=
  ⟨(C11_missing_column_name_aborts [Post, Note]
      (Post.mk "p" [Note.mk "a" "x", Note.mk "b" "y"]) [] {} 1
      ⟨1, Note.mk "a" "x", some (0, "post_id")⟩ (by decide) rfl (by decide)
      (fun j n hj hn => by
        have hj0 : j = 0 := by omega
        subst hj0
        have hn2 : n = ⟨0, Post.mk "p" [Note.mk "a" "x", Note.mk "b" "y"], none⟩ := by
          have h0 : (preorder 0 none (Post.mk "p" [Note.mk "a" "x", Note.mk "b" "y"]))[0]?
              = some ⟨0, Post.mk "p" [Note.mk "a" "x", Note.mk "b" "y"], none⟩ := rfl
          rw [h0] at hn
          cases hn
          rfl
        subst hn2
        exact ⟨by decide, by decide⟩)
      (by decide) (by decide)).1,
    by decide, by decide⟩

end SqlGen
